import Mathlib

/-!
Verification of the `logger` Go package (Aibier/go-logger): a shallow
embedding of the level type, the secret-masking byte transform, the
Recorder test writer (with its parent-chain heap structure), and the
Logger facade, together with proofs of the specified properties.

Machine integers: Go `type Level int` is modelled as `Int` (indexing a
slice with a negative or out-of-range value panics, modelled by `Option`).
Byte buffers are modelled as `List Char` (the code only manipulates them
bytewise through the two fixed regular expressions).
-/

namespace GoLogger

/-! ## Level (source: `Level`, `levelNames`, `Level.String`, `LevelFromString`) -/

/-- `var levelNames = []string{"debug", "info", "warning", "error", "panic", "fatal"}` -/
def levelNames : List String := ["debug", "info", "warning", "error", "panic", "fatal"]

/-- `DebugLevel Level = iota` -/
def DebugLevel : Int := 0
def InfoLevel : Int := 1
def WarningLevel : Int := 2
def ErrorLevel : Int := 3
def PanicLevel : Int := 4
def FatalLevel : Int := 5

/-- `func (l Level) String() string { return levelNames[l] }`.
Indexing a Go slice with an index that is negative or not below the
length panics; the panic is modelled by `none`. -/
def levelString (l : Int) : Option String :=
  if l < 0 then none else levelNames.get? l.toNat

/-- `strings.ToLower` on the ASCII byte strings the level names use:
lowercase every character. -/
def lowerStr (s : String) : String := String.mk (s.toList.map Char.toLower)

/-- `func LevelFromString(level string) Level`: a `switch` on
`strings.ToLower(level)` over the six canonical names, returning
`DebugLevel` in the `default` branch. Go's `switch` compares the cases
in order, which the nested conditionals mirror. -/
def LevelFromString (level : String) : Int :=
  let s := lowerStr level
  if s = "debug" then DebugLevel
  else if s = "info" then InfoLevel
  else if s = "warning" then WarningLevel
  else if s = "error" then ErrorLevel
  else if s = "panic" then PanicLevel
  else if s = "fatal" then FatalLevel
  else DebugLevel

/-! ## SecretMask (source: `patternAuthorization`, `patternPassword`, `SecretMask`)

The two precompiled patterns are
`(?i)(Authorization:\s*\w+\s\w{3})[^\r\n]*([^\r\n]{3})` (replaced by
`$1*****$2`) and `(?i)(password"\s*:\s*".{2})[^"]*(.{1}")` (replaced by
`$1***$2`). Go's regexp engine uses leftmost-first (backtracking-
preference) semantics: `ReplaceAll` rewrites each leftmost,
non-overlapping match, resuming the scan after the match.

For these two concrete patterns the backtracking search is deterministic
and is embedded below as a direct matcher. The character classes are
RE2's: `\w = [0-9A-Za-z_]`, `\s = [\t\n\f\r ]`, `.` is any character
except `\n`. -/

def isWordChar (c : Char) : Bool :=
  (('a' ≤ c && c ≤ 'z') || ('A' ≤ c && c ≤ 'Z') || ('0' ≤ c && c ≤ '9') || c = '_')

def isSpaceChar (c : Char) : Bool :=
  (c = ' ' || c = '\t' || c = '\n' || c = '\x0c' || c = '\r')

def isCRLF (c : Char) : Bool := (c = '\r' || c = '\n')

/-- Case-insensitive character comparison, for the `(?i)` flag. -/
def lowerEq (a b : Char) : Bool := a.toLower = b.toLower

/-- Match a literal case-insensitively; returns the consumed input
characters (which `$1` preserves verbatim) and the remaining input. -/
def matchLitCI : List Char → List Char → Option (List Char × List Char)
  | [], l => some ([], l)
  | _ :: _, [] => none
  | p :: ps, c :: cs =>
    if lowerEq c p then
      (matchLitCI ps cs).map (fun r => (c :: r.1, r.2))
    else none

/-- One match attempt of `patternAuthorization` anchored at the head of
`l`; on success returns the expansion of `$1*****$2` and the input
remaining after the match.

Determinism of the backtracking search: `\s*` and `\w+` are greedy, and
since `\s` and `\w` are disjoint classes a shorter run would place a
character of the wrong class under the next pattern element, so only the
maximal runs can succeed; `\w{3}` is exact; the greedy `[^\r\n]*` backs
off exactly 3 characters so `([^\r\n]{3})` takes the last 3 characters
of the maximal non-CRLF run. -/
def tryAuthorizationAt (l : List Char) : Option (List Char × List Char) :=
  match matchLitCI "Authorization:".toList l with
  | none => none
  | some (lit, r1) =>
    let ws := r1.takeWhile isSpaceChar
    let r2 := r1.dropWhile isSpaceChar
    let wd := r2.takeWhile isWordChar
    let r3 := r2.dropWhile isWordChar
    if wd.isEmpty then none
    else
      match r3 with
      | [] => none
      | s1 :: r4 =>
        if isSpaceChar s1 then
          match r4 with
          | a :: b :: c :: r5 =>
            if isWordChar a && isWordChar b && isWordChar c then
              let run := r5.takeWhile (fun ch => !isCRLF ch)
              let rest := r5.dropWhile (fun ch => !isCRLF ch)
              if run.length < 3 then none
              else
                some (lit ++ ws ++ wd ++ [s1, a, b, c] ++ "*****".toList
                        ++ run.drop (run.length - 3), rest)
            else none
          | _ => none
        else none

/-- One match attempt of `patternPassword` anchored at the head of `l`;
on success returns the expansion of `$1***$2` and the remaining input.

Determinism: as above for `\s*` (disjoint from `:` and `"`); `.{2}` is
exact (any two characters other than `\n`, quotes included). For the
greedy `[^"]*(.{1}")` tail, with `r` the maximal run of non-quote
characters: the star keeps all `r` characters when the run is followed
by two quotes (`.` consumes the first); otherwise it backs off one
character, which succeeds when the run is non-empty, its last character
is not `\n`, and the run is followed by a quote; shorter star widths
would place a non-quote run character under the final literal `"`. -/
def tryPasswordAt (l : List Char) : Option (List Char × List Char) :=
  match matchLitCI "password\"".toList l with
  | none => none
  | some (lit, r1) =>
    let ws1 := r1.takeWhile isSpaceChar
    match r1.dropWhile isSpaceChar with
    | ':' :: r3 =>
      let ws2 := r3.takeWhile isSpaceChar
      match r3.dropWhile isSpaceChar with
      | '"' :: x :: y :: r5 =>
        if x ≠ '\n' && y ≠ '\n' then
          let g1 := lit ++ ws1 ++ [':'] ++ ws2 ++ ['"', x, y]
          let run := r5.takeWhile (fun ch => ch ≠ '"')
          match r5.dropWhile (fun ch => ch ≠ '"') with
          | '"' :: '"' :: tail => some (g1 ++ "***".toList ++ ['"', '"'], tail)
          | '"' :: tail =>
            match run.getLast? with
            | some lc => if lc ≠ '\n'
                then some (g1 ++ "***".toList ++ [lc, '"'], tail)
                else none
            | none => none
          | _ => none
        else none
      | _ => none
    | _ => none

/-- `Regexp.ReplaceAll`: rewrite every leftmost non-overlapping match,
resuming after each match; characters at positions where no match starts
are copied. Every match of either pattern consumes at least one input
character, so `l.length` steps of fuel always suffice. -/
def replaceAllAux (tryAt : List Char → Option (List Char × List Char)) :
    Nat → List Char → List Char
  | 0, l => l
  | _ + 1, [] => []
  | fuel + 1, c :: cs =>
    match tryAt (c :: cs) with
    | some (rep, rest) => rep ++ replaceAllAux tryAt fuel rest
    | none => c :: replaceAllAux tryAt fuel cs

def replaceAll (tryAt : List Char → Option (List Char × List Char))
    (l : List Char) : List Char :=
  replaceAllAux tryAt l.length l

/-- `func SecretMask(b []byte) []byte`: the authorization pattern is
applied first, then the password pattern is applied to its output. -/
def SecretMask (b : List Char) : List Char :=
  replaceAll tryPasswordAt (replaceAll tryAuthorizationAt b)

/-! ## Recorder (source: `recorder.go`)

A `*Recorder` is a heap node holding its own `fields`, `syncCalled`,
`parent` pointer and `entries` slice. The heap is modelled as a list of
nodes addressed by position; `With` allocates the clone at the end of
the heap, so parent pointers always point strictly downwards. -/

inductive LogArg where
  | str (s : String)
  | int (n : Int)
deriving DecidableEq, Repr

/-- `type LogEntry struct` with `Level`, `Str`, `Args`, `Fields`. -/
structure LogEntry where
  Level : Int
  Str : String
  Args : List LogArg
  Fields : List LogArg
deriving DecidableEq, Repr

structure RecorderObj where
  fields : List LogArg
  syncCalled : Bool
  parent : Option Nat
  entries : List LogEntry
deriving DecidableEq, Repr

/-- The zero value `&Recorder{}`. -/
def zeroRecorder : RecorderObj :=
  { fields := [], syncCalled := false, parent := none, entries := [] }

abbrev Store := List RecorderObj

def heapGet (σ : Store) (r : Nat) : RecorderObj := List.getD σ r zeroRecorder

def heapLen (σ : Store) : Nat := List.length σ

def heapSet (σ : Store) (r : Nat) (o : RecorderObj) : Store := List.set σ r o

/-- `func (rec *Recorder) top() *Recorder`: follow parent pointers to the
node with no parent. Parent pointers of well-formed heaps point strictly
downwards, so `heapLen σ` steps of fuel always suffice. -/
def topAux : Nat → Store → Nat → Nat
  | 0, _, r => r
  | fuel + 1, σ, r =>
    match (heapGet σ r).parent with
    | some p => topAux fuel σ p
    | none => r

def top (σ : Store) (r : Nat) : Nat := topAux (heapLen σ) σ r

/-- Heap well-formedness: every parent pointer points to a strictly
smaller address (out-of-range reads yield `zeroRecorder`, whose parent
is `none`). Heaps grown from a single zero recorder by `recWith`
satisfy this by construction. -/
def WFStore (σ : Store) : Prop :=
  ∀ i p, (heapGet σ i).parent = some p → p < i

/-- `func (rec *Recorder) With(fields ...interface\x7b\x7d) Writer`: builds
`all = rec.fields ++ fields` and allocates `clone(all)`, a fresh node
whose `parent` is the receiver; the clone starts with empty entries and
a clear sync flag. Returns the heap and the new node's address. -/
def recWith (σ : Store) (r : Nat) (fields : List LogArg) : Store × Nat :=
  let all := (heapGet σ r).fields ++ fields
  (σ ++ [{ fields := all, syncCalled := false, parent := some r, entries := [] }],
    heapLen σ)

/-- `func (rec *Recorder) record(...)`: appends an entry carrying a
snapshot of the receiver's fields to the entry list of the top-most
recorder. -/
def recRecord (σ : Store) (r : Nat) (level : Int) (str : String)
    (args : List LogArg) : Store :=
  let t := top σ r
  let e : LogEntry :=
    { Level := level, Str := str, Args := args, Fields := (heapGet σ r).fields }
  heapSet σ t { heapGet σ t with entries := (heapGet σ t).entries ++ [e] }

/-- `Recorder.Log` records with an empty format string. -/
def recLog (σ : Store) (r : Nat) (level : Int) (args : List LogArg) : Store :=
  recRecord σ r level "" args

def recLogf (σ : Store) (r : Nat) (level : Int) (str : String)
    (args : List LogArg) : Store :=
  recRecord σ r level str args

/-- `Recorder.Sync`: sets `syncCalled` on the top-most recorder. -/
def recSync (σ : Store) (r : Nat) : Store :=
  heapSet σ (top σ r) { heapGet σ (top σ r) with syncCalled := true }

def recSyncCalled (σ : Store) (r : Nat) : Bool := (heapGet σ (top σ r)).syncCalled

def recEntries (σ : Store) (r : Nat) : List LogEntry := (heapGet σ (top σ r)).entries

/-! ## Recorder.Dump rendering -/

/-- `fmt.Sprint` on the argument kinds the entries carry. -/
def sprintArg : LogArg → String
  | .str s => s
  | .int n => toString n

/-- Modelled fragment of Go's `fmt.Sprintf`: literal characters are
copied and the verbs `%s`, `%d`, `%v` consume one argument (the
diagnostics Go emits for mismatched verbs or leftover arguments are
outside the fragment any theorem below exercises). -/
def sprintf : List Char → List LogArg → String
  | [], _ => ""
  | '%' :: v :: fmtRest, a :: rest =>
    if v = 's' || v = 'd' || v = 'v' then sprintArg a ++ sprintf fmtRest rest
    else String.mk ['%', v] ++ sprintf fmtRest (a :: rest)
  | c :: fmtRest, rest => String.mk [c] ++ sprintf fmtRest rest

/-- The `Dump` loops write `", "` between successive items. -/
def joinComma : List String → String
  | [] => ""
  | [s] => s
  | s :: rest => s ++ ", " ++ joinComma rest

/-- `fmt.Sprintf("%-7s", s)`: left-justify, pad with spaces to width 7. -/
def pad7 (s : String) : String :=
  s ++ String.mk (List.replicate (7 - s.length) ' ')

/-- One iteration of the `Dump` loop body: level name padded to width 7
in square brackets; the interpolated format string when one was given;
otherwise the comma-separated raw args in square brackets when args
exist; then the comma-separated fields in braces and a newline.
`e.Level.String()` panics on an out-of-range level, modelled by `none`. -/
def dumpEntry (e : LogEntry) : Option String :=
  (levelString e.Level).map (fun name =>
    "[" ++ pad7 name ++ "]"
      ++ (if e.Str ≠ "" then " " ++ sprintf e.Str.toList e.Args else "")
      ++ (if e.Str = "" ∧ e.Args ≠ [] then
            " [" ++ joinComma (e.Args.map sprintArg) ++ "]"
          else "")
      ++ " \x7b" ++ joinComma (e.Fields.map sprintArg) ++ "\x7d\n")

def dumpEntries : List LogEntry → Option String
  | [] => some ""
  | e :: es =>
    match dumpEntry e, dumpEntries es with
    | some s, some t => some (s ++ t)
    | _, _ => none

/-- `func (rec *Recorder) Dump() []byte`: renders `rec.Entries()`. -/
def recDump (σ : Store) (r : Nat) : Option String := dumpEntries (recEntries σ r)

/-! ## Context and middleware (source: `context.go` part, `Config`,
`CtxMiddleware`, `RequestIDMiddleware`) -/

/-- A value stored in a `context.Context`: the request-id middleware
type-asserts to `string`, every other dynamic type yields `""`. -/
inductive CtxVal where
  | str (s : String)
  | other
deriving DecidableEq

/-- `context.Context` as the stack of `WithValue` frames, most recent
first. -/
abbrev Context := List (String × CtxVal)

def requestIDKey : String := "request-id"

/-- `func NewContext(parent context.Context, reqID string) context.Context` -/
def NewContext (parent : Context) (reqID : String) : Context :=
  (requestIDKey, CtxVal.str reqID) :: parent

/-- `ctx.Value(key)`: innermost binding wins. -/
def ctxValue : Context → String → Option CtxVal
  | [], _ => none
  | (k, v) :: rest, key => if k = key then some v else ctxValue rest key

/-- `func FromContext(ctx context.Context) string`: the value under
`requestIDKey` when it is a string, `""` otherwise. -/
def FromContext (ctx : Context) : String :=
  match ctxValue ctx requestIDKey with
  | some (CtxVal.str v) => v
  | _ => ""

/-- `type CtxMiddleware func(context.Context) []interface\x7b\x7d` -/
abbrev CtxMiddleware := Context → List LogArg

/-- `func RequestIDMiddleware(ctx context.Context) []interface\x7b\x7d` -/
def RequestIDMiddleware : CtxMiddleware := fun ctx =>
  if FromContext ctx ≠ "" then
    [LogArg.str "request_id", LogArg.str (FromContext ctx)]
  else []

/-- `var DefaultMiddlewares = []CtxMiddleware\x7bRequestIDMiddleware\x7d` -/
def DefaultMiddlewares : List CtxMiddleware := [RequestIDMiddleware]

/-- `type Config struct` (the fields the modelled code reads). -/
structure Config where
  Log : String
  Level : Int
  OutputPaths : List String
  CtxMiddlewares : List CtxMiddleware
  SkipDefaultMiddlewares : Bool
  DisableStacktrace : Bool

/-! ## Logger facade (source: `Logger`, `Writer`, `noOpLogger`) -/

/-- A `Writer` interface value: the shared no-op writer or a
`*Recorder` in the heap. (The zap-backed production writer performs
real I/O and is outside the model.) -/
inductive WriterRef where
  | noop
  | recorder (addr : Nat)
deriving DecidableEq

/-- `type Logger struct \x7b writer Writer; level Level;
ctxMiddlewares []CtxMiddleware \x7d`. `writer = none` is the nil
interface of a zero-initialized Logger. -/
structure Logger where
  writer : Option WriterRef
  level : Int
  ctxMiddlewares : List CtxMiddleware

/-- The Go zero value `Logger\x7b\x7d`. -/
def zeroLogger : Logger := { writer := none, level := 0, ctxMiddlewares := [] }

/-- `var noOpWriter = newNoOpLogger()` -/
def noOpWriter : WriterRef := WriterRef.noop

/-- `func (l Logger) innerWriter() Writer`: the nil-writer guard. -/
def innerWriter (l : Logger) : WriterRef :=
  match l.writer with
  | none => noOpWriter
  | some w => w

/-- `func NewWithWriter(cfg Config, writer Writer) Logger` -/
def NewWithWriter (cfg : Config) (writer : WriterRef) : Logger :=
  let l : Logger :=
    { writer := some writer, level := cfg.Level, ctxMiddlewares := cfg.CtxMiddlewares }
  if cfg.SkipDefaultMiddlewares then l
  else { l with ctxMiddlewares := l.ctxMiddlewares ++ DefaultMiddlewares }

/-- Dynamic dispatch of `Writer.With`: `noOpLogger.With` returns the
no-op writer itself; `Recorder.With` allocates a clone. -/
def writerWith (σ : Store) : WriterRef → List LogArg → Store × WriterRef
  | WriterRef.noop, _ => (σ, WriterRef.noop)
  | WriterRef.recorder r, fields =>
    let res := recWith σ r fields
    (res.1, WriterRef.recorder res.2)

/-- Dynamic dispatch of `Writer.Log`: the no-op writer discards. -/
def writerLog (σ : Store) : WriterRef → Int → List LogArg → Store
  | WriterRef.noop, _, _ => σ
  | WriterRef.recorder r, level, args => recLog σ r level args

def writerLogf (σ : Store) : WriterRef → Int → String → List LogArg → Store
  | WriterRef.noop, _, _, _ => σ
  | WriterRef.recorder r, level, str, args => recLogf σ r level str args

def writerSync (σ : Store) : WriterRef → Store
  | WriterRef.noop => σ
  | WriterRef.recorder r => recSync σ r

/-- `func (l *Logger) clone(w Writer) Logger` -/
def Logger.clone (l : Logger) (w : WriterRef) : Logger :=
  { writer := some w, level := l.level, ctxMiddlewares := l.ctxMiddlewares }

/-- `func (l Logger) Log(level Level, args ...interface\x7b\x7d)`:
discarded when `level < l.level`, otherwise forwarded verbatim to
`l.innerWriter()`. -/
def Logger.Log (l : Logger) (σ : Store) (level : Int) (args : List LogArg) : Store :=
  if level < l.level then σ else writerLog σ (innerWriter l) level args

/-- `func (l Logger) Logf(level Level, str string, args ...interface\x7b\x7d)` -/
def Logger.Logf (l : Logger) (σ : Store) (level : Int) (str : String)
    (args : List LogArg) : Store :=
  if level < l.level then σ else writerLogf σ (innerWriter l) level str args

/-- `func (l Logger) With(fields ...interface\x7b\x7d) Logger` -/
def Logger.With (l : Logger) (σ : Store) (fields : List LogArg) : Store × Logger :=
  let res := writerWith σ (innerWriter l) fields
  (res.1, l.clone res.2)

/-- `func (l Logger) Sync()` -/
def Logger.Sync (l : Logger) (σ : Store) : Store :=
  writerSync σ (innerWriter l)

/-- The field-collection loop of `Logger.WithContext`: each middleware
runs against `ctx` in registration order and non-empty results are
appended. -/
def withContextFields (l : Logger) (ctx : Context) : List LogArg :=
  l.ctxMiddlewares.foldl
    (fun acc m => if (m ctx).length > 0 then acc ++ m ctx else acc) []

/-- `func (l Logger) WithContext(ctx context.Context) Logger`: when no
middleware contributed a field the receiver itself is returned. -/
def Logger.WithContext (l : Logger) (σ : Store) (ctx : Context) : Store × Logger :=
  let fields := withContextFields l ctx
  if fields.length = 0 then (σ, l) else l.With σ fields

/-! ## Call sequences against a Logger (for the zero-value safety
property) -/

inductive LoggerOp where
  | log (level : Int) (args : List LogArg)
  | logf (level : Int) (str : String) (args : List LogArg)
  | withFields (fields : List LogArg)
  | sync

/-- Run one facade call, threading the logger value returned by `With`
(the other calls leave the logger unchanged). -/
def runOp (s : Logger × Store) : LoggerOp → Logger × Store
  | LoggerOp.log level args => (s.1, s.1.Log s.2 level args)
  | LoggerOp.logf level str args => (s.1, s.1.Logf s.2 level str args)
  | LoggerOp.withFields fields =>
    let res := s.1.With s.2 fields
    (res.2, res.1)
  | LoggerOp.sync => (s.1, s.1.Sync s.2)

def runOps (ops : List LoggerOp) (s : Logger × Store) : Logger × Store :=
  ops.foldl runOp s

/-! ## Canonical test fixtures: a fresh Recorder at heap address 0 and a
Logger built over it by `NewWithWriter` with an otherwise empty
configuration. -/

def plainConfig (lvl : Int) : Config :=
  { Log := "", Level := lvl, OutputPaths := [], CtxMiddlewares := [],
    SkipDefaultMiddlewares := false, DisableStacktrace := false }

def recorderLogger (lvl : Int) : Logger :=
  NewWithWriter (plainConfig lvl) (WriterRef.recorder 0)

def singleRecStore : Store := [zeroRecorder]

/-- A two-node chain: the clone `recWith` builds from a fresh root with
one bound field (`(recWith singleRecStore 0 [f]).1`). -/
def twoNodeStore : Store :=
  [zeroRecorder,
   { fields := [LogArg.str "f"], syncCalled := false, parent := some 0,
     entries := [] }]

/-! ## Generic matcher properties used by the scanning lemmas -/

/-- A matcher whose leftover is strictly shorter than its input. -/
def Shrinks (tryAt : List Char → Option (List Char × List Char)) : Prop :=
  ∀ l rep rest, tryAt l = some (rep, rest) → rest.length < l.length

/-- A matcher whose leftover is a suffix of its input. -/
def SufRest (tryAt : List Char → Option (List Char × List Char)) : Prop :=
  ∀ l rep rest, tryAt l = some (rep, rest) → rest <:+ l

/-- A matcher whose replacement starts with the consumed head character. -/
def HeadKeeps (tryAt : List Char → Option (List Char × List Char)) : Prop :=
  ∀ c cs rep rest, tryAt (c :: cs) = some (rep, rest) → ∃ u, rep = c :: u

/-- Every match found at a suffix reproduces its input exactly. -/
def SelfMatch (f : List Char → Option (List Char × List Char))
    (l : List Char) : Prop :=
  ∀ t rep rest, t <:+ l → f t = some (rep, rest) → t = rep ++ rest

/-! ## Helper lemmas about the matchers -/

theorem lowerEq_refl (c : Char) : lowerEq c c = true := by simp [lowerEq]

theorem matchLitCI_exact (p rest : List Char) :
    matchLitCI p (p ++ rest) = some (p, rest) := by
  induction p with
  | nil => rfl
  | cons c cs ih => simp [matchLitCI, lowerEq_refl, ih]

theorem matchLitCI_rest_mem (p l con rest : List Char)
    (h : matchLitCI p l = some (con, rest)) : ∀ x ∈ rest, x ∈ l := by
  induction p generalizing l con rest with
  | nil =>
    simp only [matchLitCI, Option.some.injEq, Prod.mk.injEq] at h
    intro x hx; exact h.2 ▸ hx
  | cons q qs ih =>
    cases l with
    | nil => simp [matchLitCI] at h
    | cons c cs =>
      simp only [matchLitCI] at h
      by_cases hq : lowerEq c q = true
      · rw [if_pos hq] at h
        cases hm : matchLitCI qs cs with
        | none => rw [hm] at h; simp at h
        | some pr =>
          rw [hm] at h
          simp only [Option.map_some', Option.some.injEq, Prod.mk.injEq] at h
          intro x hx
          exact List.mem_cons_of_mem c (ih cs pr.1 rest (by rw [hm, ← h.2]) x hx)
      · rw [if_neg hq] at h; exact absurd h (by simp)

theorem takeWhile_all_append (p : Char → Bool) (xs ys : List Char)
    (h : ∀ x ∈ xs, p x = true) :
    (xs ++ ys).takeWhile p = xs ++ ys.takeWhile p := by
  induction xs with
  | nil => simp
  | cons c cs ih =>
    have hc : p c = true := h c (by simp)
    simp only [List.cons_append, List.takeWhile_cons, hc, if_true]
    rw [ih (fun x hx => h x (by simp [hx]))]

theorem dropWhile_all_append (p : Char → Bool) (xs ys : List Char)
    (h : ∀ x ∈ xs, p x = true) :
    (xs ++ ys).dropWhile p = ys.dropWhile p := by
  induction xs with
  | nil => simp
  | cons c cs ih =>
    have hc : p c = true := h c (by simp)
    simp only [List.cons_append, List.dropWhile_cons, hc, if_true]
    exact ih (fun x hx => h x (by simp [hx]))

theorem word_not_space {c : Char} (h : isWordChar c = true) : isSpaceChar c = false := by
  by_contra hns
  rw [Bool.not_eq_false] at hns
  simp only [isSpaceChar, Bool.or_eq_true, decide_eq_true_eq] at hns
  rcases hns with (((h1 | h1) | h1) | h1) | h1 <;> rw [h1] at h <;>
    exact absurd h (by decide)

theorem word_not_crlf {c : Char} (h : isWordChar c = true) : isCRLF c = false := by
  by_contra hns
  rw [Bool.not_eq_false] at hns
  simp only [isCRLF, Bool.or_eq_true, decide_eq_true_eq] at hns
  rcases hns with h1 | h1 <;> rw [h1] at h <;> exact absurd h (by decide)

theorem word_ne_quote {c : Char} (h : isWordChar c = true) : c ≠ '"' := by
  intro hc; rw [hc] at h; exact absurd h (by decide)

theorem replaceAllAux_nil (tryAt : List Char → Option (List Char × List Char))
    (fuel : Nat) : replaceAllAux tryAt fuel [] = [] := by
  cases fuel <;> rfl

/-- A successful password match needs a literal quote after the
(whitespace, colon, whitespace) bridge, and that quote is an element of
the input; on quote-free input the pattern cannot match. -/
theorem tryPasswordAt_eq_none_of_no_quote (l : List Char)
    (h : ∀ ch ∈ l, ch ≠ '"') : tryPasswordAt l = none := by
  unfold tryPasswordAt
  split
  · rfl
  · rename_i lit r1 hm
    split
    · rename_i r3 hd3
      split
      · rename_i x y r5 hd5
        exfalso
        have hq1 : '"' ∈ r3.dropWhile isSpaceChar := by rw [hd5]; simp
        have hq2 : '"' ∈ r3 := (List.dropWhile_sublist _).subset hq1
        have hq3 : '"' ∈ r1.dropWhile isSpaceChar := by
          rw [hd3]; exact List.mem_cons_of_mem _ hq2
        have hq4 : '"' ∈ r1 := (List.dropWhile_sublist _).subset hq3
        exact h '"' (matchLitCI_rest_mem _ _ _ _ hm '"' hq4) rfl
      · rfl
    · rfl

/-- Quote-free buffers are untouched by the password replacement pass. -/
theorem replaceAll_password_id_of_no_quote (l : List Char)
    (h : ∀ ch ∈ l, ch ≠ '"') : replaceAll tryPasswordAt l = l := by
  suffices haux : ∀ fuel l2, (∀ ch ∈ l2, ch ≠ '"') →
      replaceAllAux tryPasswordAt fuel l2 = l2 from haux _ l h
  intro fuel
  induction fuel with
  | zero => intro l2 _; rfl
  | succ n ih =>
    intro l2 h2
    cases l2 with
    | nil => rfl
    | cons c cs =>
      have hnone := tryPasswordAt_eq_none_of_no_quote (c :: cs) h2
      simp only [replaceAllAux, hnone]
      exact congrArg (c :: ·) (ih cs (fun ch hch => h2 ch (List.mem_cons_of_mem _ hch)))

/-- The authorization pattern on a buffer of the exact shape
`Authorization: <scheme> <token>` (word-character scheme and token, the
token split as its first three characters and a tail of length at least
three): the deterministic match consumes the whole buffer, `$1` is
everything through the first three token characters, and `$2` is the
last three characters. -/
theorem tryAuthorizationAt_credential (scheme : List Char) (a b c : Char)
    (t : List Char) (hs : scheme ≠ [])
    (hsw : ∀ x ∈ scheme, isWordChar x = true)
    (ha : isWordChar a = true) (hb : isWordChar b = true)
    (hc : isWordChar c = true)
    (htw : ∀ x ∈ t, isWordChar x = true) (hlen : 3 ≤ t.length) :
    tryAuthorizationAt
        ("Authorization: ".toList ++ scheme ++ (' ' :: a :: b :: c :: t))
      = some ("Authorization:".toList ++ [' '] ++ scheme ++ [' ', a, b, c]
                ++ "*****".toList ++ t.drop (t.length - 3), []) := by
  obtain ⟨s0, stail, rfl⟩ := List.exists_cons_of_ne_nil hs
  have hsplit :
      ("Authorization: ".toList ++ (s0 :: stail) ++ (' ' :: a :: b :: c :: t))
        = "Authorization:".toList
            ++ (' ' :: ((s0 :: stail) ++ (' ' :: a :: b :: c :: t))) := by
    simp [show ("Authorization: ".toList : List Char)
        = "Authorization:".toList ++ [' '] from rfl, List.append_assoc]
  rw [hsplit]
  unfold tryAuthorizationAt
  rw [matchLitCI_exact]
  have hws : List.takeWhile isSpaceChar
      (' ' :: ((s0 :: stail) ++ (' ' :: a :: b :: c :: t))) = [' '] := by
    rw [List.takeWhile_cons_of_pos (by decide)]
    rw [show ((s0 :: stail) ++ (' ' :: a :: b :: c :: t))
        = s0 :: (stail ++ (' ' :: a :: b :: c :: t)) from rfl]
    rw [List.takeWhile_cons_of_neg]
    simp [word_not_space (hsw s0 (by simp))]
  have hr2 : List.dropWhile isSpaceChar
      (' ' :: ((s0 :: stail) ++ (' ' :: a :: b :: c :: t)))
        = (s0 :: stail) ++ (' ' :: a :: b :: c :: t) := by
    rw [List.dropWhile_cons_of_pos (by decide)]
    rw [show ((s0 :: stail) ++ (' ' :: a :: b :: c :: t))
        = s0 :: (stail ++ (' ' :: a :: b :: c :: t)) from rfl]
    rw [List.dropWhile_cons_of_neg]
    simp [word_not_space (hsw s0 (by simp))]
  have hwd : List.takeWhile isWordChar ((s0 :: stail) ++ (' ' :: a :: b :: c :: t))
      = s0 :: stail := by
    rw [takeWhile_all_append _ _ _ hsw, List.takeWhile_cons_of_neg (by decide)]
    simp
  have hr3 : List.dropWhile isWordChar ((s0 :: stail) ++ (' ' :: a :: b :: c :: t))
      = ' ' :: a :: b :: c :: t := by
    rw [dropWhile_all_append _ _ _ hsw, List.dropWhile_cons_of_neg (by decide)]
  have hrun : List.takeWhile (fun ch => !isCRLF ch) t = t := by
    rw [List.takeWhile_eq_self_iff]
    intro x hx; simp [word_not_crlf (htw x hx)]
  have hrest : List.dropWhile (fun ch => !isCRLF ch) t = [] := by
    rw [List.dropWhile_eq_nil_iff]
    intro x hx; simp [word_not_crlf (htw x hx)]
  simp only [hws, hr2, hwd, hr3, hrun, hrest, List.isEmpty_cons, Bool.false_eq_true,
    if_false]
  rw [if_pos (by decide), if_pos (by simp [ha, hb, hc]), if_neg (by omega)]



/-! ## Helper lemmas about the Recorder heap -/

theorem heapLen_set (σ : Store) (r : Nat) (o : RecorderObj) :
    heapLen (heapSet σ r o) = heapLen σ := by simp [heapLen, heapSet]

theorem heapGet_set (σ : Store) (r j : Nat) (o : RecorderObj) :
    heapGet (heapSet σ r o) j
      = if r = j ∧ r < heapLen σ then o else heapGet σ j := by
  rcases Nat.lt_or_ge r (heapLen σ) with h | h
  · by_cases hij : r = j
    · subst hij
      simp [heapGet, heapSet, heapLen, List.getD_eq_getElem?_getD,
        List.getElem?_set_self, h]
      simp [heapLen] at h
      simp [h]
    · simp [heapGet, heapSet, heapLen, List.getD_eq_getElem?_getD,
        List.getElem?_set_ne hij, hij]
  · have hle : (σ : List RecorderObj).length ≤ r := h
    rw [if_neg (fun hc => absurd hc.2 (Nat.not_lt.mpr h))]
    rw [heapSet, List.set_eq_of_length_le hle]

theorem topAux_lt {σ : Store} (hwf : WFStore σ) :
    ∀ (fuel r : Nat), r < heapLen σ → topAux fuel σ r < heapLen σ := by
  intro fuel
  induction fuel with
  | zero => intro r hr; exact hr
  | succ n ih =>
    intro r hr
    unfold topAux
    cases hp : (heapGet σ r).parent with
    | none => exact hr
    | some p => exact ih p (lt_trans (hwf r p hp) hr)

theorem top_lt {σ : Store} (hwf : WFStore σ) {r : Nat} (hr : r < heapLen σ) :
    top σ r < heapLen σ := topAux_lt hwf _ r hr

theorem topAux_congr {σ σ2 : Store}
    (hpar : ∀ i, (heapGet σ2 i).parent = (heapGet σ i).parent) :
    ∀ fuel r, topAux fuel σ2 r = topAux fuel σ r := by
  intro fuel
  induction fuel with
  | zero => intro r; rfl
  | succ n ih =>
    intro r
    unfold topAux
    rw [hpar r]
    cases (heapGet σ r).parent with
    | none => rfl
    | some p => exact ih p

theorem recRecord_parents (σ : Store) (r : Nat) (lvl : Int) (str : String)
    (args : List LogArg) :
    ∀ i, (heapGet (recRecord σ r lvl str args) i).parent = (heapGet σ i).parent := by
  intro i
  simp only [recRecord, heapGet_set]
  split
  · rename_i hcond
    rw [← hcond.1]
  · rfl

theorem recSync_parents (σ : Store) (r : Nat) :
    ∀ i, (heapGet (recSync σ r) i).parent = (heapGet σ i).parent := by
  intro i
  simp only [recSync, heapGet_set]
  split
  · rename_i hcond
    rw [← hcond.1]
  · rfl

theorem recRecord_top (σ : Store) (r : Nat) (lvl : Int) (str : String)
    (args : List LogArg) (x : Nat) :
    top (recRecord σ r lvl str args) x = top σ x := by
  rw [top, top, show heapLen (recRecord σ r lvl str args) = heapLen σ by
    simp [recRecord, heapLen_set]]
  exact topAux_congr (recRecord_parents σ r lvl str args) _ x

theorem recSync_top (σ : Store) (r : Nat) (x : Nat) :
    top (recSync σ r) x = top σ x := by
  rw [top, top, show heapLen (recSync σ r) = heapLen σ by
    simp [recSync, heapLen_set]]
  exact topAux_congr (recSync_parents σ r) _ x

/-! ## Theorems: SecretMask (claim C2) -/

/-- C2 counterexample: on the spec's own example buffer
`Authorization: Bearer abctoken123` the mask preserves the final THREE
characters of the token (`123`), not the final two: the output is
`Authorization: Bearer abc*****123`, which differs from the unique
same-length buffer of the claimed shape (scheme, first 3 token
characters, asterisk mask, final 2 token characters), namely
`Authorization: Bearer abc******23`. -/
theorem secretMask_authorization_last_two_counterexample :
    SecretMask "Authorization: Bearer abctoken123".toList
        = "Authorization: Bearer abc*****123".toList ∧
    SecretMask "Authorization: Bearer abctoken123".toList
        ≠ "Authorization: Bearer abc******23".toList := by
  constructor
  · rfl
  · decide

/-- C2 amended: for every credential buffer `Authorization: <scheme>
<token>` (non-empty word-character scheme; word-character token written
as its first three characters `a b c` followed by a tail `t` of length
at least 3), `SecretMask` preserves the scheme, the first 3 characters
of the token and the final THREE characters of the token, replacing the
middle with the fixed five-asterisk mask. -/
theorem secretMask_authorization_credential_masks (scheme : List Char) (a b c : Char)
    (t : List Char) (hs : scheme ≠ [])
    (hsw : ∀ x ∈ scheme, isWordChar x = true)
    (ha : isWordChar a = true) (hb : isWordChar b = true)
    (hc : isWordChar c = true)
    (htw : ∀ x ∈ t, isWordChar x = true) (hlen : 3 ≤ t.length) :
    SecretMask ("Authorization: ".toList ++ scheme ++ (' ' :: a :: b :: c :: t))
      = "Authorization: ".toList ++ scheme
          ++ (' ' :: a :: b :: c :: ("*****".toList ++ t.drop (t.length - 3))) := by
  have hrep := tryAuthorizationAt_credential scheme a b c t hs hsw ha hb hc htw hlen
  have hrep2 : tryAuthorizationAt
      ('A' :: ("uthorization: ".toList ++ scheme ++ (' ' :: a :: b :: c :: t)))
      = some ("Authorization:".toList ++ [' '] ++ scheme ++ [' ', a, b, c]
                ++ "*****".toList ++ t.drop (t.length - 3), []) := hrep
  have hauth : replaceAll tryAuthorizationAt
      ("Authorization: ".toList ++ scheme ++ (' ' :: a :: b :: c :: t))
      = "Authorization:".toList ++ [' '] ++ scheme ++ [' ', a, b, c]
          ++ "*****".toList ++ t.drop (t.length - 3) := by
    rw [replaceAll]
    rw [show ("Authorization: ".toList ++ scheme ++ (' ' :: a :: b :: c :: t))
        = 'A' :: ("uthorization: ".toList ++ scheme ++ (' ' :: a :: b :: c :: t))
        from rfl]
    rw [List.length_cons]
    simp only [replaceAllAux, hrep2, replaceAllAux_nil, List.append_nil]
  rw [SecretMask, hauth]
  rw [replaceAll_password_id_of_no_quote]
  · simp [show ("Authorization: ".toList : List Char)
        = "Authorization:".toList ++ [' '] from rfl, List.append_assoc]
  · intro ch hch
    simp only [List.mem_append, List.mem_cons, List.not_mem_nil, or_false] at hch
    rcases hch with ((((hch | hch) | hch) | hch) | hch) | hch
    · exact (by decide : ∀ x ∈ "Authorization:".toList, x ≠ '\"') ch hch
    · rw [hch]; decide
    · exact word_ne_quote (hsw ch hch)
    · rcases hch with hch | hch | hch | hch
      · rw [hch]; decide
      · rw [hch]; exact word_ne_quote ha
      · rw [hch]; exact word_ne_quote hb
      · rw [hch]; exact word_ne_quote hc
    · exact (by decide : ∀ x ∈ "*****".toList, x ≠ '\"') ch hch
    · exact word_ne_quote (htw ch (List.drop_subset _ _ hch))

/-- Witness for the amended C2 at the spec's example:
scheme `Bearer`, token `abctoken123`. -/
theorem secretMask_authorization_credential_masks_witness :
    ("Bearer".toList ≠ ([] : List Char) ∧ 3 ≤ "token123".toList.length) ∧
    SecretMask ("Authorization: ".toList ++ "Bearer".toList
        ++ (' ' :: 'a' :: 'b' :: 'c' :: "token123".toList))
      = "Authorization: ".toList ++ "Bearer".toList
          ++ (' ' :: 'a' :: 'b' :: 'c' :: ("*****".toList
              ++ "token123".toList.drop ("token123".toList.length - 3))) :=
  ⟨⟨by decide, by decide⟩,
    secretMask_authorization_credential_masks "Bearer".toList 'a' 'b' 'c'
      "token123".toList (by decide) (by decide) (by decide) (by decide) (by decide)
      (by decide) (by decide)⟩

/-- C4: `LevelFromString` is a left inverse of `Level.String` for each of
the six canonical levels, case-insensitively: whenever `0 ≤ l < 6` and
the lowercasing of `s` equals the name `Level.String` returns for `l`,
`LevelFromString s = l`; and every string whose lowercasing is not a
canonical name parses to `DebugLevel` (and the parse never errors, being
a total function). -/
theorem levelFromString_left_inverse_of_string :
    (∀ (l : Int) (s : String), 0 ≤ l → l < 6 →
        levelString l = some (lowerStr s) → LevelFromString s = l) ∧
    (∀ s : String, lowerStr s ∉ levelNames → LevelFromString s = DebugLevel) := by
  constructor
  · intro l s h0 h6 hname
    interval_cases l
    · rw [show levelString 0 = some "debug" from rfl] at hname
      have h := Option.some.inj hname
      simp [LevelFromString, ← h, DebugLevel]
    · rw [show levelString 1 = some "info" from rfl] at hname
      have h := Option.some.inj hname
      simp [LevelFromString, ← h, InfoLevel]
    · rw [show levelString 2 = some "warning" from rfl] at hname
      have h := Option.some.inj hname
      simp [LevelFromString, ← h, WarningLevel]
    · rw [show levelString 3 = some "error" from rfl] at hname
      have h := Option.some.inj hname
      simp [LevelFromString, ← h, ErrorLevel]
    · rw [show levelString 4 = some "panic" from rfl] at hname
      have h := Option.some.inj hname
      simp [LevelFromString, ← h, PanicLevel]
    · rw [show levelString 5 = some "fatal" from rfl] at hname
      have h := Option.some.inj hname
      simp [LevelFromString, ← h, FatalLevel]
  · intro s h
    simp only [levelNames, List.mem_cons, List.not_mem_nil, or_false, not_or] at h
    obtain ⟨h1, h2, h3, h4, h5, h6⟩ := h
    simp [LevelFromString, h1, h2, h3, h4, h5, h6]

/-- Witness for C4 at concrete inputs: `"WaRning"` is a case variant of
the canonical name of level 2 and parses back to 2; `"verbose"` is not
canonical and parses to the debug level. -/
theorem levelFromString_left_inverse_of_string_witness :
    ((0 : Int) ≤ 2 ∧ (2 : Int) < 6 ∧ levelString 2 = some (lowerStr "WaRning")
        ∧ LevelFromString "WaRning" = 2)
      ∧ (lowerStr "verbose" ∉ levelNames ∧ LevelFromString "verbose" = DebugLevel) :=
  ⟨⟨by decide, by decide, by decide,
      levelFromString_left_inverse_of_string.1 2 "WaRning" (by decide) (by decide)
        (by decide)⟩,
    ⟨by decide,
      levelFromString_left_inverse_of_string.2 "verbose" (by decide)⟩⟩

/-- C10: `Level.String()` is defined exactly on the ordinals 0 through 5:
every Level below 0 or at 6 and above hits the out-of-range slice index
(modelled by `none`), every ordinal 0..5 renders, and `LevelFromString`
is total and always yields one of the six valid ordinals. -/
theorem levelString_defined_iff_canonical :
    (∀ l : Int, l < 0 ∨ 6 ≤ l → levelString l = none) ∧
    (∀ l : Int, 0 ≤ l → l < 6 → (levelString l).isSome = true) ∧
    (∀ s : String, 0 ≤ LevelFromString s ∧ LevelFromString s < 6) := by
  refine ⟨?_, ?_, ?_⟩
  · intro l hl
    rcases hl with hneg | hbig
    · simp [levelString, hneg]
    · rw [levelString, if_neg (by omega)]
      apply List.get?_eq_none.mpr
      rw [show levelNames.length = 6 from rfl]
      omega
  · intro l h0 h6
    interval_cases l <;> decide
  · intro s
    simp only [LevelFromString]
    split_ifs <;> constructor <;> decide

/-- Witness for C10: levels 7 and -1 are out of range and have no string
form; level 3 has a string form; `"anything"` parses to a valid
ordinal. -/
theorem levelString_defined_iff_canonical_witness :
    (((7 : Int) < 0 ∨ (6 : Int) ≤ 7) ∧ levelString 7 = none)
      ∧ (((-1 : Int) < 0 ∨ (6 : Int) ≤ -1) ∧ levelString (-1) = none)
      ∧ ((0 : Int) ≤ 3 ∧ (3 : Int) < 6 ∧ (levelString 3).isSome = true)
      ∧ (0 ≤ LevelFromString "anything" ∧ LevelFromString "anything" < 6) :=
  ⟨⟨Or.inr (by decide),
      levelString_defined_iff_canonical.1 7 (Or.inr (by decide))⟩,
    ⟨Or.inl (by decide),
      levelString_defined_iff_canonical.1 (-1) (Or.inl (by decide))⟩,
    ⟨by decide, by decide,
      levelString_defined_iff_canonical.2.1 3 (by decide) (by decide)⟩,
    levelString_defined_iff_canonical.2.2 "anything"⟩



/-! ## Theorems: Logger and Recorder behaviour (claims C1, C5, C6, C7, C8, C9) -/

/-- C1: a Logger built by `NewWithWriter` over a fresh Recorder with
configured minimum level `L2` discards `Log`/`Logf` calls at any level
`L1 < L2` (the heap is untouched), and forwards calls at any level
`L ≥ L2` verbatim to the bound writer, appending exactly one entry
carrying that level, format string and arguments. -/
theorem logger_level_filter_recorder (L1 L2 L : Int) (str : String)
    (args : List LogArg) (h1 : L1 < L2) (h2 : L2 ≤ L) :
    ((recorderLogger L2).Log singleRecStore L1 args = singleRecStore ∧
     (recorderLogger L2).Logf singleRecStore L1 str args = singleRecStore) ∧
    ((recorderLogger L2).Log singleRecStore L args
        = writerLog singleRecStore (WriterRef.recorder 0) L args ∧
     recEntries ((recorderLogger L2).Log singleRecStore L args) 0
        = [⟨L, "", args, []⟩] ∧
     (recorderLogger L2).Logf singleRecStore L str args
        = writerLogf singleRecStore (WriterRef.recorder 0) L str args ∧
     recEntries ((recorderLogger L2).Logf singleRecStore L str args) 0
        = [⟨L, str, args, []⟩]) := by
  have hlvl : (recorderLogger L2).level = L2 := rfl
  have hw : innerWriter (recorderLogger L2) = WriterRef.recorder 0 := rfl
  have hnot : ¬ L < L2 := by omega
  refine ⟨⟨?_, ?_⟩, ?_, ?_, ?_, ?_⟩
  · simp [Logger.Log, hlvl, h1]
  · simp [Logger.Logf, hlvl, h1]
  · simp [Logger.Log, hlvl, hnot, hw]
  · simp [Logger.Log, hlvl, hnot, hw, writerLog, recLog, recRecord, recEntries,
      top, topAux, heapGet, heapSet, heapLen, singleRecStore, zeroRecorder]
  · simp [Logger.Logf, hlvl, hnot, hw]
  · simp [Logger.Logf, hlvl, hnot, hw, writerLogf, recLogf, recRecord, recEntries,
      top, topAux, heapGet, heapSet, heapLen, singleRecStore, zeroRecorder]

/-- Witness for C1 at `L1 = 0`, `L2 = 1`, `L = 1`. -/
theorem logger_level_filter_recorder_witness :
    ((0 : Int) < 1 ∧ (1 : Int) ≤ 1) ∧
    (((recorderLogger 1).Log singleRecStore 0 [LogArg.str "x"] = singleRecStore ∧
      (recorderLogger 1).Logf singleRecStore 0 "m" [LogArg.str "x"] = singleRecStore) ∧
     ((recorderLogger 1).Log singleRecStore 1 [LogArg.str "x"]
         = writerLog singleRecStore (WriterRef.recorder 0) 1 [LogArg.str "x"] ∧
      recEntries ((recorderLogger 1).Log singleRecStore 1 [LogArg.str "x"]) 0
         = [⟨1, "", [LogArg.str "x"], []⟩] ∧
      (recorderLogger 1).Logf singleRecStore 1 "m" [LogArg.str "x"]
         = writerLogf singleRecStore (WriterRef.recorder 0) 1 "m" [LogArg.str "x"] ∧
      recEntries ((recorderLogger 1).Logf singleRecStore 1 "m" [LogArg.str "x"]) 0
         = [⟨1, "m", [LogArg.str "x"], []⟩])) :=
  ⟨⟨by decide, by decide⟩,
    logger_level_filter_recorder 0 1 1 "m" [LogArg.str "x"] (by decide) (by decide)⟩

/-- C5: the Recorder chain invariant over any well-formed heap. With
`t = top σ r` the root of `r`'s chain: `record` called through any node
`r` appends exactly one entry (carrying `r`'s field snapshot) to the
root's entry list as observed through any chain member `r2`, and changes
no other node's entry list; `Sync` through any node sets the flag that
`SyncCalled` reads through every member of the chain, and touches no
other node's flag. -/
theorem recorder_chain_invariant (σ : Store) (r r2 : Nat) (lvl : Int) (str : String)
    (args : List LogArg) (hwf : WFStore σ) (hr : r < heapLen σ)
    (_hr2 : r2 < heapLen σ) (hsame : top σ r2 = top σ r) :
    (recEntries (recRecord σ r lvl str args) r2
        = recEntries σ r2 ++ [⟨lvl, str, args, (heapGet σ r).fields⟩]) ∧
    (∀ j, j ≠ top σ r →
        (heapGet (recRecord σ r lvl str args) j).entries = (heapGet σ j).entries) ∧
    recSyncCalled (recSync σ r) r2 = true ∧
    (∀ j, j ≠ top σ r →
        (heapGet (recSync σ r) j).syncCalled = (heapGet σ j).syncCalled) := by
  have ht : top σ r < heapLen σ := top_lt hwf hr
  refine ⟨?_, ?_, ?_, ?_⟩
  · rw [recEntries, recRecord_top, hsame]
    rw [recEntries, hsame]
    simp only [recRecord]
    rw [heapGet_set, if_pos ⟨rfl, ht⟩]
  · intro j hj
    simp only [recRecord, heapGet_set]
    rw [if_neg (fun hcond => hj hcond.1.symm)]
  · rw [recSyncCalled, recSync_top, hsame]
    simp only [recSync]
    rw [heapGet_set, if_pos ⟨rfl, ht⟩]
  · intro j hj
    simp only [recSync, heapGet_set]
    rw [if_neg (fun hcond => hj hcond.1.symm)]

/-- Witness for C5 on the two-node chain `twoNodeStore`: recording and
syncing through the child (address 1) is observed at the root
(address 0). -/
theorem recorder_chain_invariant_witness :
    ((1 : Nat) < heapLen twoNodeStore ∧ (0 : Nat) < heapLen twoNodeStore ∧
      top twoNodeStore 0 = top twoNodeStore 1) ∧
    (recEntries (recRecord twoNodeStore 1 0 "" []) 0
        = recEntries twoNodeStore 0 ++ [⟨0, "", [], [LogArg.str "f"]⟩] ∧
     (∀ j, j ≠ top twoNodeStore 1 →
        (heapGet (recRecord twoNodeStore 1 0 "" []) j).entries
          = (heapGet twoNodeStore j).entries) ∧
     recSyncCalled (recSync twoNodeStore 1) 0 = true ∧
     (∀ j, j ≠ top twoNodeStore 1 →
        (heapGet (recSync twoNodeStore 1) j).syncCalled
          = (heapGet twoNodeStore j).syncCalled)) :=
  ⟨⟨by decide, by decide, by decide⟩,
    recorder_chain_invariant twoNodeStore 1 0 0 "" []
      (by
        intro i p hp
        match i with
        | 0 => simp [twoNodeStore, heapGet, zeroRecorder] at hp
        | 1 =>
          simp [twoNodeStore, heapGet] at hp
          omega
        | n + 2 =>
          simp [twoNodeStore, heapGet, zeroRecorder] at hp)
      (by decide) (by decide) (by decide)⟩

/-- C6: composing `With f1` then `With f2` over a Recorder-backed Logger
and logging yields an entry whose field list is exactly `f1 ++ f2`
(parent fields first, order preserved), snapshotted at emission time. -/
theorem logger_with_fields_concatenation (f1 f2 : List LogArg) (lvl L : Int)
    (args : List LogArg) (h : ¬ lvl < L) :
    (let step1 := (recorderLogger L).With singleRecStore f1
     let step2 := step1.2.With step1.1 f2
     recEntries (step2.2.Log step2.1 lvl args) 0)
      = [⟨lvl, "", args, f1 ++ f2⟩] := by
  simp [Logger.With, Logger.Log, recorderLogger, NewWithWriter, plainConfig,
    innerWriter, Logger.clone, writerWith, recWith, writerLog, recLog, recRecord,
    recEntries, top, topAux, heapGet, heapSet, heapLen, singleRecStore, zeroRecorder, h]

/-- Witness for C6 with `f1 = [k, v]`, `f2 = [w]` at levels `0/0`. -/
theorem logger_with_fields_concatenation_witness :
    ¬ (0 : Int) < 0 ∧
    (let step1 := (recorderLogger 0).With singleRecStore
        [LogArg.str "k", LogArg.str "v"]
     let step2 := step1.2.With step1.1 [LogArg.str "w"]
     recEntries (step2.2.Log step2.1 0 [LogArg.str "a"]) 0)
      = [⟨0, "", [LogArg.str "a"],
          [LogArg.str "k", LogArg.str "v"] ++ [LogArg.str "w"]⟩] :=
  ⟨by decide,
    logger_with_fields_concatenation [LogArg.str "k", LogArg.str "v"]
      [LogArg.str "w"] 0 0 [LogArg.str "a"] (by decide)⟩

/-- C7: `Dump` on a Recorder holding exactly one debug-level entry with
no format string, args `["a", 1]` and fields `["k", "v"]` renders the
exact bytes `[debug  ] [a, 1] \x7bk, v\x7d\n`: the level name padded
to width 7 in square brackets, the comma-separated args in square
brackets (present since args exist and no format string was given), the
comma-separated fields in braces, and a newline. -/
theorem recorder_dump_rendering :
    recDump [{ fields := [LogArg.str "k", LogArg.str "v"], syncCalled := false,
               parent := none,
               entries := [{ Level := DebugLevel, Str := "",
                             Args := [LogArg.str "a", LogArg.int 1],
                             Fields := [LogArg.str "k", LogArg.str "v"] }] }] 0
      = some "[debug  ] [a, 1] \x7bk, v\x7d\n" := by decide

/-- Fold of the `WithContext` middleware loop: non-empty middleware
results are concatenated in registration order (appending an empty
result is also the identity, so the fold equals the flattening). -/
theorem withContextFields_eq_flatten (l : Logger) (ctx : Context) :
    withContextFields l ctx = (l.ctxMiddlewares.map (fun m => m ctx)).flatten := by
  suffices haux : ∀ (ms : List CtxMiddleware) (acc : List LogArg),
      ms.foldl (fun acc m => if (m ctx).length > 0 then acc ++ m ctx else acc) acc
        = acc ++ (ms.map (fun m => m ctx)).flatten by
    simpa [withContextFields] using haux l.ctxMiddlewares []
  intro ms
  induction ms with
  | nil => intro acc; simp
  | cons m ms ih =>
    intro acc
    simp only [List.foldl_cons, List.map_cons, List.flatten_cons]
    rw [ih]
    by_cases hm : (m ctx).length > 0
    · rw [if_pos hm, List.append_assoc]
    · rw [if_neg hm]
      have hempty : m ctx = [] := List.length_eq_zero.mp (by omega)
      simp [hempty]

/-- C8: `WithContext` runs every registered middleware in registration
order and concatenates their results; on a context carrying request id
`"abc-123"` a default-middleware Logger logs an entry carrying the field
pair `"request_id", "abc-123"`; on a context with no bound request id,
`WithContext` returns the receiver itself (in particular the same
Writer). -/
theorem logger_withContext_middleware (args : List LogArg) :
    ((∀ (l : Logger) (ctx : Context),
        withContextFields l ctx = (l.ctxMiddlewares.map (fun m => m ctx)).flatten) ∧
     (let step := (recorderLogger 0).WithContext singleRecStore (NewContext [] "abc-123")
      recEntries (step.2.Log step.1 DebugLevel args) 0)
        = [⟨DebugLevel, "", args,
            [LogArg.str "request_id", LogArg.str "abc-123"]⟩]) ∧
    (∀ (σ : Store) (ctx : Context), FromContext ctx = "" →
        (recorderLogger 0).WithContext σ ctx = (σ, recorderLogger 0)) := by
  refine ⟨⟨withContextFields_eq_flatten, ?_⟩, ?_⟩
  · simp [Logger.WithContext, withContextFields, recorderLogger, NewWithWriter,
      plainConfig, DefaultMiddlewares, RequestIDMiddleware, FromContext, ctxValue,
      NewContext, requestIDKey, Logger.With, Logger.Log, innerWriter, Logger.clone,
      writerWith, recWith, writerLog, recLog, recRecord, recEntries, top, topAux,
      heapGet, heapSet, heapLen, singleRecStore, zeroRecorder, DebugLevel]
  · intro σ ctx h
    have hmw : RequestIDMiddleware ctx = [] := by simp [RequestIDMiddleware, h]
    simp [Logger.WithContext, withContextFields, recorderLogger, NewWithWriter,
      plainConfig, DefaultMiddlewares, hmw]

/-- Witness for C8: the empty context carries no request id, and
`WithContext` returns the receiver. -/
theorem logger_withContext_middleware_witness :
    FromContext [] = "" ∧
    (recorderLogger 0).WithContext singleRecStore [] = (singleRecStore, recorderLogger 0) :=
  ⟨rfl, (logger_withContext_middleware []).2 singleRecStore [] rfl⟩

/-- The no-op-writer invariant behind C9: a Logger whose writer resolves
to the shared no-op writer keeps resolving to it across any call
sequence, and the heap is never touched. -/
theorem runOps_noop_invariant (ops : List LoggerOp) :
    ∀ (l : Logger) (σ : Store), innerWriter l = noOpWriter →
      (runOps ops (l, σ)).2 = σ ∧ innerWriter (runOps ops (l, σ)).1 = noOpWriter := by
  induction ops with
  | nil => intro l σ hw; exact ⟨rfl, hw⟩
  | cons op ops ih =>
    intro l σ hw
    have hstep : runOp (l, σ) op = ((runOp (l, σ) op).1, σ)
        ∧ innerWriter (runOp (l, σ) op).1 = noOpWriter := by
      cases op with
      | log lvl args =>
        refine ⟨?_, hw⟩
        simp only [runOp, Logger.Log, hw]
        split <;> simp [writerLog, noOpWriter]
      | logf lvl str args =>
        refine ⟨?_, hw⟩
        simp only [runOp, Logger.Logf, hw]
        split <;> simp [writerLogf, noOpWriter]
      | withFields fields =>
        have hres : l.With σ fields = (σ, l.clone WriterRef.noop) := by
          simp [Logger.With, hw, writerWith, noOpWriter]
        constructor
        · simp [runOp, hres]
        · simp [runOp, hres, innerWriter, Logger.clone, noOpWriter]
      | sync =>
        refine ⟨?_, hw⟩
        simp [runOp, Logger.Sync, hw, writerSync, noOpWriter]
    have hrun : runOps (op :: ops) (l, σ) = runOps ops (runOp (l, σ) op) := rfl
    rw [hrun, hstep.1]
    exact ih _ σ hstep.2

/-- C9: a zero-initialized Logger resolves its nil writer to the shared
no-op writer, and every sequence of `Log`, `Logf`, `With` and `Sync`
calls is a no-op on the heap, every intermediate Logger (in particular
those returned by `With`) again resolving to the no-op writer. -/
theorem zero_logger_safe (ops : List LoggerOp) (σ : Store) :
    innerWriter zeroLogger = noOpWriter ∧
    (runOps ops (zeroLogger, σ)).2 = σ ∧
    innerWriter (runOps ops (zeroLogger, σ)).1 = noOpWriter :=
  ⟨rfl, runOps_noop_invariant ops zeroLogger σ rfl⟩

/-! ## Toward SecretMask idempotence: character facts -/

theorem charToNatOfNat (n : Nat) (h2 : n < 55296) : (Char.ofNat n).toNat = n := by
  rw [Char.ofNat, dif_pos (Or.inl h2)]
  rw [Char.ofNatAux]
  show (UInt32.ofNat' n _).toBitVec.toNat = n
  simp [UInt32.ofNat']

theorem charEqOfToNat {c d : Char} (h : c.toNat = d.toNat) : c = d :=
  Char.ext (UInt32.toNat.inj h)

/-- Inverting `Char.toLower`: the argument is the result itself or its
basic-latin uppercase. -/
theorem toLower_cases (c d : Char) (h : c.toLower = d) :
    c = d ∨ (65 ≤ c.toNat ∧ c.toNat ≤ 90 ∧ c.toNat + 32 = d.toNat) := by
  unfold Char.toLower at h
  simp only [] at h
  by_cases hc : c.toNat ≥ 65 ∧ c.toNat ≤ 90
  · rw [if_pos hc] at h
    exact Or.inr ⟨hc.1, hc.2, by rw [← h, charToNatOfNat _ (by omega)]⟩
  · rw [if_neg hc] at h
    exact Or.inl h

theorem lowerEq_iff {a b : Char} : lowerEq a b = true ↔ a.toLower = b.toLower := by
  simp [lowerEq]

/-- A character that case-insensitively equals a lowercase letter has the
letter's code or the code 32 below it. -/
theorem lowerEq_letter_toNat {c k : Char} (h : lowerEq c k = true)
    (hk : 97 ≤ k.toNat ∧ k.toNat ≤ 122) :
    c.toNat = k.toNat ∨ (65 ≤ c.toNat ∧ c.toNat ≤ 90 ∧ c.toNat + 32 = k.toNat) := by
  rw [lowerEq_iff] at h
  have hkk : k.toLower = k := by
    unfold Char.toLower
    simp only []
    rw [if_neg (by omega)]
  rw [hkk] at h
  rcases toLower_cases c k h with h2 | h2
  · exact Or.inl (by rw [h2])
  · exact Or.inr h2

theorem ne_of_toNat_ne {c d : Char} (h : c.toNat ≠ d.toNat) : c ≠ d :=
  fun e => h (by rw [e])

/-- All five whitespace codes are below 33. -/
theorem isSpaceChar_eq_false_of_toNat {c : Char} (h : 33 ≤ c.toNat) :
    isSpaceChar c = false := by
  by_contra hs
  rw [Bool.not_eq_false] at hs
  simp only [isSpaceChar, Bool.or_eq_true, decide_eq_true_eq] at hs
  rcases hs with (((e|e)|e)|e)|e <;> subst e <;> revert h <;> decide

theorem isCRLF_eq_false_of_toNat {c : Char} (h : 33 ≤ c.toNat) :
    isCRLF c = false := by
  by_contra hs
  rw [Bool.not_eq_false] at hs
  simp only [isCRLF, Bool.or_eq_true, decide_eq_true_eq] at hs
  rcases hs with e|e <;> subst e <;> revert h <;> decide

/-- Derived facts about a character that case-insensitively equals a
lowercase letter: it is neither whitespace, CR, LF, a quote, a colon nor
an asterisk. -/
theorem letter_facts {c k : Char} (h : lowerEq c k = true)
    (hk : 97 ≤ k.toNat ∧ k.toNat ≤ 122) :
    isSpaceChar c = false ∧ isCRLF c = false ∧ c ≠ '"' ∧ c ≠ ':' ∧ c ≠ '*'
      ∧ c ≠ '\n' := by
  have hn := lowerEq_letter_toNat h hk
  have h33 : 33 ≤ c.toNat := by rcases hn with h2 | h2 <;> omega
  have hq : ('"' : Char).toNat = 34 := by decide
  have hc : (':' : Char).toNat = 58 := by decide
  have ha : ('*' : Char).toNat = 42 := by decide
  have hnl : ('\n' : Char).toNat = 10 := by decide
  refine ⟨isSpaceChar_eq_false_of_toNat h33, isCRLF_eq_false_of_toNat h33,
    ne_of_toNat_ne ?_, ne_of_toNat_ne ?_, ne_of_toNat_ne ?_, ne_of_toNat_ne ?_⟩
    <;> rcases hn with h2 | h2 <;> omega

/-- A character that case-insensitively equals `'"'` is `'"'`. -/
theorem eq_quote_of_lowerEq {c : Char} (h : lowerEq c '"' = true) : c = '"' := by
  rw [lowerEq_iff] at h
  have hq : ('"' : Char).toLower = '"' := by decide
  rw [hq] at h
  rcases toLower_cases c '"' h with h2 | h2
  · exact h2
  · exfalso
    have : ('"' : Char).toNat = 34 := by decide
    omega

/-- A character that case-insensitively equals `':'` is `':'`. -/
theorem eq_colon_of_lowerEq {c : Char} (h : lowerEq c ':' = true) : c = ':' := by
  rw [lowerEq_iff] at h
  have hq : (':' : Char).toLower = ':' := by decide
  rw [hq] at h
  rcases toLower_cases c ':' h with h2 | h2
  · exact h2
  · exfalso
    have : (':' : Char).toNat = 58 := by decide
    omega

theorem isSpaceChar_toLower_eq {c : Char} (h : isSpaceChar c = true) :
    c.toLower = c := by
  simp only [isSpaceChar, Bool.or_eq_true, decide_eq_true_eq] at h
  rcases h with (((e|e)|e)|e)|e <;> subst e <;> decide

/-- A whitespace character never case-insensitively equals a character
whose lowercasing is not itself whitespace. -/
theorem space_not_lowerEq {c k : Char} (hs : isSpaceChar c = true)
    (hk : isSpaceChar k.toLower = false) : lowerEq c k = false := by
  by_contra h
  rw [Bool.not_eq_false, lowerEq_iff] at h
  rw [isSpaceChar_toLower_eq hs] at h
  rw [h] at hs
  rw [hs] at hk
  exact absurd hk (by decide)


/-! ## List and literal-matching toolkit -/

/-- A `takeWhile` never passes a blocking element, so everything past the
blocker is irrelevant. -/
theorem takeWhile_append_blocker {p : Char → Bool} {x : Char}
    (hx : p x = false) (A B : List Char) :
    (A ++ x :: B).takeWhile p = A.takeWhile p := by
  induction A with
  | nil => simp [List.takeWhile_cons, hx]
  | cons a as ih =>
    simp only [List.cons_append, List.takeWhile_cons]
    cases hpa : p a <;> simp [ih]

theorem dropWhile_append_blocker {p : Char → Bool} {x : Char}
    (hx : p x = false) (A B : List Char) :
    (A ++ x :: B).dropWhile p = A.dropWhile p ++ x :: B := by
  induction A with
  | nil => simp [List.dropWhile_cons, hx]
  | cons a as ih =>
    simp only [List.cons_append, List.dropWhile_cons]
    cases hpa : p a <;> simp [ih, hx]

theorem takeWhile_length_ge_three {p : Char → Bool} {a b c : Char}
    (ha : p a = true) (hb : p b = true) (hc : p c = true) (l : List Char) :
    3 ≤ ((a :: b :: c :: l).takeWhile p).length := by
  simp [List.takeWhile_cons, ha, hb, hc]

/-- Decomposition of a successful case-insensitive literal match. -/
theorem matchLitCI_some_decomp {p l con rest : List Char}
    (h : matchLitCI p l = some (con, rest)) :
    l = con ++ rest ∧ con.length = p.length ∧
      List.Forall₂ (fun c q => lowerEq c q = true) con p := by
  induction p generalizing l con rest with
  | nil =>
    simp only [matchLitCI, Option.some.injEq, Prod.mk.injEq] at h
    rw [← h.1, ← h.2]
    exact ⟨rfl, rfl, List.Forall₂.nil⟩
  | cons q qs ih =>
    cases l with
    | nil => simp [matchLitCI] at h
    | cons c cs =>
      simp only [matchLitCI] at h
      by_cases hq : lowerEq c q = true
      · rw [if_pos hq] at h
        cases hm : matchLitCI qs cs with
        | none => rw [hm] at h; simp at h
        | some pr =>
          rw [hm] at h
          simp only [Option.map_some', Option.some.injEq, Prod.mk.injEq] at h
          obtain ⟨h1, h2⟩ := h
          obtain ⟨e1, e2, e3⟩ := @ih cs pr.1 pr.2 (by rw [hm])
          rw [← h1, ← h2]
          exact ⟨by rw [List.cons_append, ← e1], by simp [e2], List.Forall₂.cons hq e3⟩
      · rw [if_neg hq] at h; exact absurd h (by simp)

/-- Rebuild a literal match from its recorded characters. -/
theorem matchLitCI_of_forall₂ {p con : List Char}
    (h : List.Forall₂ (fun c q => lowerEq c q = true) con p) (z : List Char) :
    matchLitCI p (con ++ z) = some (con, z) := by
  induction h with
  | nil => rfl
  | cons hcq htail ih => simp [matchLitCI, hcq, ih]

/-- A literal match against a buffer at least as long as the pattern never
reads past the pattern's length. -/
theorem matchLitCI_prefix_indep {p u : List Char} (h : p.length ≤ u.length)
    (z : List Char) :
    matchLitCI p (u ++ z)
      = (matchLitCI p u).map (fun pr => (pr.1, pr.2 ++ z)) := by
  induction p generalizing u with
  | nil => simp [matchLitCI]
  | cons q qs ih =>
    cases u with
    | nil => simp at h
    | cons c cs =>
      simp only [List.cons_append, matchLitCI]
      by_cases hq : lowerEq c q = true
      · rw [if_pos hq, if_pos hq]
        have ih2 := ih (u := cs) (by simpa using h)
        simp only [List.append_eq] at ih2 ⊢
        rw [ih2]
        cases matchLitCI qs cs <;> simp
      · rw [if_neg hq, if_neg hq]; rfl

theorem matchLitCI_none_of_mismatch {p l : List Char} (i : Nat) {ci pi : Char}
    (hs : l.get? i = some ci) (hp : p.get? i = some pi)
    (hm : lowerEq ci pi = false) : matchLitCI p l = none := by
  cases hres : matchLitCI p l with
  | none => rfl
  | some pr =>
    exfalso
    obtain ⟨hl, hlen, hfa⟩ := @matchLitCI_some_decomp p l pr.1 pr.2 (by rw [hres])
    have hi : i < p.length := (List.get?_eq_some.mp hp).1
    have hcon : pr.1.get? i = some ci := by
      rw [hl] at hs
      rwa [List.get?_append (by omega)] at hs
    have := List.forall₂_iff_get.mp hfa
    obtain ⟨hlen2, hget⟩ := this
    have hgi := hget i (by omega) hi
    rw [List.get?_eq_get (by omega)] at hcon
    rw [List.get?_eq_get hi] at hp
    have e1 : pr.1.get ⟨i, by omega⟩ = ci := by
      injection hcon
    have e2 : p.get ⟨i, hi⟩ = pi := by injection hp
    rw [e1, e2] at hgi
    rw [hgi] at hm
    exact absurd hm (by decide)

theorem matchLitCI_none_of_exhaust {p l : List Char} (h : l.length < p.length) :
    matchLitCI p l = none := by
  induction p generalizing l with
  | nil => simp at h
  | cons q qs ih =>
    cases l with
    | nil => rfl
    | cons c cs =>
      simp only [matchLitCI]
      by_cases hq : lowerEq c q = true
      · rw [if_pos hq, ih (by simpa using h)]; rfl
      · rw [if_neg hq]

/-- Splitting a suffix of a concatenation. -/
theorem suffix_append_cases {tr A B : List Char} (h : tr <:+ A ++ B) :
    tr <:+ B ∨ ∃ ta, ta ≠ [] ∧ ta <:+ A ∧ tr = ta ++ B := by
  obtain ⟨pre, hpre⟩ := h
  rcases le_or_lt A.length pre.length with hle | hlt
  · left
    refine ⟨pre.drop A.length, ?_⟩
    have h2 := congrArg (List.drop A.length) hpre
    rw [List.drop_append_of_le_length hle,
      List.drop_append_of_le_length (le_refl _)] at h2
    simpa using h2
  · right
    refine ⟨A.drop pre.length, ?_, ⟨A.take pre.length, List.take_append_drop _ _⟩, ?_⟩
    · intro he
      have := congrArg List.length he
      simp at this
      omega
    · have h2 := congrArg (List.drop pre.length) hpre
      rw [List.drop_append_of_le_length (le_refl _),
        List.drop_append_of_le_length (le_of_lt hlt)] at h2
      simp at h2
      exact h2

theorem isSuffix_drop_form {ta A : List Char} (h : ta <:+ A) :
    ∃ k, k ≤ A.length ∧ ta = A.drop k := by
  obtain ⟨pre, hpre⟩ := h
  refine ⟨pre.length, ?_, ?_⟩
  · have := congrArg List.length hpre
    simp at this
    omega
  · have h2 := congrArg (List.drop pre.length) hpre
    rw [List.drop_append_of_le_length (le_refl _)] at h2
    simp at h2
    exact h2


/-! ## Inversion of successful matches -/

theorem dropWhile_head_not {p : Char → Bool} {l : List Char} {c : Char}
    {cs : List Char} (h : l.dropWhile p = c :: cs) : p c = false := by
  induction l with
  | nil => simp at h
  | cons a as ih =>
    rw [List.dropWhile_cons] at h
    by_cases hpa : p a = true
    · rw [if_pos hpa] at h; exact ih h
    · rw [if_neg hpa] at h
      injection h with h1 _
      rw [← h1]
      exact Bool.not_eq_true _ |>.mp hpa

theorem mem_takeWhile_pred {p : Char → Bool} {l : List Char} {c : Char}
    (h : c ∈ l.takeWhile p) : p c = true := by
  induction l with
  | nil => simp at h
  | cons a as ih =>
    rw [List.takeWhile_cons] at h
    by_cases hpa : p a = true
    · rw [if_pos hpa] at h
      rcases List.mem_cons.mp h with h1 | h1
      · rw [h1]; exact hpa
      · exact ih h1
    · rw [if_neg hpa] at h; simp at h

/-- Full decomposition of a successful password-pattern match. -/
theorem tryPasswordAt_some_decomp {s rep rest : List Char}
    (h : tryPasswordAt s = some (rep, rest)) :
    ∃ lit sp1 sp2 x y run,
      List.Forall₂ (fun c q => lowerEq c q = true) lit ("password\"".toList) ∧
      (∀ c ∈ sp1, isSpaceChar c = true) ∧ (∀ c ∈ sp2, isSpaceChar c = true) ∧
      x ≠ '\n' ∧ y ≠ '\n' ∧ (∀ c ∈ run, c ≠ '"') ∧
      ((s = lit ++ sp1 ++ [':'] ++ sp2 ++ ['"', x, y] ++ run ++ ['"', '"'] ++ rest ∧
          rep = lit ++ sp1 ++ [':'] ++ sp2 ++ ['"', x, y] ++ "***".toList ++ ['"', '"']) ∨
       (∃ lc, run.getLast? = some lc ∧ lc ≠ '\n' ∧ (∀ t2, rest ≠ '"' :: t2) ∧
          s = lit ++ sp1 ++ [':'] ++ sp2 ++ ['"', x, y] ++ run ++ ['"'] ++ rest ∧
          rep = lit ++ sp1 ++ [':'] ++ sp2 ++ ['"', x, y] ++ "***".toList ++ [lc, '"'])) := by
  unfold tryPasswordAt at h
  split at h
  · exact absurd h (by simp)
  · rename_i lit r1 hlit
    split at h
    · rename_i r3 hr3
      split at h
      · rename_i x y r5 hr5
        split at h
        · rename_i hxy
          rw [Bool.and_eq_true, decide_eq_true_eq, decide_eq_true_eq] at hxy
          obtain ⟨hsl, _, hfa⟩ := matchLitCI_some_decomp hlit
          have hr1 : r1 = r1.takeWhile isSpaceChar ++ ':' :: r3 := by
            conv_lhs => rw [← List.takeWhile_append_dropWhile (p := isSpaceChar) (l := r1)]
            rw [hr3]
          have hr3d : r3 = r3.takeWhile isSpaceChar ++ '"' :: x :: y :: r5 := by
            conv_lhs => rw [← List.takeWhile_append_dropWhile (p := isSpaceChar) (l := r3)]
            rw [hr5]
          refine ⟨lit, r1.takeWhile isSpaceChar, r3.takeWhile isSpaceChar, x, y,
            r5.takeWhile (fun ch => ch ≠ '"'), hfa,
            fun c hc => mem_takeWhile_pred hc,
            fun c hc => mem_takeWhile_pred hc, hxy.1, hxy.2,
            fun c hc => by simpa using mem_takeWhile_pred hc, ?_⟩
          split at h
          · rename_i tail hrq
            left
            simp only [Option.some.injEq, Prod.mk.injEq] at h
            rw [← h.2, ← h.1]
            constructor
            · conv_lhs => rw [hsl, hr1, hr3d,
                ← List.takeWhile_append_dropWhile (p := fun ch => ch ≠ '"') (l := r5),
                hrq]
              simp [List.append_assoc]
            · simp [List.append_assoc]
          · rename_i tail hne hrq
            dsimp only [] at h
            split at h
            · rename_i lc hlc
              split at h
              · rename_i hlcn
                right
                simp only [Option.some.injEq, Prod.mk.injEq] at h
                rw [← h.2, ← h.1]
                refine ⟨lc, hlc, hlcn, ?_, ?_, ?_⟩
                · intro t2 ht2
                  exact hne t2 (by rw [← ht2])
                · conv_lhs => rw [hsl, hr1, hr3d,
                    ← List.takeWhile_append_dropWhile (p := fun ch => ch ≠ '"') (l := r5),
                    hrq]
                  simp [List.append_assoc]
                · simp [List.append_assoc]
              · exact absurd h (by simp)
            · exact absurd h (by simp)
          · exact absurd h (by simp)
        · exact absurd h (by simp)
      · exact absurd h (by simp)
    · exact absurd h (by simp)


/-- Full decomposition of a successful authorization-pattern match. -/
theorem tryAuthorizationAt_some_decomp {s rep rest : List Char}
    (h : tryAuthorizationAt s = some (rep, rest)) :
    ∃ lit ws wd s1 a b c mid g2,
      List.Forall₂ (fun c2 q => lowerEq c2 q = true) lit ("Authorization:".toList) ∧
      (∀ c2 ∈ ws, isSpaceChar c2 = true) ∧ wd ≠ [] ∧
      (∀ c2 ∈ wd, isWordChar c2 = true) ∧
      isSpaceChar s1 = true ∧ isWordChar a = true ∧ isWordChar b = true ∧
      isWordChar c = true ∧
      (∀ c2 ∈ mid, isCRLF c2 = false) ∧ g2.length = 3 ∧
      (∀ c2 ∈ g2, isCRLF c2 = false) ∧
      (rest = [] ∨ ∃ r0 rt, rest = r0 :: rt ∧ isCRLF r0 = true) ∧
      s = lit ++ ws ++ wd ++ [s1, a, b, c] ++ mid ++ g2 ++ rest ∧
      rep = lit ++ ws ++ wd ++ [s1, a, b, c] ++ "*****".toList ++ g2 := by
  unfold tryAuthorizationAt at h
  split at h
  · exact absurd h (by simp)
  · rename_i lit r1 hlit
    dsimp only [] at h
    split at h
    · exact absurd h (by simp)
    · rename_i hwd
      split at h
      · exact absurd h (by simp)
      · rename_i s1 r4 hr3
        split at h
        · rename_i hs1
          split at h
          · rename_i a b c r5
            split at h
            · rename_i habc
              rw [Bool.and_eq_true, Bool.and_eq_true] at habc
              split at h
              · exact absurd h (by simp)
              · rename_i hrunlen
                rw [Nat.not_lt] at hrunlen
                simp only [Option.some.injEq, Prod.mk.injEq] at h
                obtain ⟨hsl, _, hfa⟩ := matchLitCI_some_decomp hlit
                rw [Bool.not_eq_true, List.isEmpty_eq_false_iff_exists_mem] at hwd
                set run := List.takeWhile (fun ch => !isCRLF ch) r5 with hrun
                refine ⟨lit, r1.takeWhile isSpaceChar,
                  (r1.dropWhile isSpaceChar).takeWhile isWordChar, s1, a, b, c,
                  run.take (run.length - 3), run.drop (run.length - 3), hfa,
                  fun c2 hc => mem_takeWhile_pred hc, ?_,
                  fun c2 hc => mem_takeWhile_pred hc, hs1,
                  habc.1.1, habc.1.2, habc.2, ?_, ?_, ?_, ?_, ?_, ?_⟩
                · obtain ⟨w0, hw0⟩ := hwd
                  intro he
                  rw [he] at hw0
                  exact absurd hw0 (List.not_mem_nil w0)
                · intro c2 hc
                  have h2 := mem_takeWhile_pred (List.mem_of_mem_take hc)
                  simpa using h2
                · rw [List.length_drop]
                  omega
                · intro c2 hc
                  have h2 := mem_takeWhile_pred (List.mem_of_mem_drop hc)
                  simpa using h2
                · rcases hrr : rest with _ | ⟨r0, rt⟩
                  · exact Or.inl rfl
                  · refine Or.inr ⟨r0, rt, rfl, ?_⟩
                    rw [hrr] at h
                    have h2 := dropWhile_head_not h.2
                    simpa using h2
                · conv_lhs =>
                    rw [hsl,
                      ← List.takeWhile_append_dropWhile (p := isSpaceChar) (l := r1),
                      ← List.takeWhile_append_dropWhile (p := isWordChar)
                        (l := List.dropWhile isSpaceChar r1),
                      hr3,
                      ← List.takeWhile_append_dropWhile (p := fun ch => !isCRLF ch)
                        (l := r5),
                      ← hrun, h.2,
                      ← List.take_append_drop (run.length - 3) run]
                  simp [List.append_assoc]
                · rw [← h.1]
            · exact absurd h (by simp)
          · exact absurd h (by simp)
        · exact absurd h (by simp)

/-! ### Generic facts about the scanning loop of `replaceAll` -/

theorem replaceAllAux_congr_fuel {f : List Char → Option (List Char × List Char)}
    (hf : Shrinks f) :
    ∀ n m l, l.length ≤ n → l.length ≤ m →
      replaceAllAux f n l = replaceAllAux f m l := by
  intro n
  induction n with
  | zero =>
    intro m l hn _
    have : l = [] := List.length_eq_zero.mp (Nat.le_zero.mp hn)
    subst this
    rw [replaceAllAux_nil, replaceAllAux_nil]
  | succ n ih =>
    intro m l hn hm
    cases m with
    | zero =>
      have : l = [] := List.length_eq_zero.mp (Nat.le_zero.mp hm)
      subst this
      rw [replaceAllAux_nil, replaceAllAux_nil]
    | succ m =>
      cases l with
      | nil => rfl
      | cons c cs =>
        simp only [replaceAllAux]
        cases htry : f (c :: cs) with
        | none =>
          rw [ih m cs (by simpa using hn) (by simpa using hm)]
        | some pr =>
          obtain ⟨rep, rest⟩ := pr
          have hlt := hf (c :: cs) rep rest htry
          show rep ++ replaceAllAux f n rest = rep ++ replaceAllAux f m rest
          rw [ih m rest (by simp at hlt hn ⊢; omega) (by simp at hlt hm ⊢; omega)]

theorem replaceAll_cons_none {f : List Char → Option (List Char × List Char)}
    {c : Char} {cs : List Char} (h : f (c :: cs) = none) :
    replaceAll f (c :: cs) = c :: replaceAll f cs := by
  simp only [replaceAll, List.length_cons, replaceAllAux, h]

theorem replaceAll_cons_some {f : List Char → Option (List Char × List Char)}
    (hf : Shrinks f) {c : Char} {cs rep rest : List Char}
    (h : f (c :: cs) = some (rep, rest)) :
    replaceAll f (c :: cs) = rep ++ replaceAll f rest := by
  have hlt := hf (c :: cs) rep rest h
  simp only [replaceAll, List.length_cons, replaceAllAux, h]
  rw [replaceAllAux_congr_fuel hf cs.length rest.length rest
    (by simp at hlt; omega) le_rfl]

theorem replaceAll_append_of_none {f : List Char → Option (List Char × List Char)}
    {m z : List Char} (hm : ∀ i, i < m.length → f (m.drop i ++ z) = none) :
    replaceAll f (m ++ z) = m ++ replaceAll f z := by
  induction m with
  | nil => rfl
  | cons c cs ih =>
    have h0 : f (c :: (cs ++ z)) = none := by simpa using hm 0 (by simp)
    rw [List.cons_append, replaceAll_cons_none h0,
      ih (fun i hi => by simpa using hm (i + 1) (by simpa using hi)),
      List.cons_append]

theorem replaceAll_id_of_none {f : List Char → Option (List Char × List Char)}
    {l : List Char} (hm : ∀ i, i < l.length → f (l.drop i) = none) :
    replaceAll f l = l := by
  have h2 : replaceAll f (l ++ []) = l ++ replaceAll f [] :=
    replaceAll_append_of_none (by simpa using hm)
  simpa [show replaceAll f [] = ([] : List Char) from rfl] using h2

theorem replaceAll_head {f : List Char → Option (List Char × List Char)}
    (hf : Shrinks f) (hh : HeadKeeps f) (c : Char) (cs : List Char) :
    ∃ u, replaceAll f (c :: cs) = c :: u := by
  cases htry : f (c :: cs) with
  | none => exact ⟨replaceAll f cs, replaceAll_cons_none htry⟩
  | some pr =>
    obtain ⟨u2, hu2⟩ := hh c cs pr.1 pr.2 (by rw [htry])
    refine ⟨u2 ++ replaceAll f pr.2, ?_⟩
    rw [replaceAll_cons_some hf (by rw [htry]), hu2, List.cons_append]

theorem replaceAll_suffix_cases {f : List Char → Option (List Char × List Char)}
    (hf : Shrinks f) (hs : SufRest f) {l t : List Char}
    (ht : t <:+ replaceAll f l) :
    (∃ v, v <:+ l ∧ t = replaceAll f v) ∨
    (∃ v rep rest k, v <:+ l ∧ f v = some (rep, rest) ∧ 1 ≤ k ∧
      k < rep.length ∧ t = rep.drop k ++ replaceAll f rest) := by
  suffices H : ∀ n l2, l2.length ≤ n → ∀ t2, t2 <:+ replaceAll f l2 →
      (∃ v, v <:+ l2 ∧ t2 = replaceAll f v) ∨
      (∃ v rep rest k, v <:+ l2 ∧ f v = some (rep, rest) ∧ 1 ≤ k ∧
        k < rep.length ∧ t2 = rep.drop k ++ replaceAll f rest) from
    H l.length l le_rfl t ht
  intro n
  induction n with
  | zero =>
    intro l2 hn t2 ht2
    have : l2 = [] := List.length_eq_zero.mp (Nat.le_zero.mp hn)
    subst this
    have : t2 = [] := List.eq_nil_of_suffix_nil ht2
    exact Or.inl ⟨[], List.suffix_refl _, this⟩
  | succ n ih =>
    intro l2 hn t2 ht2
    cases l2 with
    | nil =>
      have : t2 = [] := List.eq_nil_of_suffix_nil ht2
      exact Or.inl ⟨[], List.suffix_refl _, this⟩
    | cons c cs =>
      cases htry : f (c :: cs) with
      | none =>
        rw [replaceAll_cons_none htry] at ht2
        rcases List.suffix_cons_iff.mp ht2 with he | ht3
        · exact Or.inl ⟨c :: cs, List.suffix_refl _,
            by rw [he, replaceAll_cons_none htry]⟩
        · rcases ih cs (by simpa using hn) t2 ht3 with ⟨v, hv, he⟩ | ⟨v, rep, rest, k, hv, hm, hk1, hk2, he⟩
          · exact Or.inl ⟨v, hv.trans (List.suffix_cons c cs), he⟩
          · exact Or.inr ⟨v, rep, rest, k, hv.trans (List.suffix_cons c cs),
              hm, hk1, hk2, he⟩
      | some pr =>
        have hrs : pr.2 <:+ c :: cs := hs (c :: cs) pr.1 pr.2 (by rw [htry])
        have hlen : pr.2.length < cs.length + 1 :=
          by simpa using hf (c :: cs) pr.1 pr.2 (by rw [htry])
        rw [replaceAll_cons_some hf (by rw [htry] : f (c :: cs) = some (pr.1, pr.2))] at ht2
        rcases suffix_append_cases ht2 with ht3 | ⟨ta, hta_ne, hta_suf, he⟩
        · rcases ih pr.2 (by simp at hn; omega) t2 ht3 with ⟨v, hv, he⟩ | ⟨v, rep, rest, k, hv, hm, hk1, hk2, he⟩
          · exact Or.inl ⟨v, hv.trans hrs, he⟩
          · exact Or.inr ⟨v, rep, rest, k, hv.trans hrs, hm, hk1, hk2, he⟩
        · by_cases hfull : ta.length = pr.1.length
          · have : ta = pr.1 := hta_suf.eq_of_length hfull
            subst this
            refine Or.inl ⟨c :: cs, List.suffix_refl _, ?_⟩
            rw [he, replaceAll_cons_some hf
              (by rw [htry] : f (c :: cs) = some (pr.1, pr.2))]
          · obtain ⟨k0, hk0le, hdeq⟩ := isSuffix_drop_form hta_suf
            have hlen2 : ta.length = pr.1.length - k0 := by
              rw [hdeq, List.length_drop]
            have hpos : 0 < ta.length := List.length_pos.mpr hta_ne
            refine Or.inr ⟨c :: cs, pr.1, pr.2, k0,
              List.suffix_refl _, by rw [htry], by omega, by omega, ?_⟩
            rw [he, hdeq]

/-! ### Head and region kills for the two matchers -/

theorem tryPasswordAt_nil : tryPasswordAt [] = none := rfl

theorem tryAuthorizationAt_nil : tryAuthorizationAt [] = none := rfl

theorem tryPasswordAt_none_of_head {c : Char} (l : List Char)
    (h : lowerEq c 'p' = false) : tryPasswordAt (c :: l) = none := by
  unfold tryPasswordAt
  rw [matchLitCI_none_of_mismatch 0 (by rfl) (by rfl) h]

theorem tryAuthorizationAt_none_of_head {c : Char} (l : List Char)
    (h : lowerEq c 'a' = false) : tryAuthorizationAt (c :: l) = none := by
  have h2 : lowerEq c 'A' = false := by
    unfold lowerEq at h ⊢
    rw [show ('A' : Char).toLower = ('a' : Char).toLower from by decide]
    exact h
  unfold tryAuthorizationAt
  rw [matchLitCI_none_of_mismatch 0 (by rfl) (by rfl) h2]

/-- Neither a whitespace character nor an asterisk can case-insensitively
equal any character of either pattern literal. -/
theorem spaceStar_not_lowerEq {d q : Char} (hd : isSpaceChar d = true ∨ d = '*')
    (hq : q = 'p' ∨ q = 'a' ∨ q = 's' ∨ q = 'w' ∨ q = 'o' ∨ q = 'r' ∨
      q = 'd' ∨ q = '"' ∨ q = 'u' ∨ q = 't' ∨ q = 'h' ∨ q = 'i' ∨ q = 'z' ∨
      q = 'n' ∨ q = ':' ∨ q = 'A') :
    lowerEq d q = false := by
  have hd2 : d = ' ' ∨ d = '\t' ∨ d = '\n' ∨ d = '\x0c' ∨ d = '\r' ∨ d = '*' := by
    rcases hd with h | h
    · simp only [isSpaceChar, Bool.or_eq_true, decide_eq_true_eq] at h
      tauto
    · tauto
  rcases hd2 with rfl | rfl | rfl | rfl | rfl | rfl <;>
    rcases hq with rfl | rfl | rfl | rfl | rfl | rfl | rfl | rfl | rfl | rfl | rfl | rfl | rfl | rfl | rfl | rfl <;>
    decide

/-- Every character of the password literal, as a goal disjunction. -/
theorem pwd_lit_char_cases (j : Nat) (hj : j < 9) {q : Char}
    (hq : "password\"".toList.get? j = some q) :
    q = 'p' ∨ q = 'a' ∨ q = 's' ∨ q = 'w' ∨ q = 'o' ∨ q = 'r' ∨
      q = 'd' ∨ q = '"' ∨ q = 'u' ∨ q = 't' ∨ q = 'h' ∨ q = 'i' ∨ q = 'z' ∨
      q = 'n' ∨ q = ':' ∨ q = 'A' := by
  interval_cases j <;> simp_all <;> tauto

/-- Every character of the authorization literal, as a goal disjunction. -/
theorem auth_lit_char_cases (j : Nat) (hj : j < 14) {q : Char}
    (hq : "Authorization:".toList.get? j = some q) :
    q = 'p' ∨ q = 'a' ∨ q = 's' ∨ q = 'w' ∨ q = 'o' ∨ q = 'r' ∨
      q = 'd' ∨ q = '"' ∨ q = 'u' ∨ q = 't' ∨ q = 'h' ∨ q = 'i' ∨ q = 'z' ∨
      q = 'n' ∨ q = ':' ∨ q = 'A' := by
  interval_cases j <;> simp_all <;> tauto

/-- A run of word characters followed by whitespace or an asterisk can
never begin a password match: the literal needs a quote at index 8. -/
theorem tryPasswordAt_none_of_word {w z : List Char}
    (hw : ∀ c ∈ w, isWordChar c = true)
    (hz : z = [] ∨ ∃ d z2, z = d :: z2 ∧ (isSpaceChar d = true ∨ d = '*')) :
    tryPasswordAt (w ++ z) = none := by
  unfold tryPasswordAt
  rcases le_or_lt 9 w.length with hge | hlt
  · have h8 : (w ++ z).get? 8 = w.get? 8 := List.get?_append (by omega)
    have h8lt : 8 < w.length := by omega
    have hc8 : w.get? 8 = some (w.get ⟨8, h8lt⟩) := List.get?_eq_get h8lt
    have hmem : w.get ⟨8, h8lt⟩ ∈ w := w.get_mem _ _
    have hkill : lowerEq (w.get ⟨8, h8lt⟩) '"' = false := by
      cases hres : lowerEq (w.get ⟨8, h8lt⟩) '"' with
      | false => rfl
      | true =>
        have he := eq_quote_of_lowerEq hres
        have hword := hw _ hmem
        rw [he] at hword
        exact absurd hword (by decide)
    rw [matchLitCI_none_of_mismatch 8 (by rw [h8, hc8]) (by rfl) hkill]
  · rcases hz with rfl | ⟨d, z2, rfl, hd⟩
    · rw [List.append_nil, matchLitCI_none_of_exhaust (by simpa using hlt)]
    · have hsz : (w ++ d :: z2).get? w.length = some d := by
        rw [List.get?_append_right le_rfl]
        simp
      have hplt : w.length < ("password\"".toList).length := by
        simpa using hlt
      have hpj : "password\"".toList.get? w.length
          = some ("password\"".toList.get ⟨w.length, hplt⟩) :=
        List.get?_eq_get hplt
      have hkill := spaceStar_not_lowerEq hd
        (pwd_lit_char_cases w.length (by simpa using hlt) hpj)
      rw [matchLitCI_none_of_mismatch w.length hsz hpj hkill]

/-- A run of word characters followed by whitespace or an asterisk can
never begin an authorization match: the literal needs a colon at
index 13. -/
theorem tryAuthorizationAt_none_of_word {w z : List Char}
    (hw : ∀ c ∈ w, isWordChar c = true)
    (hz : z = [] ∨ ∃ d z2, z = d :: z2 ∧ (isSpaceChar d = true ∨ d = '*')) :
    tryAuthorizationAt (w ++ z) = none := by
  unfold tryAuthorizationAt
  rcases le_or_lt 14 w.length with hge | hlt
  · have h13 : (w ++ z).get? 13 = w.get? 13 := List.get?_append (by omega)
    have h13lt : 13 < w.length := by omega
    have hc13 : w.get? 13 = some (w.get ⟨13, h13lt⟩) := List.get?_eq_get h13lt
    have hmem : w.get ⟨13, h13lt⟩ ∈ w := w.get_mem _ _
    have hkill : lowerEq (w.get ⟨13, h13lt⟩) ':' = false := by
      cases hres : lowerEq (w.get ⟨13, h13lt⟩) ':' with
      | false => rfl
      | true =>
        have he := eq_colon_of_lowerEq hres
        have hword := hw _ hmem
        rw [he] at hword
        exact absurd hword (by decide)
    rw [matchLitCI_none_of_mismatch 13 (by rw [h13, hc13]) (by rfl) hkill]
  · rcases hz with rfl | ⟨d, z2, rfl, hd⟩
    · rw [List.append_nil, matchLitCI_none_of_exhaust (by simpa using hlt)]
    · have hsz : (w ++ d :: z2).get? w.length = some d := by
        rw [List.get?_append_right le_rfl]
        simp
      have hplt : w.length < ("Authorization:".toList).length := by
        simpa using hlt
      have hpj : "Authorization:".toList.get? w.length
          = some ("Authorization:".toList.get ⟨w.length, hplt⟩) :=
        List.get?_eq_get hplt
      have hkill := spaceStar_not_lowerEq hd
        (auth_lit_char_cases w.length (by simpa using hlt) hpj)
      rw [matchLitCI_none_of_mismatch w.length hsz hpj hkill]

/-! ### Structural corollaries of the inversion lemmas -/

theorem tryPasswordAt_sufRest : SufRest tryPasswordAt := by
  intro l rep rest h
  obtain ⟨lit, sp1, sp2, x, y, run, hfa, _, _, _, _, _, hcase⟩ :=
    tryPasswordAt_some_decomp h
  rcases hcase with ⟨hs, _⟩ | ⟨lc, _, _, _, hs, _⟩ <;>
    exact ⟨_, by rw [hs]⟩

theorem tryAuthorizationAt_sufRest : SufRest tryAuthorizationAt := by
  intro l rep rest h
  obtain ⟨lit, ws, wd, s1, a, b, c, mid, g2, hfa, _, _, _, _, _, _, _, _, _,
    _, _, hs, _⟩ := tryAuthorizationAt_some_decomp h
  exact ⟨_, by rw [hs]⟩

theorem tryPasswordAt_shrinks : Shrinks tryPasswordAt := by
  intro l rep rest h
  obtain ⟨lit, sp1, sp2, x, y, run, hfa, _, _, _, _, _, hcase⟩ :=
    tryPasswordAt_some_decomp h
  have hlen : lit.length = 9 := by simpa using hfa.length_eq
  rcases hcase with ⟨hs, _⟩ | ⟨lc, _, _, _, hs, _⟩ <;>
  · rw [hs]
    simp [List.length_append]
    omega

theorem tryAuthorizationAt_shrinks : Shrinks tryAuthorizationAt := by
  intro l rep rest h
  obtain ⟨lit, ws, wd, s1, a, b, c, mid, g2, hfa, _, _, _, _, _, _, _, _, _,
    _, _, hs, _⟩ := tryAuthorizationAt_some_decomp h
  have hlen : lit.length = 14 := by simpa using hfa.length_eq
  rw [hs]
  simp [List.length_append]
  omega

theorem tryPasswordAt_headKeeps : HeadKeeps tryPasswordAt := by
  intro c cs rep rest h
  obtain ⟨lit, sp1, sp2, x, y, run, hfa, _, _, _, _, _, hcase⟩ :=
    tryPasswordAt_some_decomp h
  have hlen : lit.length = 9 := by simpa using hfa.length_eq
  cases lit with
  | nil => simp at hlen
  | cons c0 lt =>
    rcases hcase with ⟨hs, hrep⟩ | ⟨lc, _, _, _, hs, hrep⟩ <;>
    · simp only [List.cons_append, List.append_assoc] at hs
      injection hs with h1 h2
      rw [hrep, ← h1]
      exact ⟨_, rfl⟩

theorem tryAuthorizationAt_headKeeps : HeadKeeps tryAuthorizationAt := by
  intro c cs rep rest h
  obtain ⟨lit, ws, wd, s1, a, b, c2, mid, g2, hfa, _, _, _, _, _, _, _, _, _,
    _, _, hs, hrep⟩ := tryAuthorizationAt_some_decomp h
  have hlen : lit.length = 14 := by simpa using hfa.length_eq
  cases lit with
  | nil => simp at hlen
  | cons c0 lt =>
    simp only [List.cons_append, List.append_assoc] at hs
    injection hs with h1 h2
    rw [hrep, ← h1]
    exact ⟨_, rfl⟩

/-- A successful password match forces a quote at index 8 of the input. -/
theorem tryPasswordAt_some_drop8 {l rep rest : List Char}
    (h : tryPasswordAt l = some (rep, rest)) :
    ∃ u, l.drop 8 = '"' :: u := by
  obtain ⟨lit, sp1, sp2, x, y, run, hfa, _, _, _, _, _, hcase⟩ :=
    tryPasswordAt_some_decomp h
  have hlen : lit.length = 9 := by simpa using hfa.length_eq
  have h8lt : 8 < lit.length := by omega
  have hci : lowerEq (lit.get ⟨8, h8lt⟩) '"' = true := by
    obtain ⟨hl2, hget⟩ := List.forall₂_iff_get.mp hfa
    have hgg := hget 8 h8lt (by simp)
    simpa using hgg
  have hq := eq_quote_of_lowerEq hci
  have hdl : lit.drop 8 = ['"'] := by
    rw [List.drop_eq_get_cons h8lt, hq]
    simp [List.drop_eq_nil_of_le, hlen]
  rcases hcase with ⟨hs, _⟩ | ⟨lc, _, _, _, hs, _⟩ <;>
  · rw [hs]
    simp only [List.append_assoc]
    rw [List.drop_append_of_le_length (by omega), hdl]
    exact ⟨_, rfl⟩

/-- A successful authorization match forces a colon at index 13. -/
theorem tryAuthorizationAt_some_drop13 {l rep rest : List Char}
    (h : tryAuthorizationAt l = some (rep, rest)) :
    ∃ u, l.drop 13 = ':' :: u := by
  obtain ⟨lit, ws, wd, s1, a, b, c, mid, g2, hfa, _, _, _, _, _, _, _, _, _,
    _, _, hs, _⟩ := tryAuthorizationAt_some_decomp h
  have hlen : lit.length = 14 := by simpa using hfa.length_eq
  have h13lt : 13 < lit.length := by omega
  have hci : lowerEq (lit.get ⟨13, h13lt⟩) ':' = true := by
    obtain ⟨hl2, hget⟩ := List.forall₂_iff_get.mp hfa
    have hgg := hget 13 h13lt (by simp)
    simpa using hgg
  have hq := eq_colon_of_lowerEq hci
  have hdl : lit.drop 13 = [':'] := by
    rw [List.drop_eq_get_cons h13lt, hq]
    simp [List.drop_eq_nil_of_le, hlen]
  rw [hs]
  simp only [List.append_assoc]
  rw [List.drop_append_of_le_length (by omega), hdl]
  exact ⟨_, rfl⟩

theorem tryPasswordAt_none_of_drop8 {l : List Char}
    (h : ∀ u, l.drop 8 ≠ '"' :: u) : tryPasswordAt l = none := by
  cases hres : tryPasswordAt l with
  | none => rfl
  | some pr =>
    obtain ⟨u, hu⟩ := tryPasswordAt_some_drop8
      (by rw [hres] : tryPasswordAt l = some (pr.1, pr.2))
    exact absurd hu (h u)

theorem tryAuthorizationAt_none_of_drop13 {l : List Char}
    (h : ∀ u, l.drop 13 ≠ ':' :: u) : tryAuthorizationAt l = none := by
  cases hres : tryAuthorizationAt l with
  | none => rfl
  | some pr =>
    obtain ⟨u, hu⟩ := tryAuthorizationAt_some_drop13
      (by rw [hres] : tryAuthorizationAt l = some (pr.1, pr.2))
    exact absurd hu (h u)

/-! ### Self-reproduction of emitted replacements -/

/-- An authorization replacement followed by a CRLF-headed (or empty)
continuation matches again, reproducing itself exactly. -/
theorem tryAuthorizationAt_selfrep {lit ws wd : List Char} {s1 a b c : Char}
    {g2 X : List Char}
    (hfa : List.Forall₂ (fun c2 q => lowerEq c2 q = true) lit
      ("Authorization:".toList))
    (hws : ∀ c2 ∈ ws, isSpaceChar c2 = true)
    (hwd_ne : wd ≠ []) (hwd : ∀ c2 ∈ wd, isWordChar c2 = true)
    (hs1 : isSpaceChar s1 = true)
    (ha : isWordChar a = true) (hb : isWordChar b = true)
    (hc : isWordChar c = true)
    (hg2len : g2.length = 3) (hg2 : ∀ c2 ∈ g2, isCRLF c2 = false)
    (hX : X = [] ∨ ∃ r0 rt, X = r0 :: rt ∧ isCRLF r0 = true) :
    tryAuthorizationAt (lit ++ ws ++ wd ++ [s1, a, b, c]
        ++ "*****".toList ++ g2 ++ X)
      = some (lit ++ ws ++ wd ++ [s1, a, b, c] ++ "*****".toList ++ g2, X) := by
  obtain ⟨w0, wt, rfl⟩ : ∃ w0 wt, wd = w0 :: wt := by
    cases wd with
    | nil => exact absurd rfl hwd_ne
    | cons w0 wt => exact ⟨w0, wt, rfl⟩
  have hw0 : isWordChar w0 = true := hwd w0 (by simp)
  have hw0s : isSpaceChar w0 = false := word_not_space hw0
  have hs1w : isWordChar s1 = false := by
    cases hres : isWordChar s1 with
    | false => rfl
    | true =>
      have := word_not_space hres
      rw [this] at hs1
      exact absurd hs1 (by simp)
  have hshape : lit ++ ws ++ (w0 :: wt) ++ [s1, a, b, c]
        ++ "*****".toList ++ g2 ++ X
      = lit ++ (ws ++ (w0 :: (wt ++ (s1 :: a :: b :: c ::
          ('*' :: '*' :: '*' :: '*' :: '*' :: (g2 ++ X)))))) := by
    simp [List.append_assoc]
  rw [hshape]
  unfold tryAuthorizationAt
  rw [matchLitCI_of_forall₂ hfa]
  dsimp only []
  have htS : List.takeWhile isSpaceChar (ws ++ (w0 :: (wt ++ (s1 :: a :: b :: c ::
        ('*' :: '*' :: '*' :: '*' :: '*' :: (g2 ++ X)))))) = ws := by
    rw [takeWhile_all_append _ _ _ hws]
    simp [List.takeWhile_cons, hw0s]
  have hdS : List.dropWhile isSpaceChar (ws ++ (w0 :: (wt ++ (s1 :: a :: b :: c ::
        ('*' :: '*' :: '*' :: '*' :: '*' :: (g2 ++ X))))))
      = w0 :: (wt ++ (s1 :: a :: b :: c ::
        ('*' :: '*' :: '*' :: '*' :: '*' :: (g2 ++ X)))) := by
    rw [dropWhile_all_append _ _ _ hws]
    simp [List.dropWhile_cons, hw0s]
  have hwtw : ∀ c2 ∈ w0 :: wt, isWordChar c2 = true := hwd
  have htW : List.takeWhile isWordChar (w0 :: (wt ++ (s1 :: a :: b :: c ::
        ('*' :: '*' :: '*' :: '*' :: '*' :: (g2 ++ X))))) = w0 :: wt := by
    rw [show w0 :: (wt ++ (s1 :: a :: b :: c ::
        ('*' :: '*' :: '*' :: '*' :: '*' :: (g2 ++ X))))
      = (w0 :: wt) ++ (s1 :: a :: b :: c ::
        ('*' :: '*' :: '*' :: '*' :: '*' :: (g2 ++ X))) from rfl]
    rw [takeWhile_all_append _ _ _ hwtw]
    simp [List.takeWhile_cons, hs1w]
  have hdW : List.dropWhile isWordChar (w0 :: (wt ++ (s1 :: a :: b :: c ::
        ('*' :: '*' :: '*' :: '*' :: '*' :: (g2 ++ X)))))
      = s1 :: a :: b :: c ::
        ('*' :: '*' :: '*' :: '*' :: '*' :: (g2 ++ X)) := by
    rw [show w0 :: (wt ++ (s1 :: a :: b :: c ::
        ('*' :: '*' :: '*' :: '*' :: '*' :: (g2 ++ X))))
      = (w0 :: wt) ++ (s1 :: a :: b :: c ::
        ('*' :: '*' :: '*' :: '*' :: '*' :: (g2 ++ X))) from rfl]
    rw [dropWhile_all_append _ _ _ hwtw]
    simp [List.dropWhile_cons, hs1w]
  rw [htS, hdS, htW, hdW]
  have hg2X : List.takeWhile (fun ch => !isCRLF ch) (g2 ++ X) = g2 ∧
      List.dropWhile (fun ch => !isCRLF ch) (g2 ++ X) = X := by
    have hg2p : ∀ c2 ∈ g2, (fun ch => !isCRLF ch) c2 = true := by
      intro c2 hc2
      simp [hg2 c2 hc2]
    rcases hX with rfl | ⟨r0, rt, rfl, hr0⟩
    · constructor
      · have := takeWhile_all_append (fun ch => !isCRLF ch) g2 [] hg2p
        simpa using this
      · have := dropWhile_all_append (fun ch => !isCRLF ch) g2 [] hg2p
        simpa using this
    · constructor
      · rw [takeWhile_all_append _ _ _ hg2p]
        simp [List.takeWhile_cons, hr0]
      · rw [dropWhile_all_append _ _ _ hg2p]
        simp [List.dropWhile_cons, hr0]
  rw [if_neg (by simp)]
  dsimp only []
  rw [if_pos hs1, if_pos (by simp [ha, hb, hc])]
  simp only [List.takeWhile_cons, List.dropWhile_cons,
    show ((!isCRLF '*') = true) from by decide, if_true, hg2X.1, hg2X.2]
  rw [if_neg (by simp [hg2len])]
  simp [hg2len, List.append_assoc]

/-- A password replacement that ended in two literal quotes matches again
in front of any continuation, reproducing itself exactly. -/
theorem tryPasswordAt_selfrep_case1 {lit sp1 sp2 : List Char} {x y : Char}
    (X : List Char)
    (hfa : List.Forall₂ (fun c q => lowerEq c q = true) lit
      ("password\"".toList))
    (hsp1 : ∀ c ∈ sp1, isSpaceChar c = true)
    (hsp2 : ∀ c ∈ sp2, isSpaceChar c = true)
    (hx : x ≠ '\n') (hy : y ≠ '\n') :
    tryPasswordAt (lit ++ sp1 ++ [':'] ++ sp2 ++ ['"', x, y]
        ++ "***".toList ++ ['"', '"'] ++ X)
      = some (lit ++ sp1 ++ [':'] ++ sp2 ++ ['"', x, y]
        ++ "***".toList ++ ['"', '"'], X) := by
  have hshape : lit ++ sp1 ++ [':'] ++ sp2 ++ ['"', x, y]
        ++ "***".toList ++ ['"', '"'] ++ X
      = lit ++ (sp1 ++ (':' :: (sp2 ++ ('"' :: x :: y ::
          ('*' :: '*' :: '*' :: ('"' :: '"' :: X)))))) := by
    simp [List.append_assoc]
  rw [hshape]
  unfold tryPasswordAt
  rw [matchLitCI_of_forall₂ hfa]
  dsimp only []
  have hcns : isSpaceChar ':' = false := by decide
  have hqns : isSpaceChar '"' = false := by decide
  have htS1 : List.takeWhile isSpaceChar (sp1 ++ (':' :: (sp2 ++ ('"' :: x :: y ::
        ('*' :: '*' :: '*' :: ('"' :: '"' :: X)))))) = sp1 := by
    rw [takeWhile_all_append _ _ _ hsp1]
    simp [List.takeWhile_cons, hcns]
  have hdS1 : List.dropWhile isSpaceChar (sp1 ++ (':' :: (sp2 ++ ('"' :: x :: y ::
        ('*' :: '*' :: '*' :: ('"' :: '"' :: X))))))
      = ':' :: (sp2 ++ ('"' :: x :: y ::
        ('*' :: '*' :: '*' :: ('"' :: '"' :: X)))) := by
    rw [dropWhile_all_append _ _ _ hsp1]
    simp [List.dropWhile_cons, hcns]
  have htS2 : List.takeWhile isSpaceChar (sp2 ++ ('"' :: x :: y ::
        ('*' :: '*' :: '*' :: ('"' :: '"' :: X)))) = sp2 := by
    rw [takeWhile_all_append _ _ _ hsp2]
    simp [List.takeWhile_cons, hqns]
  have hdS2 : List.dropWhile isSpaceChar (sp2 ++ ('"' :: x :: y ::
        ('*' :: '*' :: '*' :: ('"' :: '"' :: X))))
      = '"' :: x :: y :: ('*' :: '*' :: '*' :: ('"' :: '"' :: X)) := by
    rw [dropWhile_all_append _ _ _ hsp2]
    simp [List.dropWhile_cons, hqns]
  have hdrop : List.dropWhile (fun ch => ch ≠ '"')
      ('*' :: '*' :: '*' :: ('"' :: '"' :: X)) = '"' :: '"' :: X := by
    simp [List.dropWhile_cons]
  rw [htS1, hdS1]
  split
  · rename_i r3 hr3
    injection hr3 with h1 h2
    subst h2
    rw [htS2, hdS2]
    split
    · rename_i x2 y2 r5 hr5
      injection hr5 with ha1 hb1
      injection hb1 with ha2 hb2
      injection hb2 with ha3 hb3
      subst ha2
      subst ha3
      subst hb3
      rw [if_pos (by simp [hx, hy])]
      rw [hdrop]
      split
      · rename_i tail htail
        injection htail with hc1 hc2
        injection hc2 with hc3 hc4
        subst hc4
        rfl
      · rename_i t0 tail2 hno heq
        injection heq with e1 e2
        exact (hno X e2.symm).elim
      · rename_i hno1 hno2
        exact (hno1 X rfl).elim
    · rename_i hne
      exact absurd rfl (hne x y ('*' :: '*' :: '*' :: ('"' :: '"' :: X)))
  · rename_i hne
    exact absurd rfl (hne (sp2 ++ ('"' :: x :: y ::
      ('*' :: '*' :: '*' :: ('"' :: '"' :: X)))))

/-- A password replacement that ended with a run character and a single
quote matches again in front of any continuation that does not start with
a quote, reproducing itself exactly. -/
theorem tryPasswordAt_selfrep_case2 {lit sp1 sp2 : List Char} {x y lc : Char}
    {X : List Char}
    (hfa : List.Forall₂ (fun c q => lowerEq c q = true) lit
      ("password\"".toList))
    (hsp1 : ∀ c ∈ sp1, isSpaceChar c = true)
    (hsp2 : ∀ c ∈ sp2, isSpaceChar c = true)
    (hx : x ≠ '\n') (hy : y ≠ '\n')
    (hlcn : lc ≠ '\n') (hlcq : lc ≠ '"')
    (hX : ∀ t2, X ≠ '"' :: t2) :
    tryPasswordAt (lit ++ sp1 ++ [':'] ++ sp2 ++ ['"', x, y]
        ++ "***".toList ++ [lc, '"'] ++ X)
      = some (lit ++ sp1 ++ [':'] ++ sp2 ++ ['"', x, y]
        ++ "***".toList ++ [lc, '"'], X) := by
  have hshape : lit ++ sp1 ++ [':'] ++ sp2 ++ ['"', x, y]
        ++ "***".toList ++ [lc, '"'] ++ X
      = lit ++ (sp1 ++ (':' :: (sp2 ++ ('"' :: x :: y ::
          ('*' :: '*' :: '*' :: (lc :: '"' :: X)))))) := by
    simp [List.append_assoc]
  rw [hshape]
  unfold tryPasswordAt
  rw [matchLitCI_of_forall₂ hfa]
  dsimp only []
  have hcns : isSpaceChar ':' = false := by decide
  have hqns : isSpaceChar '"' = false := by decide
  have htS1 : List.takeWhile isSpaceChar (sp1 ++ (':' :: (sp2 ++ ('"' :: x :: y ::
        ('*' :: '*' :: '*' :: (lc :: '"' :: X)))))) = sp1 := by
    rw [takeWhile_all_append _ _ _ hsp1]
    simp [List.takeWhile_cons, hcns]
  have hdS1 : List.dropWhile isSpaceChar (sp1 ++ (':' :: (sp2 ++ ('"' :: x :: y ::
        ('*' :: '*' :: '*' :: (lc :: '"' :: X))))))
      = ':' :: (sp2 ++ ('"' :: x :: y ::
        ('*' :: '*' :: '*' :: (lc :: '"' :: X)))) := by
    rw [dropWhile_all_append _ _ _ hsp1]
    simp [List.dropWhile_cons, hcns]
  have htS2 : List.takeWhile isSpaceChar (sp2 ++ ('"' :: x :: y ::
        ('*' :: '*' :: '*' :: (lc :: '"' :: X)))) = sp2 := by
    rw [takeWhile_all_append _ _ _ hsp2]
    simp [List.takeWhile_cons, hqns]
  have hdS2 : List.dropWhile isSpaceChar (sp2 ++ ('"' :: x :: y ::
        ('*' :: '*' :: '*' :: (lc :: '"' :: X))))
      = '"' :: x :: y :: ('*' :: '*' :: '*' :: (lc :: '"' :: X)) := by
    rw [dropWhile_all_append _ _ _ hsp2]
    simp [List.dropWhile_cons, hqns]
  have hrun : List.takeWhile (fun ch => ch ≠ '"')
      ('*' :: '*' :: '*' :: (lc :: '"' :: X)) = ['*', '*', '*', lc] := by
    simp [List.takeWhile_cons, hlcq]
  have hdrop : List.dropWhile (fun ch => ch ≠ '"')
      ('*' :: '*' :: '*' :: (lc :: '"' :: X)) = '"' :: X := by
    simp [List.dropWhile_cons, hlcq]
  rw [htS1, hdS1]
  split
  · rename_i r3 hr3
    injection hr3 with h1 h2
    subst h2
    rw [htS2, hdS2]
    split
    · rename_i x2 y2 r5 hr5
      injection hr5 with ha1 hb1
      injection hb1 with ha2 hb2
      injection hb2 with ha3 hb3
      subst ha2
      subst ha3
      subst hb3
      rw [if_pos (by simp [hx, hy])]
      rw [hdrop]
      split
      · rename_i tail htail
        injection htail with hc1 hc2
        exact absurd hc2 (hX tail)
      · rename_i t0 tail2 hno heq
        injection heq with e1 e2
        subst e2
        rw [hrun]
        rw [show (['*', '*', '*', lc] : List Char).getLast? = some lc from rfl]
        dsimp only []
        rw [if_pos hlcn]
      · rename_i hno1 hno2
        exact (hno2 X rfl).elim
    · rename_i hne
      exact absurd rfl (hne x y ('*' :: '*' :: '*' :: (lc :: '"' :: X)))
  · rename_i hne
    exact absurd rfl (hne (sp2 ++ ('"' :: x :: y ::
      ('*' :: '*' :: '*' :: (lc :: '"' :: X)))))

/-! ### Kills inside emitted replacements -/

/-- A character case-insensitively equal to one letter cannot
case-insensitively equal a letter with a different lowercase form. -/
theorem lowerEq_shift {c q1 q2 : Char} (h : lowerEq c q1 = true)
    (hne : q1.toLower ≠ q2.toLower) : lowerEq c q2 = false := by
  cases hres : lowerEq c q2 with
  | false => rfl
  | true =>
    rw [lowerEq_iff] at h hres
    rw [h] at hres
    exact absurd hres hne

theorem suffix_singleton {x : Char} {ta : List Char} (h : ta <:+ [x])
    (hne : ta ≠ []) : ta = [x] := by
  rcases List.suffix_cons_iff.mp h with he | h2
  · exact he
  · have : ta = [] := List.eq_nil_of_suffix_nil h2
    exact absurd this hne

theorem tryAuthorizationAt_none_of_space_head {c : Char} (l : List Char)
    (hs : isSpaceChar c = true) : tryAuthorizationAt (c :: l) = none :=
  tryAuthorizationAt_none_of_head l (space_not_lowerEq hs (by decide))

theorem tryPasswordAt_none_of_space_head {c : Char} (l : List Char)
    (hs : isSpaceChar c = true) : tryPasswordAt (c :: l) = none :=
  tryPasswordAt_none_of_head l (space_not_lowerEq hs (by decide))

theorem tryAuthorizationAt_none_of_space_suffix {sp ta : List Char}
    (hsp : ∀ c ∈ sp, isSpaceChar c = true) (tas : ta <:+ sp) (tane : ta ≠ [])
    (R : List Char) : tryAuthorizationAt (ta ++ R) = none := by
  cases ta with
  | nil => exact absurd rfl tane
  | cons h0 tl =>
    have hm : h0 ∈ sp := tas.subset (by simp)
    rw [List.cons_append]
    exact tryAuthorizationAt_none_of_space_head _ (hsp h0 hm)

theorem tryPasswordAt_none_of_space_suffix {sp ta : List Char}
    (hsp : ∀ c ∈ sp, isSpaceChar c = true) (tas : ta <:+ sp) (tane : ta ≠ [])
    (R : List Char) : tryPasswordAt (ta ++ R) = none := by
  cases ta with
  | nil => exact absurd rfl tane
  | cons h0 tl =>
    have hm : h0 ∈ sp := tas.subset (by simp)
    rw [List.cons_append]
    exact tryPasswordAt_none_of_space_head _ (hsp h0 hm)

/-- No authorization match can begin at any nonempty suffix of a password
replacement, whatever follows it. -/
theorem forall₂_get?_ci {lit pat : List Char}
    (hfa : List.Forall₂ (fun c q => lowerEq c q = true) lit pat)
    {k : Nat} {c q : Char} (hc : lit.get? k = some c)
    (hq : pat.get? k = some q) : lowerEq c q = true := by
  obtain ⟨hl, hg⟩ := List.forall₂_iff_get.mp hfa
  have hklt : k < lit.length := (List.get?_eq_some.mp hc).1
  have hklt2 : k < pat.length := (List.get?_eq_some.mp hq).1
  have hgk := hg k hklt hklt2
  rw [List.get?_eq_get hklt] at hc
  rw [List.get?_eq_get hklt2] at hq
  injection hc with hc2
  injection hq with hq2
  rw [hc2, hq2] at hgk
  exact hgk

theorem tryAuthorizationAt_none_inside_pwdrep {lit sp1 sp2 : List Char}
    {x y w1 : Char} (X : List Char)
    (hfa : List.Forall₂ (fun c q => lowerEq c q = true) lit
      ("password\"".toList))
    (hsp1 : ∀ c ∈ sp1, isSpaceChar c = true)
    (hsp2 : ∀ c ∈ sp2, isSpaceChar c = true)
    {t : List Char}
    (ht : t <:+ lit ++ sp1 ++ [':'] ++ sp2 ++ ['"', x, y]
      ++ "***".toList ++ [w1, '"'])
    (htne : t ≠ []) :
    tryAuthorizationAt (t ++ X) = none := by
  have hlen : lit.length = 9 := by simpa using hfa.length_eq
  obtain ⟨hl2, hget⟩ := List.forall₂_iff_get.mp hfa
  rw [show lit ++ sp1 ++ [':'] ++ sp2 ++ ['"', x, y]
        ++ "***".toList ++ [w1, '"']
      = lit ++ (sp1 ++ (':' :: (sp2 ++ ('"' :: x :: y ::
          '*' :: '*' :: '*' :: w1 :: '"' :: []))))
    from by simp [List.append_assoc]] at ht
  rcases suffix_append_cases ht with h1 | ⟨ta, tane, tas, rfl⟩
  · rcases suffix_append_cases h1 with h2 | ⟨ta, tane, tas, rfl⟩
    · rcases List.suffix_cons_iff.mp h2 with rfl | h3
      · rw [List.cons_append]
        exact tryAuthorizationAt_none_of_head _ (by decide)
      · rcases suffix_append_cases h3 with h4 | ⟨ta, tane, tas, rfl⟩
        · rcases List.suffix_cons_iff.mp h4 with rfl | h5
          · rw [List.cons_append]
            exact tryAuthorizationAt_none_of_head _ (by decide)
          · rcases List.suffix_cons_iff.mp h5 with rfl | h6
            · simp only [List.cons_append, List.nil_append]
              unfold tryAuthorizationAt
              rw [matchLitCI_none_of_mismatch 2 (by rfl) (by rfl) (by decide)]
            · rcases List.suffix_cons_iff.mp h6 with rfl | h7
              · simp only [List.cons_append, List.nil_append]
                unfold tryAuthorizationAt
                rw [matchLitCI_none_of_mismatch 1 (by rfl) (by rfl) (by decide)]
              · rcases List.suffix_cons_iff.mp h7 with rfl | h8
                · rw [List.cons_append]
                  exact tryAuthorizationAt_none_of_head _ (by decide)
                · rcases List.suffix_cons_iff.mp h8 with rfl | h9
                  · rw [List.cons_append]
                    exact tryAuthorizationAt_none_of_head _ (by decide)
                  · rcases List.suffix_cons_iff.mp h9 with rfl | h10
                    · rw [List.cons_append]
                      exact tryAuthorizationAt_none_of_head _ (by decide)
                    · rcases List.suffix_cons_iff.mp h10 with rfl | h11
                      · simp only [List.cons_append, List.nil_append]
                        unfold tryAuthorizationAt
                        rw [matchLitCI_none_of_mismatch 1 (by rfl) (by rfl)
                          (by decide)]
                      · rcases List.suffix_cons_iff.mp h11 with rfl | h12
                        · rw [List.cons_append]
                          exact tryAuthorizationAt_none_of_head _ (by decide)
                        · exact absurd (List.eq_nil_of_suffix_nil h12) htne
        · rw [List.append_assoc]
          exact tryAuthorizationAt_none_of_space_suffix hsp2 tas tane _
    · rw [List.append_assoc]
      exact tryAuthorizationAt_none_of_space_suffix hsp1 tas tane _
  · obtain ⟨k, hk, hdeq⟩ := isSuffix_drop_form tas
    rw [hlen] at hk
    have hkne : k ≠ 9 := by
      intro he
      rw [he] at hdeq
      rw [List.drop_eq_nil_of_le (by omega)] at hdeq
      exact absurd hdeq tane
    have hk9 : k < 9 := by omega
    subst hdeq
    by_cases hk1 : k = 1
    · subst hk1
      have h2lt : 2 < lit.length := by omega
      have hci2 : lowerEq (lit.get ⟨2, h2lt⟩) 's' = true :=
        forall₂_get?_ci hfa (List.get?_eq_get h2lt)
          (show _ = some 's' from rfl)
      have hkill : lowerEq (lit.get ⟨2, h2lt⟩) 'u' = false :=
        lowerEq_shift hci2 (by decide)
      have hget2 : (List.drop 1 lit ++ (sp1 ++ (':' :: (sp2 ++ ('"' :: x :: y ::
          '*' :: '*' :: '*' :: w1 :: '"' :: [])))) ++ X).get? 1
          = some (lit.get ⟨2, h2lt⟩) := by
        rw [List.get?_append (by simp; omega),
          List.get?_append (by simp; omega)]
        rw [List.get?_drop]
        exact List.get?_eq_get h2lt
      unfold tryAuthorizationAt
      rw [matchLitCI_none_of_mismatch 1 hget2 (by rfl) hkill]
    · have hklt : k < lit.length := by omega
      have hc : lit.get? k = some (lit.get ⟨k, hklt⟩) := List.get?_eq_get hklt
      rw [List.drop_eq_get_cons hklt, List.cons_append, List.cons_append]
      refine tryAuthorizationAt_none_of_head _ ?_
      interval_cases k
      all_goals first
        | exact absurd rfl hk1
        | exact lowerEq_shift (forall₂_get?_ci hfa hc
            (show _ = some 'p' from rfl)) (by decide)
        | exact lowerEq_shift (forall₂_get?_ci hfa hc
            (show _ = some 's' from rfl)) (by decide)
        | exact lowerEq_shift (forall₂_get?_ci hfa hc
            (show _ = some 'w' from rfl)) (by decide)
        | exact lowerEq_shift (forall₂_get?_ci hfa hc
            (show _ = some 'o' from rfl)) (by decide)
        | exact lowerEq_shift (forall₂_get?_ci hfa hc
            (show _ = some 'r' from rfl)) (by decide)
        | exact lowerEq_shift (forall₂_get?_ci hfa hc
            (show _ = some 'd' from rfl)) (by decide)
        | exact lowerEq_shift (forall₂_get?_ci hfa hc
            (show _ = some '"' from rfl)) (by decide)

theorem crlf_space {c : Char} (h : isCRLF c = true) : isSpaceChar c = true := by
  simp only [isCRLF, Bool.or_eq_true, decide_eq_true_eq] at h
  rcases h with rfl | rfl <;> decide

/-- No password match can begin at any nonempty suffix of an
authorization replacement when the continuation is empty or CRLF-headed. -/
theorem tryPasswordAt_none_inside_authrep {lit ws wd : List Char}
    {s1 a b c : Char} {g2 X : List Char}
    (hfa : List.Forall₂ (fun c2 q => lowerEq c2 q = true) lit
      ("Authorization:".toList))
    (hws : ∀ c2 ∈ ws, isSpaceChar c2 = true)
    (hwd : ∀ c2 ∈ wd, isWordChar c2 = true)
    (hs1 : isSpaceChar s1 = true)
    (ha : isWordChar a = true) (hb : isWordChar b = true)
    (hc : isWordChar c = true)
    (hg2len : g2.length = 3)
    (hX : X = [] ∨ ∃ r0 rt, X = r0 :: rt ∧ isCRLF r0 = true)
    {t : List Char}
    (ht : t <:+ lit ++ ws ++ wd ++ [s1, a, b, c] ++ "*****".toList ++ g2)
    (htne : t ≠ []) :
    tryPasswordAt (t ++ X) = none := by
  have hlen : lit.length = 14 := by simpa using hfa.length_eq
  rw [show lit ++ ws ++ wd ++ [s1, a, b, c] ++ "*****".toList ++ g2
      = lit ++ (ws ++ (wd ++ (s1 :: a :: b :: c ::
          '*' :: '*' :: '*' :: '*' :: '*' :: g2)))
    from by simp [List.append_assoc]] at ht
  rcases suffix_append_cases ht with h1 | ⟨ta, tane, tas, rfl⟩
  · rcases suffix_append_cases h1 with h2 | ⟨ta, tane, tas, rfl⟩
    · rcases suffix_append_cases h2 with h3 | ⟨ta, tane, tas, rfl⟩
      · rcases List.suffix_cons_iff.mp h3 with rfl | h4
        · rw [List.cons_append]
          exact tryPasswordAt_none_of_space_head _ hs1
        · rcases List.suffix_cons_iff.mp h4 with rfl | h5
          · rw [show (a :: b :: c :: '*' :: '*' :: '*' :: '*' :: '*' :: g2) ++ X
                = [a, b, c] ++ ('*' :: ('*' :: '*' :: '*' :: '*' :: g2 ++ X))
              from by simp]
            refine tryPasswordAt_none_of_word ?_
              (Or.inr ⟨'*', _, rfl, Or.inr rfl⟩)
            intro c2 hc2
            simp only [List.mem_cons, List.not_mem_nil, or_false] at hc2
            rcases hc2 with rfl | rfl | rfl
            · exact ha
            · exact hb
            · exact hc
          · rcases List.suffix_cons_iff.mp h5 with rfl | h6
            · rw [show (b :: c :: '*' :: '*' :: '*' :: '*' :: '*' :: g2) ++ X
                  = [b, c] ++ ('*' :: ('*' :: '*' :: '*' :: '*' :: g2 ++ X))
                from by simp]
              refine tryPasswordAt_none_of_word ?_
                (Or.inr ⟨'*', _, rfl, Or.inr rfl⟩)
              intro c2 hc2
              simp only [List.mem_cons, List.not_mem_nil, or_false] at hc2
              rcases hc2 with rfl | rfl
              · exact hb
              · exact hc
            · rcases List.suffix_cons_iff.mp h6 with rfl | h7
              · rw [show (c :: '*' :: '*' :: '*' :: '*' :: '*' :: g2) ++ X
                    = [c] ++ ('*' :: ('*' :: '*' :: '*' :: '*' :: g2 ++ X))
                  from by simp]
                refine tryPasswordAt_none_of_word ?_
                  (Or.inr ⟨'*', _, rfl, Or.inr rfl⟩)
                intro c2 hc2
                simp only [List.mem_cons, List.not_mem_nil, or_false] at hc2
                rcases hc2 with rfl
                exact hc
              · rcases List.suffix_cons_iff.mp h7 with rfl | h8
                · rw [List.cons_append]
                  exact tryPasswordAt_none_of_head _ (by decide)
                · rcases List.suffix_cons_iff.mp h8 with rfl | h9
                  · rw [List.cons_append]
                    exact tryPasswordAt_none_of_head _ (by decide)
                  · rcases List.suffix_cons_iff.mp h9 with rfl | h10
                    · rw [List.cons_append]
                      exact tryPasswordAt_none_of_head _ (by decide)
                    · rcases List.suffix_cons_iff.mp h10 with rfl | h11
                      · rw [List.cons_append]
                        exact tryPasswordAt_none_of_head _ (by decide)
                      · rcases List.suffix_cons_iff.mp h11 with rfl | h12
                        · rw [List.cons_append]
                          exact tryPasswordAt_none_of_head _ (by decide)
                        · -- inside g2
                          obtain ⟨k, hkle, rfl⟩ := isSuffix_drop_form h12
                          rw [hg2len] at hkle
                          have hkne : k ≠ 3 := by
                            intro he
                            rw [he, List.drop_eq_nil_of_le (by omega)] at htne
                            exact absurd rfl htne
                          have hdl : (g2.drop k).length = 3 - k := by
                            rw [List.length_drop, hg2len]
                          rcases hX with rfl | ⟨r0, rt, rfl, hr0⟩
                          · rw [List.append_nil]
                            unfold tryPasswordAt
                            rw [matchLitCI_none_of_exhaust (by
                              rw [hdl, show ("password\"".toList).length = 9
                                from rfl]
                              omega)]
                          · have hget : (g2.drop k ++ r0 :: rt).get? (3 - k)
                                = some r0 := by
                              rw [List.get?_append_right (by omega), hdl]
                              simp
                            have hsp : isSpaceChar r0 = true := crlf_space hr0
                            unfold tryPasswordAt
                            interval_cases k
                            · rw [matchLitCI_none_of_mismatch 3 hget (by rfl)
                                (spaceStar_not_lowerEq (Or.inl hsp) (by tauto))]
                            · rw [matchLitCI_none_of_mismatch 2 hget (by rfl)
                                (spaceStar_not_lowerEq (Or.inl hsp) (by tauto))]
                            · rw [matchLitCI_none_of_mismatch 1 hget (by rfl)
                                (spaceStar_not_lowerEq (Or.inl hsp) (by tauto))]
                            · exact absurd rfl hkne
      · rw [List.append_assoc]
        refine tryPasswordAt_none_of_word (fun c2 hc2 => hwd c2 (tas.subset hc2))
          (Or.inr ⟨s1, (a :: b :: c :: '*' :: '*' :: '*' :: '*' :: '*' :: g2)
            ++ X, by simp, Or.inl hs1⟩)
    · rw [List.append_assoc]
      exact tryPasswordAt_none_of_space_suffix hws tas tane _
  · obtain ⟨k, hk, hdeq⟩ := isSuffix_drop_form tas
    rw [hlen] at hk
    have hkne : k ≠ 14 := by
      intro he
      rw [he] at hdeq
      rw [List.drop_eq_nil_of_le (by omega)] at hdeq
      exact absurd hdeq tane
    have hklt : k < lit.length := by omega
    subst hdeq
    have hcg : lit.get? k = some (lit.get ⟨k, hklt⟩) := List.get?_eq_get hklt
    rw [List.drop_eq_get_cons hklt, List.cons_append, List.cons_append]
    refine tryPasswordAt_none_of_head _ ?_
    interval_cases k
    all_goals first
      | exact absurd rfl hkne
      | exact lowerEq_shift (forall₂_get?_ci hfa hcg
          (show _ = some 'A' from rfl)) (by decide)
      | exact lowerEq_shift (forall₂_get?_ci hfa hcg
          (show _ = some 'u' from rfl)) (by decide)
      | exact lowerEq_shift (forall₂_get?_ci hfa hcg
          (show _ = some 't' from rfl)) (by decide)
      | exact lowerEq_shift (forall₂_get?_ci hfa hcg
          (show _ = some 'h' from rfl)) (by decide)
      | exact lowerEq_shift (forall₂_get?_ci hfa hcg
          (show _ = some 'o' from rfl)) (by decide)
      | exact lowerEq_shift (forall₂_get?_ci hfa hcg
          (show _ = some 'r' from rfl)) (by decide)
      | exact lowerEq_shift (forall₂_get?_ci hfa hcg
          (show _ = some 'i' from rfl)) (by decide)
      | exact lowerEq_shift (forall₂_get?_ci hfa hcg
          (show _ = some 'z' from rfl)) (by decide)
      | exact lowerEq_shift (forall₂_get?_ci hfa hcg
          (show _ = some 'a' from rfl)) (by decide)
      | exact lowerEq_shift (forall₂_get?_ci hfa hcg
          (show _ = some 'n' from rfl)) (by decide)
      | exact lowerEq_shift (forall₂_get?_ci hfa hcg
          (show _ = some ':' from rfl)) (by decide)

/-- No authorization match can begin at any nonempty proper suffix of an
authorization replacement when the continuation is empty or CRLF-headed. -/
theorem tryAuthorizationAt_none_inside_authrep {lit ws wd : List Char}
    {s1 a b c : Char} {g2 X : List Char}
    (hfa : List.Forall₂ (fun c2 q => lowerEq c2 q = true) lit
      ("Authorization:".toList))
    (hws : ∀ c2 ∈ ws, isSpaceChar c2 = true)
    (hwd : ∀ c2 ∈ wd, isWordChar c2 = true)
    (hs1 : isSpaceChar s1 = true)
    (ha : isWordChar a = true) (hb : isWordChar b = true)
    (hc : isWordChar c = true)
    (hg2len : g2.length = 3)
    (hX : X = [] ∨ ∃ r0 rt, X = r0 :: rt ∧ isCRLF r0 = true)
    {t : List Char}
    (ht : t <:+ lit ++ ws ++ wd ++ [s1, a, b, c] ++ "*****".toList ++ g2)
    (htne : t ≠ [])
    (htpr : t.length < (lit ++ ws ++ wd ++ [s1, a, b, c]
      ++ "*****".toList ++ g2).length) :
    tryAuthorizationAt (t ++ X) = none := by
  have hlen : lit.length = 14 := by simpa using hfa.length_eq
  have hrlen : (lit ++ ws ++ wd ++ [s1, a, b, c]
      ++ "*****".toList ++ g2).length
      = lit.length + ws.length + wd.length + 12 := by
    simp [List.length_append, hg2len]
    omega
  rw [show lit ++ ws ++ wd ++ [s1, a, b, c] ++ "*****".toList ++ g2
      = lit ++ (ws ++ (wd ++ (s1 :: a :: b :: c ::
          '*' :: '*' :: '*' :: '*' :: '*' :: g2)))
    from by simp [List.append_assoc]] at ht
  rcases suffix_append_cases ht with h1 | ⟨ta, tane, tas, rfl⟩
  · rcases suffix_append_cases h1 with h2 | ⟨ta, tane, tas, rfl⟩
    · rcases suffix_append_cases h2 with h3 | ⟨ta, tane, tas, rfl⟩
      · rcases List.suffix_cons_iff.mp h3 with rfl | h4
        · rw [List.cons_append]
          exact tryAuthorizationAt_none_of_space_head _ hs1
        · rcases List.suffix_cons_iff.mp h4 with rfl | h5
          · rw [show (a :: b :: c :: '*' :: '*' :: '*' :: '*' :: '*' :: g2) ++ X
                = [a, b, c] ++ ('*' :: ('*' :: '*' :: '*' :: '*' :: g2 ++ X))
              from by simp]
            refine tryAuthorizationAt_none_of_word ?_
              (Or.inr ⟨'*', _, rfl, Or.inr rfl⟩)
            intro c2 hc2
            simp only [List.mem_cons, List.not_mem_nil, or_false] at hc2
            rcases hc2 with rfl | rfl | rfl
            · exact ha
            · exact hb
            · exact hc
          · rcases List.suffix_cons_iff.mp h5 with rfl | h6
            · rw [show (b :: c :: '*' :: '*' :: '*' :: '*' :: '*' :: g2) ++ X
                  = [b, c] ++ ('*' :: ('*' :: '*' :: '*' :: '*' :: g2 ++ X))
                from by simp]
              refine tryAuthorizationAt_none_of_word ?_
                (Or.inr ⟨'*', _, rfl, Or.inr rfl⟩)
              intro c2 hc2
              simp only [List.mem_cons, List.not_mem_nil, or_false] at hc2
              rcases hc2 with rfl | rfl
              · exact hb
              · exact hc
            · rcases List.suffix_cons_iff.mp h6 with rfl | h7
              · rw [show (c :: '*' :: '*' :: '*' :: '*' :: '*' :: g2) ++ X
                    = [c] ++ ('*' :: ('*' :: '*' :: '*' :: '*' :: g2 ++ X))
                  from by simp]
                refine tryAuthorizationAt_none_of_word ?_
                  (Or.inr ⟨'*', _, rfl, Or.inr rfl⟩)
                intro c2 hc2
                simp only [List.mem_cons, List.not_mem_nil, or_false] at hc2
                rcases hc2 with rfl
                exact hc
              · rcases List.suffix_cons_iff.mp h7 with rfl | h8
                · rw [List.cons_append]
                  exact tryAuthorizationAt_none_of_head _ (by decide)
                · rcases List.suffix_cons_iff.mp h8 with rfl | h9
                  · rw [List.cons_append]
                    exact tryAuthorizationAt_none_of_head _ (by decide)
                  · rcases List.suffix_cons_iff.mp h9 with rfl | h10
                    · rw [List.cons_append]
                      exact tryAuthorizationAt_none_of_head _ (by decide)
                    · rcases List.suffix_cons_iff.mp h10 with rfl | h11
                      · rw [List.cons_append]
                        exact tryAuthorizationAt_none_of_head _ (by decide)
                      · rcases List.suffix_cons_iff.mp h11 with rfl | h12
                        · rw [List.cons_append]
                          exact tryAuthorizationAt_none_of_head _ (by decide)
                        · obtain ⟨k, hkle, rfl⟩ := isSuffix_drop_form h12
                          rw [hg2len] at hkle
                          have hkne : k ≠ 3 := by
                            intro he
                            rw [he, List.drop_eq_nil_of_le (by omega)] at htne
                            exact absurd rfl htne
                          have hdl : (g2.drop k).length = 3 - k := by
                            rw [List.length_drop, hg2len]
                          rcases hX with rfl | ⟨r0, rt, rfl, hr0⟩
                          · rw [List.append_nil]
                            unfold tryAuthorizationAt
                            rw [matchLitCI_none_of_exhaust (by
                              rw [hdl, show ("Authorization:".toList).length = 14
                                from rfl]
                              omega)]
                          · have hget : (g2.drop k ++ r0 :: rt).get? (3 - k)
                                = some r0 := by
                              rw [List.get?_append_right (by omega), hdl]
                              simp
                            have hsp : isSpaceChar r0 = true := crlf_space hr0
                            unfold tryAuthorizationAt
                            interval_cases k
                            · rw [matchLitCI_none_of_mismatch 3 hget (by rfl)
                                (spaceStar_not_lowerEq (Or.inl hsp) (by tauto))]
                            · rw [matchLitCI_none_of_mismatch 2 hget (by rfl)
                                (spaceStar_not_lowerEq (Or.inl hsp) (by tauto))]
                            · rw [matchLitCI_none_of_mismatch 1 hget (by rfl)
                                (spaceStar_not_lowerEq (Or.inl hsp) (by tauto))]
                            · exact absurd rfl hkne
      · rw [List.append_assoc]
        refine tryAuthorizationAt_none_of_word
          (fun c2 hc2 => hwd c2 (tas.subset hc2))
          (Or.inr ⟨s1, (a :: b :: c :: '*' :: '*' :: '*' :: '*' :: '*' :: g2)
            ++ X, by simp, Or.inl hs1⟩)
    · rw [List.append_assoc]
      exact tryAuthorizationAt_none_of_space_suffix hws tas tane _
  · obtain ⟨k, hk, hdeq⟩ := isSuffix_drop_form tas
    rw [hlen] at hk
    have hk0 : k ≠ 0 := by
      intro he
      rw [he, List.drop_zero] at hdeq
      subst hdeq
      rw [hrlen] at htpr
      simp [List.length_append, hg2len] at htpr
      omega
    have hkne : k ≠ 14 := by
      intro he
      rw [he] at hdeq
      rw [List.drop_eq_nil_of_le (by omega)] at hdeq
      exact absurd hdeq tane
    have hklt : k < lit.length := by omega
    subst hdeq
    by_cases hk8 : k = 8
    · subst hk8
      have h9lt : 9 < lit.length := by omega
      have hci9 : lowerEq (lit.get ⟨9, h9lt⟩) 't' = true :=
        forall₂_get?_ci hfa (List.get?_eq_get h9lt)
          (show _ = some 't' from rfl)
      have hkill : lowerEq (lit.get ⟨9, h9lt⟩) 'u' = false :=
        lowerEq_shift hci9 (by decide)
      have hget2 : (List.drop 8 lit ++ (ws ++ (wd ++ (s1 :: a :: b :: c ::
          '*' :: '*' :: '*' :: '*' :: '*' :: g2))) ++ X).get? 1
          = some (lit.get ⟨9, h9lt⟩) := by
        rw [List.get?_append (by simp; omega),
          List.get?_append (by simp; omega)]
        rw [List.get?_drop]
        exact List.get?_eq_get h9lt
      unfold tryAuthorizationAt
      rw [matchLitCI_none_of_mismatch 1 hget2 (by rfl) hkill]
    · have hcg : lit.get? k = some (lit.get ⟨k, hklt⟩) := List.get?_eq_get hklt
      rw [List.drop_eq_get_cons hklt, List.cons_append, List.cons_append]
      refine tryAuthorizationAt_none_of_head _ ?_
      interval_cases k
      · exact absurd rfl hk0
      · exact lowerEq_shift (forall₂_get?_ci hfa hcg
          (show _ = some 'u' from rfl)) (by decide)
      · exact lowerEq_shift (forall₂_get?_ci hfa hcg
          (show _ = some 't' from rfl)) (by decide)
      · exact lowerEq_shift (forall₂_get?_ci hfa hcg
          (show _ = some 'h' from rfl)) (by decide)
      · exact lowerEq_shift (forall₂_get?_ci hfa hcg
          (show _ = some 'o' from rfl)) (by decide)
      · exact lowerEq_shift (forall₂_get?_ci hfa hcg
          (show _ = some 'r' from rfl)) (by decide)
      · exact lowerEq_shift (forall₂_get?_ci hfa hcg
          (show _ = some 'i' from rfl)) (by decide)
      · exact lowerEq_shift (forall₂_get?_ci hfa hcg
          (show _ = some 'z' from rfl)) (by decide)
      · exact absurd rfl hk8
      · exact lowerEq_shift (forall₂_get?_ci hfa hcg
          (show _ = some 't' from rfl)) (by decide)
      · exact lowerEq_shift (forall₂_get?_ci hfa hcg
          (show _ = some 'i' from rfl)) (by decide)
      · exact lowerEq_shift (forall₂_get?_ci hfa hcg
          (show _ = some 'o' from rfl)) (by decide)
      · exact lowerEq_shift (forall₂_get?_ci hfa hcg
          (show _ = some 'n' from rfl)) (by decide)
      · exact lowerEq_shift (forall₂_get?_ci hfa hcg
          (show _ = some ':' from rfl)) (by decide)
      · exact absurd rfl hkne

/-! ### Confinement of failed matches: toolkit -/

/-- Inversion of a failed literal match: either some position disagrees
with every earlier position agreeing, or the input is too short with all
its positions agreeing. -/
theorem matchLitCI_none_cases {p l : List Char} (h : matchLitCI p l = none) :
    (∃ j cj pj, l.get? j = some cj ∧ p.get? j = some pj ∧
      lowerEq cj pj = false ∧
      ∀ i, i < j → ∃ ci pi, l.get? i = some ci ∧ p.get? i = some pi ∧
        lowerEq ci pi = true) ∨
    (l.length < p.length ∧
      ∀ i, i < l.length → ∃ ci pi, l.get? i = some ci ∧ p.get? i = some pi ∧
        lowerEq ci pi = true) := by
  induction p generalizing l with
  | nil => simp [matchLitCI] at h
  | cons q qs ih =>
    cases l with
    | nil =>
      right
      constructor
      · simp
      · intro i hi
        simp at hi
    | cons c cs =>
      simp only [matchLitCI] at h
      by_cases hq : lowerEq c q = true
      · rw [if_pos hq] at h
        cases hm : matchLitCI qs cs with
        | some pr => rw [hm] at h; simp at h
        | none =>
          rcases ih hm with ⟨j, cj, pj, hc, hp, hex, hpre⟩ | ⟨hlen, hall⟩
          · left
            refine ⟨j + 1, cj, pj, by simpa using hc, by simpa using hp, hex,
              ?_⟩
            intro i hi
            cases i with
            | zero => exact ⟨c, q, rfl, rfl, hq⟩
            | succ i2 =>
              obtain ⟨ci, pi, h1, h2, h3⟩ := hpre i2 (by omega)
              exact ⟨ci, pi, by simpa using h1, by simpa using h2, h3⟩
          · right
            constructor
            · simpa using hlen
            · intro i hi
              cases i with
              | zero => exact ⟨c, q, rfl, rfl, hq⟩
              | succ i2 =>
                obtain ⟨ci, pi, h1, h2, h3⟩ := hall i2 (by simpa using hi)
                exact ⟨ci, pi, by simpa using h1, by simpa using h2, h3⟩
      · left
        exact ⟨0, c, q, rfl, rfl, by simpa using hq, fun i hi => by omega⟩

theorem replaceAll_take_split {f : List Char → Option (List Char × List Char)}
    {l : List Char} {k : Nat} (hk : k ≤ l.length)
    (hm : ∀ i, i < k → f (l.drop i) = none) :
    replaceAll f l = l.take k ++ replaceAll f (l.drop k) := by
  have h2 : replaceAll f (l.take k ++ l.drop k)
      = l.take k ++ replaceAll f (l.drop k) := by
    apply replaceAll_append_of_none
    intro i hi
    have hik : i < k := by
      rw [List.length_take] at hi
      omega
    have he : (l.take k).drop i ++ l.drop k = l.drop i := by
      conv_rhs => rw [← List.take_append_drop k l]
      rw [List.drop_append_of_le_length (by rw [List.length_take]; omega)]
    rw [he]
    exact hm i hik
  rwa [List.take_append_drop] at h2

/-- Any nonempty proper suffix of the password literal fails the
password matcher, whatever follows. -/
theorem pwd_lit_tail_kill {lit : List Char}
    (hfa : List.Forall₂ (fun c q => lowerEq c q = true) lit
      ("password\"".toList))
    {ta : List Char} (hta : ta <:+ lit) (htane : ta ≠ [])
    (htapr : ta.length < 9) (Z : List Char) :
    tryPasswordAt (ta ++ Z) = none := by
  have hlen : lit.length = 9 := by simpa using hfa.length_eq
  obtain ⟨k, hk, rfl⟩ := isSuffix_drop_form hta
  rw [hlen] at hk
  rw [List.length_drop, hlen] at htapr
  have hk9 : k < 9 := by
    by_contra hc
    rw [Nat.not_lt] at hc
    rw [List.drop_eq_nil_of_le (by omega)] at htane
    exact absurd rfl htane
  have hklt : k < lit.length := by omega
  have hcg : lit.get? k = some (lit.get ⟨k, hklt⟩) := List.get?_eq_get hklt
  rw [List.drop_eq_get_cons hklt, List.cons_append]
  refine tryPasswordAt_none_of_head _ ?_
  have hk0 : k ≠ 0 := by omega
  interval_cases k
  · exact absurd rfl hk0
  · exact lowerEq_shift (forall₂_get?_ci hfa hcg
      (show _ = some 'a' from rfl)) (by decide)
  · exact lowerEq_shift (forall₂_get?_ci hfa hcg
      (show _ = some 's' from rfl)) (by decide)
  · exact lowerEq_shift (forall₂_get?_ci hfa hcg
      (show _ = some 's' from rfl)) (by decide)
  · exact lowerEq_shift (forall₂_get?_ci hfa hcg
      (show _ = some 'w' from rfl)) (by decide)
  · exact lowerEq_shift (forall₂_get?_ci hfa hcg
      (show _ = some 'o' from rfl)) (by decide)
  · exact lowerEq_shift (forall₂_get?_ci hfa hcg
      (show _ = some 'r' from rfl)) (by decide)
  · exact lowerEq_shift (forall₂_get?_ci hfa hcg
      (show _ = some 'd' from rfl)) (by decide)
  · exact lowerEq_shift (forall₂_get?_ci hfa hcg
      (show _ = some '"' from rfl)) (by decide)

/-- Any nonempty proper suffix of the authorization literal fails the
authorization matcher, whatever follows. -/
theorem auth_lit_tail_kill {lit : List Char}
    (hfa : List.Forall₂ (fun c q => lowerEq c q = true) lit
      ("Authorization:".toList))
    {ta : List Char} (hta : ta <:+ lit) (htane : ta ≠ [])
    (htapr : ta.length < 14) (Z : List Char) :
    tryAuthorizationAt (ta ++ Z) = none := by
  have hlen : lit.length = 14 := by simpa using hfa.length_eq
  obtain ⟨k, hk, rfl⟩ := isSuffix_drop_form hta
  rw [hlen] at hk
  rw [List.length_drop, hlen] at htapr
  have hk9 : k < 14 := by
    by_contra hc
    rw [Nat.not_lt] at hc
    rw [List.drop_eq_nil_of_le (by omega)] at htane
    exact absurd rfl htane
  have hklt : k < lit.length := by omega
  have hk0 : k ≠ 0 := by omega
  by_cases hk8 : k = 8
  · subst hk8
    have h9lt : 9 < lit.length := by omega
    have hci9 : lowerEq (lit.get ⟨9, h9lt⟩) 't' = true :=
      forall₂_get?_ci hfa (List.get?_eq_get h9lt)
        (show _ = some 't' from rfl)
    have hkill : lowerEq (lit.get ⟨9, h9lt⟩) 'u' = false :=
      lowerEq_shift hci9 (by decide)
    have hget2 : (List.drop 8 lit ++ Z).get? 1 = some (lit.get ⟨9, h9lt⟩) := by
      rw [List.get?_append (by simp; omega), List.get?_drop]
      exact List.get?_eq_get h9lt
    unfold tryAuthorizationAt
    rw [matchLitCI_none_of_mismatch 1 hget2 (by rfl) hkill]
  · have hcg : lit.get? k = some (lit.get ⟨k, hklt⟩) := List.get?_eq_get hklt
    rw [List.drop_eq_get_cons hklt, List.cons_append]
    refine tryAuthorizationAt_none_of_head _ ?_
    interval_cases k
    · exact absurd rfl hk0
    · exact lowerEq_shift (forall₂_get?_ci hfa hcg
        (show _ = some 'u' from rfl)) (by decide)
    · exact lowerEq_shift (forall₂_get?_ci hfa hcg
        (show _ = some 't' from rfl)) (by decide)
    · exact lowerEq_shift (forall₂_get?_ci hfa hcg
        (show _ = some 'h' from rfl)) (by decide)
    · exact lowerEq_shift (forall₂_get?_ci hfa hcg
        (show _ = some 'o' from rfl)) (by decide)
    · exact lowerEq_shift (forall₂_get?_ci hfa hcg
        (show _ = some 'r' from rfl)) (by decide)
    · exact lowerEq_shift (forall₂_get?_ci hfa hcg
        (show _ = some 'i' from rfl)) (by decide)
    · exact lowerEq_shift (forall₂_get?_ci hfa hcg
        (show _ = some 'z' from rfl)) (by decide)
    · exact absurd rfl hk8
    · exact lowerEq_shift (forall₂_get?_ci hfa hcg
        (show _ = some 't' from rfl)) (by decide)
    · exact lowerEq_shift (forall₂_get?_ci hfa hcg
        (show _ = some 'i' from rfl)) (by decide)
    · exact lowerEq_shift (forall₂_get?_ci hfa hcg
        (show _ = some 'o' from rfl)) (by decide)
    · exact lowerEq_shift (forall₂_get?_ci hfa hcg
        (show _ = some 'n' from rfl)) (by decide)
    · exact lowerEq_shift (forall₂_get?_ci hfa hcg
        (show _ = some ':' from rfl)) (by decide)

theorem suffix_getLast? {t L : List Char} (h : t <:+ L) (hne : t ≠ []) :
    t.getLast? = L.getLast? := by
  obtain ⟨k, hk, rfl⟩ := isSuffix_drop_form h
  have hpos : 0 < (L.drop k).length := List.length_pos.mpr hne
  rw [List.length_drop] at hpos
  rw [List.getLast?_eq_get?, List.getLast?_eq_get?, List.get?_drop,
    List.length_drop]
  congr 1
  omega

/-- Attempts that begin inside the `".{2}[^"]*` zone of a failed
password parse all die before, at, or after the run-closing quote. -/
theorem pwd_run_kill {x0 y0 : Char} {run : List Char}
    (hrq : ∀ ch ∈ run, ch ≠ '"')
    (hlast : ∀ lc, run.getLast? = some lc → lc = '\n')
    {t : List Char} (ht : t <:+ [x0, y0] ++ run) (htne : t ≠ [])
    (Z : List Char) :
    tryPasswordAt (t ++ '"' :: Z) = none := by
  have htlen : t.length ≤ run.length + 2 := by
    have := ht.length_le
    simpa using this
  have htpos : 0 < t.length := List.length_pos.mpr htne
  rcases lt_trichotomy t.length 8 with hd | hd | hd
  · -- the quote sits at literal index |t| ∈ [1,7]: never a letter slot
    have hget : (t ++ '"' :: Z).get? t.length = some '"' := by
      rw [List.get?_append_right le_rfl]
      simp
    unfold tryPasswordAt
    set d := t.length with hdd
    interval_cases d
    · rw [matchLitCI_none_of_mismatch 1 hget (by rfl) (by decide)]
    · rw [matchLitCI_none_of_mismatch 2 hget (by rfl) (by decide)]
    · rw [matchLitCI_none_of_mismatch 3 hget (by rfl) (by decide)]
    · rw [matchLitCI_none_of_mismatch 4 hget (by rfl) (by decide)]
    · rw [matchLitCI_none_of_mismatch 5 hget (by rfl) (by decide)]
    · rw [matchLitCI_none_of_mismatch 6 hget (by rfl) (by decide)]
    · rw [matchLitCI_none_of_mismatch 7 hget (by rfl) (by decide)]
  · -- the quote is the literal's own quote: index 7 is the run's last
    -- character, a newline, which cannot be the letter d
    have hrun_ne : run ≠ [] := by
      intro he
      rw [he] at htlen
      simp at htlen
      omega
    have hlast2 : t.getLast? = some '\n' := by
      rw [suffix_getLast? ht htne]
      rw [List.getLast?_append]
      cases hrl : run.getLast? with
      | none => exact absurd (List.getLast?_eq_none_iff.mp hrl) hrun_ne
      | some lc =>
        rw [hlast lc hrl]
        rfl
    have hget : (t ++ '"' :: Z).get? 7 = some '\n' := by
      rw [List.get?_append (by omega)]
      rw [List.getLast?_eq_get?, hd] at hlast2
      simpa using hlast2
    unfold tryPasswordAt
    rw [matchLitCI_none_of_mismatch 7 hget (by rfl) (by decide)]
  · -- the first eight characters never reach the quote: index 8 is a
    -- run character, not a quote
    apply tryPasswordAt_none_of_drop8
    intro u he
    obtain ⟨k, hk, rfl⟩ := isSuffix_drop_form ht
    have hlen2 : (List.drop k ([x0, y0] ++ run)).length
        = run.length + 2 - k := by
      rw [List.length_drop]
      simp [List.length_append]
    rw [List.drop_append_of_le_length (by omega)] at he
    rw [List.drop_drop] at he
    have hdeq : ([x0, y0] ++ run).drop (k + 8) = run.drop (k + 6) := by
      rw [show k + 8 = (k + 6) + 1 + 1 from by omega]
      rw [show ([x0, y0] ++ run) = x0 :: y0 :: run from rfl]
      rw [List.drop_succ_cons, List.drop_succ_cons]
    rw [hdeq] at he
    have hne2 : run.drop (k + 6) ≠ [] := by
      intro he2
      have h3 := congrArg List.length he2
      rw [List.length_drop, List.length_nil] at h3
      omega
    cases hrr : run.drop (k + 6) with
    | nil => exact absurd hrr hne2
    | cons d0 dt =>
      rw [hrr] at he
      have hmem : d0 ∈ run := by
        have h4 : d0 ∈ run.drop (k + 6) := by rw [hrr]; simp
        exact List.mem_of_mem_drop h4
      have h5 := hrq d0 hmem
      injection he with he1 he2
      exact h5 he1


/-- Every attempt inside `lt ++ ws1 ++ [':'] ++ ws2` (the literal tail
and the whitespace-colon-whitespace bridge) fails the password matcher,
whatever follows. -/
theorem pwd_bridge_kill {c : Char} {lt ws1 ws2 : List Char}
    (hfa : List.Forall₂ (fun c2 q => lowerEq c2 q = true) (c :: lt)
      ("password\"".toList))
    (hws1 : ∀ x ∈ ws1, isSpaceChar x = true)
    (hws2 : ∀ x ∈ ws2, isSpaceChar x = true)
    (i : Nat) (hi : i < (lt ++ ws1 ++ [':'] ++ ws2).length) (Z : List Char) :
    tryPasswordAt ((lt ++ ws1 ++ [':'] ++ ws2).drop i ++ Z) = none := by
  have hlt8 : lt.length = 8 := by
    have := hfa.length_eq
    simp at this
    omega
  rw [List.length_append, List.length_append, List.length_append, hlt8]
    at hi
  simp only [List.length_cons, List.length_nil] at hi
  rw [show lt ++ ws1 ++ [':'] ++ ws2 = lt ++ (ws1 ++ (':' :: ws2))
    from by simp]
  rcases lt_or_ge i 8 with h8 | h8
  · rw [List.drop_append_of_le_length (by omega)]
    rw [List.append_assoc]
    have he : lt.drop i = (c :: lt).drop (i + 1) := rfl
    rw [he]
    refine pwd_lit_tail_kill hfa (List.drop_suffix _ _) ?_ ?_ _
    · intro hnil
      have h2 := congrArg List.length hnil
      rw [List.length_drop, List.length_nil, List.length_cons, hlt8] at h2
      omega
    · rw [List.length_drop, List.length_cons, hlt8]
      omega
  · rw [show i = lt.length + (i - 8) from by rw [hlt8]; omega,
      List.drop_append]
    rcases lt_or_ge (i - 8) ws1.length with hw | hw
    · rw [List.drop_append_of_le_length (by omega)]
      have hne : ws1.drop (i - 8) ≠ [] := by
        intro he2
        have h3 := congrArg List.length he2
        rw [List.length_drop, List.length_nil] at h3
        omega
      rw [List.append_assoc]
      exact tryPasswordAt_none_of_space_suffix hws1
        (List.drop_suffix _ _) hne _
    · rw [show i - 8 = ws1.length + (i - 8 - ws1.length) from by omega,
        List.drop_append]
      rcases Nat.eq_zero_or_pos (i - 8 - ws1.length) with hz | hz
      · rw [hz, List.drop_zero, List.cons_append]
        exact tryPasswordAt_none_of_head _ (by decide)
      · rw [show i - 8 - ws1.length = (i - 8 - ws1.length - 1) + 1
          from by omega, List.drop_succ_cons]
        have hne : ws2.drop (i - 8 - ws1.length - 1) ≠ [] := by
          intro he2
          have h3 := congrArg List.length he2
          rw [List.length_drop, List.length_nil] at h3
          omega
        exact tryPasswordAt_none_of_space_suffix hws2
          (List.drop_suffix _ _) hne _

/-! ### Replacement transparency and the main idempotence argument -/

/-- The password scan passes an authorization replacement through
unchanged when the remainder is empty or CRLF-headed. -/
theorem pwdscan_authrep_transp {lit ws wd : List Char}
    {s1 a b c : Char} {g2 z : List Char}
    (hfa : List.Forall₂ (fun c2 q => lowerEq c2 q = true) lit
      ("Authorization:".toList))
    (hws : ∀ c2 ∈ ws, isSpaceChar c2 = true)
    (hwd : ∀ c2 ∈ wd, isWordChar c2 = true)
    (hs1 : isSpaceChar s1 = true)
    (ha : isWordChar a = true) (hb : isWordChar b = true)
    (hc : isWordChar c = true)
    (hg2len : g2.length = 3)
    (hz : z = [] ∨ ∃ r0 rt, z = r0 :: rt ∧ isCRLF r0 = true) :
    replaceAll tryPasswordAt
        ((lit ++ ws ++ wd ++ [s1, a, b, c] ++ "*****".toList ++ g2) ++ z)
      = (lit ++ ws ++ wd ++ [s1, a, b, c] ++ "*****".toList ++ g2)
        ++ replaceAll tryPasswordAt z := by
  apply replaceAll_append_of_none
  intro i hi
  refine tryPasswordAt_none_inside_authrep hfa hws hwd hs1 ha hb hc hg2len hz
    (List.drop_suffix i _) ?_
  intro he
  have h2 := congrArg List.length he
  rw [List.length_drop, List.length_nil] at h2
  omega

/-- The authorization scan passes a password replacement through
unchanged, whatever follows it. -/
theorem authscan_pwdrep_transp {lit sp1 sp2 : List Char}
    {x y w1 : Char} (z : List Char)
    (hfa : List.Forall₂ (fun c q => lowerEq c q = true) lit
      ("password\"".toList))
    (hsp1 : ∀ c ∈ sp1, isSpaceChar c = true)
    (hsp2 : ∀ c ∈ sp2, isSpaceChar c = true) :
    replaceAll tryAuthorizationAt
        ((lit ++ sp1 ++ [':'] ++ sp2 ++ ['"', x, y]
          ++ "***".toList ++ [w1, '"']) ++ z)
      = (lit ++ sp1 ++ [':'] ++ sp2 ++ ['"', x, y]
          ++ "***".toList ++ [w1, '"'])
        ++ replaceAll tryAuthorizationAt z := by
  apply replaceAll_append_of_none
  intro i hi
  refine tryAuthorizationAt_none_inside_pwdrep z hfa hsp1 hsp2
    (List.drop_suffix i _) ?_
  intro he
  have h2 := congrArg List.length he
  rw [List.length_drop, List.length_nil] at h2
  omega

theorem replaceAll_eq_of_some {f : List Char → Option (List Char × List Char)}
    (hf : Shrinks f) {l rep rest : List Char} (h : f l = some (rep, rest)) :
    replaceAll f l = rep ++ replaceAll f rest := by
  cases l with
  | nil =>
    have := hf [] rep rest h
    simp at this
  | cons c cs => exact replaceAll_cons_some hf h

/-- Crux: a failed password match at the head survives the password scan
of the tail. -/
theorem pwdConfine {c : Char} {cs : List Char}
    (h : tryPasswordAt (c :: cs) = none) :
    tryPasswordAt (c :: replaceAll tryPasswordAt cs) = none := by
  have h0 := h
  unfold tryPasswordAt at h
  split at h
  · -- literal never matched
    rename_i hlit
    rcases matchLitCI_none_cases hlit with
      ⟨j, cj, pj, hcj, hpj, hex, hpre⟩ | ⟨hshort, hall⟩
    · have hj9 : j < 9 := by
        have := (List.get?_eq_some.mp hpj).1
        simpa using this
      cases j with
      | zero =>
        have hc : cj = c := by
          rw [show (c :: cs).get? 0 = some c from rfl] at hcj
          injection hcj with hcj2
          exact hcj2.symm
        have hp : pj = 'p' := by
          rw [show ("password\"".toList).get? 0 = some 'p' from rfl] at hpj
          injection hpj with hpj2
          exact hpj2.symm
        subst hc
        subst hp
        exact tryPasswordAt_none_of_head _ hex
      | succ j2 =>
        have hjcs : j2 < cs.length := by
          have := (List.get?_eq_some.mp hcj).1
          simpa using this
        have hdead : ∀ i, i < j2 → tryPasswordAt (cs.drop i) = none := by
          intro i hi
          obtain ⟨ci2, pi2, h1, h2, h3⟩ := hpre (i + 1) (by omega)
          have hg : cs.get? i = some ci2 := by simpa using h1
          have hic : i < cs.length := (List.get?_eq_some.mp hg).1
          rw [List.drop_eq_get_cons hic]
          have hgi : cs.get ⟨i, hic⟩ = ci2 := by
            rw [List.get?_eq_get hic] at hg
            injection hg
          rw [hgi]
          refine tryPasswordAt_none_of_head _ ?_
          have hi7 : i < 7 := by omega
          interval_cases i
          · rw [show ("password\"".toList).get? 1 = some 'a' from rfl] at h2
            injection h2 with h2e
            subst h2e
            exact lowerEq_shift h3 (by decide)
          · rw [show ("password\"".toList).get? 2 = some 's' from rfl] at h2
            injection h2 with h2e
            subst h2e
            exact lowerEq_shift h3 (by decide)
          · rw [show ("password\"".toList).get? 3 = some 's' from rfl] at h2
            injection h2 with h2e
            subst h2e
            exact lowerEq_shift h3 (by decide)
          · rw [show ("password\"".toList).get? 4 = some 'w' from rfl] at h2
            injection h2 with h2e
            subst h2e
            exact lowerEq_shift h3 (by decide)
          · rw [show ("password\"".toList).get? 5 = some 'o' from rfl] at h2
            injection h2 with h2e
            subst h2e
            exact lowerEq_shift h3 (by decide)
          · rw [show ("password\"".toList).get? 6 = some 'r' from rfl] at h2
            injection h2 with h2e
            subst h2e
            exact lowerEq_shift h3 (by decide)
          · rw [show ("password\"".toList).get? 7 = some 'd' from rfl] at h2
            injection h2 with h2e
            subst h2e
            exact lowerEq_shift h3 (by decide)
        have hgj : cs.get? j2 = some cj := by simpa using hcj
        have hdropeq : cs.drop j2 = cj :: cs.drop (j2 + 1) := by
          rw [List.drop_eq_get_cons hjcs]
          congr 1
          rw [List.get?_eq_get hjcs] at hgj
          injection hgj
        obtain ⟨u, hu⟩ := replaceAll_head tryPasswordAt_shrinks
          tryPasswordAt_headKeeps cj (cs.drop (j2 + 1))
        rw [replaceAll_take_split (by omega) hdead, hdropeq, hu]
        have hgetgoal : (c :: (cs.take j2 ++ cj :: u)).get? (j2 + 1)
            = some cj := by
          rw [show (c :: (cs.take j2 ++ cj :: u)).get? (j2 + 1)
            = (cs.take j2 ++ cj :: u).get? j2 from rfl]
          rw [List.get?_append_right (by rw [List.length_take]; omega)]
          rw [List.length_take]
          rw [show j2 - min j2 cs.length = 0 from by omega]
          rfl
        unfold tryPasswordAt
        rw [matchLitCI_none_of_mismatch (j2 + 1) hgetgoal hpj hex]
    · -- input shorter than the literal with all positions agreeing
      have hlen : cs.length < 8 := by
        have h2 : (c :: cs).length < 9 := by simpa using hshort
        rw [List.length_cons] at h2
        omega
      have hdead : ∀ i, i < cs.length → tryPasswordAt (cs.drop i) = none := by
        intro i hi
        obtain ⟨ci2, pi2, h1, h2, h3⟩ := hall (i + 1) (by simpa using hi)
        have hg : cs.get? i = some ci2 := by simpa using h1
        have hic : i < cs.length := (List.get?_eq_some.mp hg).1
        rw [List.drop_eq_get_cons hic]
        have hgi : cs.get ⟨i, hic⟩ = ci2 := by
          rw [List.get?_eq_get hic] at hg
          injection hg
        rw [hgi]
        refine tryPasswordAt_none_of_head _ ?_
        have hi7 : i < 7 := by omega
        interval_cases i
        · rw [show ("password\"".toList).get? 1 = some 'a' from rfl] at h2
          injection h2 with h2e
          subst h2e
          exact lowerEq_shift h3 (by decide)
        · rw [show ("password\"".toList).get? 2 = some 's' from rfl] at h2
          injection h2 with h2e
          subst h2e
          exact lowerEq_shift h3 (by decide)
        · rw [show ("password\"".toList).get? 3 = some 's' from rfl] at h2
          injection h2 with h2e
          subst h2e
          exact lowerEq_shift h3 (by decide)
        · rw [show ("password\"".toList).get? 4 = some 'w' from rfl] at h2
          injection h2 with h2e
          subst h2e
          exact lowerEq_shift h3 (by decide)
        · rw [show ("password\"".toList).get? 5 = some 'o' from rfl] at h2
          injection h2 with h2e
          subst h2e
          exact lowerEq_shift h3 (by decide)
        · rw [show ("password\"".toList).get? 6 = some 'r' from rfl] at h2
          injection h2 with h2e
          subst h2e
          exact lowerEq_shift h3 (by decide)
        · rw [show ("password\"".toList).get? 7 = some 'd' from rfl] at h2
          injection h2 with h2e
          subst h2e
          exact lowerEq_shift h3 (by decide)
      rw [replaceAll_id_of_none hdead]
      exact h0
  · -- literal matched
    rename_i lit9 r1 hlit
    obtain ⟨hsl, hlen9, hfa⟩ := matchLitCI_some_decomp hlit
    obtain ⟨lt, hltn⟩ : ∃ lt, lit9 = c :: lt := by
      cases lit9 with
      | nil => simp at hlen9
      | cons c0 l0 =>
        rw [List.cons_append] at hsl
        injection hsl with e1 e2
        exact ⟨l0, by rw [← e1]⟩
    subst hltn
    have hlt8 : lt.length = 8 := by simpa using hlen9
    have hcs : cs = lt ++ r1 := by
      have h2 := congrArg List.tail hsl
      simpa using h2
    have hltkill : ∀ i Z, i < 8 → tryPasswordAt (lt.drop i ++ Z) = none := by
      intro i Z hi
      have he : lt.drop i = (c :: lt).drop (i + 1) := rfl
      rw [he]
      refine pwd_lit_tail_kill hfa (List.drop_suffix _ _) ?_ ?_ Z
      · intro hnil
        have h2 := congrArg List.length hnil
        rw [List.length_drop, List.length_nil, List.length_cons, hlt8] at h2
        omega
      · rw [List.length_drop, List.length_cons, hlt8]
        omega
    dsimp only [] at h
    split at h
    · -- bridge colon found: continue deeper
      rename_i r3 hdw
      have hr1 : r1 = r1.takeWhile isSpaceChar ++ ':' :: r3 := by
        conv_lhs => rw [← List.takeWhile_append_dropWhile
          (p := isSpaceChar) (l := r1), hdw]
      have hws1 : ∀ x ∈ r1.takeWhile isSpaceChar, isSpaceChar x = true :=
        fun x hx => mem_takeWhile_pred hx
      have hcs3 : cs = lt ++ r1.takeWhile isSpaceChar ++ [':'] ++ r3 := by
        rw [hcs]
        conv_lhs => rw [hr1]
        simp [List.append_assoc]
      split at h
      · rename_i x y r5 hdq
        have hr3q : r3 = r3.takeWhile isSpaceChar ++ '"' :: x :: y :: r5 := by
          conv_lhs => rw [← List.takeWhile_append_dropWhile
            (p := isSpaceChar) (l := r3), hdq]
        have hws2 : ∀ x2 ∈ r3.takeWhile isSpaceChar, isSpaceChar x2 = true :=
          fun x2 hx2 => mem_takeWhile_pred hx2
        have hcs5 : cs = lt ++ r1.takeWhile isSpaceChar ++ [':']
            ++ r3.takeWhile isSpaceChar ++ '"' :: x :: y :: r5 := by
          rw [hcs3]
          conv_lhs => rw [hr3q]
          simp [List.append_assoc]
        split at h
        · -- both wildcard characters are not newlines: the star stage
          rename_i hxy
          rw [Bool.and_eq_true, decide_eq_true_eq, decide_eq_true_eq] at hxy
          obtain ⟨hx, hy⟩ := hxy
          have hbridge : ∀ i Z, i < (lt ++ r1.takeWhile isSpaceChar ++ [':']
              ++ r3.takeWhile isSpaceChar).length →
              tryPasswordAt ((lt ++ r1.takeWhile isSpaceChar ++ [':']
                ++ r3.takeWhile isSpaceChar).drop i ++ Z) = none :=
            fun i Z hi => pwd_bridge_kill hfa hws1 hws2 i hi Z
          split at h
          · exact absurd h (by simp)
          · -- a single closing quote: the one-character back-off cases
            rename_i tail hno1 hds
            split at h
            · rename_i lc hlast
              split at h
              · exact absurd h (by simp)
              · rename_i hlcn
                rw [Decidable.not_not] at hlcn
                set run := r5.takeWhile (fun ch => ch ≠ '"') with hrun
                have hrq : ∀ ch ∈ run, ch ≠ '"' := by
                  intro ch hch
                  rw [hrun] at hch
                  have h2 := mem_takeWhile_pred hch
                  simpa using h2
                have hlast2 : ∀ lc2, run.getLast? = some lc2 → lc2 = '\n' := by
                  intro lc2 h2
                  rw [hlast] at h2
                  injection h2 with h3
                  rw [← h3]
                  exact hlcn
                have hr5 : r5 = run ++ '"' :: tail := by
                  rw [hrun]
                  conv_lhs => rw [← List.takeWhile_append_dropWhile
                    (p := fun ch => ch ≠ '"') (l := r5), hds]
                have htailq : ∀ t2, tail ≠ '"' :: t2 := fun t2 he => hno1 t2 he
                have hcs7 : cs = ((lt ++ r1.takeWhile isSpaceChar ++ [':']
                    ++ r3.takeWhile isSpaceChar)
                    ++ (['"', x, y] ++ run ++ ['"'])) ++ tail := by
                  rw [hcs5, hr5]
                  simp [List.append_assoc]
                have hdeadm : ∀ i, i < ((lt ++ r1.takeWhile isSpaceChar
                    ++ [':'] ++ r3.takeWhile isSpaceChar)
                    ++ (['"', x, y] ++ run ++ ['"'])).length →
                    tryPasswordAt (((lt ++ r1.takeWhile isSpaceChar ++ [':']
                      ++ r3.takeWhile isSpaceChar)
                      ++ (['"', x, y] ++ run ++ ['"'])).drop i
                      ++ tail) = none := by
                  intro i hi
                  have hrlen : (['"', x, y] ++ run ++ ['"']).length
                      = run.length + 4 := by
                    simp only [List.length_append, List.length_cons,
                      List.length_nil]
                    omega
                  rw [List.length_append, hrlen] at hi
                  rcases lt_or_ge i (lt ++ r1.takeWhile isSpaceChar ++ [':']
                      ++ r3.takeWhile isSpaceChar).length with hlt2 | hge2
                  · rw [List.drop_append_of_le_length (by omega),
                      List.append_assoc]
                    exact hbridge i _ hlt2
                  · rw [show i = (lt ++ r1.takeWhile isSpaceChar ++ [':']
                        ++ r3.takeWhile isSpaceChar).length + (i -
                        (lt ++ r1.takeWhile isSpaceChar ++ [':']
                        ++ r3.takeWhile isSpaceChar).length) from by omega,
                      List.drop_append]
                    set j := i - (lt ++ r1.takeWhile isSpaceChar ++ [':']
                      ++ r3.takeWhile isSpaceChar).length with hjd
                    have hjlt : j < run.length + 4 := by omega
                    by_cases hj0 : j = 0
                    · rw [hj0, List.drop_zero,
                        show ((['"', x, y] ++ run ++ ['"']) ++ tail
                          : List Char) = '"' :: ([x, y] ++ run ++ ['"']
                          ++ tail) from by simp]
                      exact tryPasswordAt_none_of_head _ (by decide)
                    by_cases hjlast : j = run.length + 3
                    · rw [hjlast,
                        show run.length + 3 = (['"', x, y] ++ run).length
                          from by
                          simp only [List.length_append, List.length_cons,
                            List.length_nil]
                          omega,
                        List.drop_left, List.singleton_append]
                      exact tryPasswordAt_none_of_head _ (by decide)
                    · obtain ⟨k, hk⟩ : ∃ k, j = k + 1 := ⟨j - 1, by omega⟩
                      have hk2 : k ≤ run.length + 1 := by omega
                      rw [hk,
                        show ((['"', x, y] ++ run ++ ['"']).drop (k + 1)
                            ++ tail : List Char)
                          = ([x, y] ++ run).drop k ++ '"' :: tail from by
                          rw [show (['"', x, y] ++ run ++ ['"'] : List Char)
                              = '"' :: (([x, y] ++ run) ++ ['"'])
                            from by simp,
                            List.drop_succ_cons,
                            List.drop_append_of_le_length (by
                              simp only [List.length_append,
                                List.length_cons, List.length_nil]
                              omega)]
                          simp]
                      refine pwd_run_kill hrq hlast2
                        (List.drop_suffix _ _) ?_ tail
                      intro hnil
                      have h2 := congrArg List.length hnil
                      simp only [List.length_drop, List.length_append,
                        List.length_cons, List.length_nil] at h2
                      omega
                rw [hcs7, replaceAll_append_of_none hdeadm]
                set T := replaceAll tryPasswordAt tail with hT
                have htq : T = [] ∨ ∃ t0 u, T = t0 :: u ∧ t0 ≠ '"' := by
                  cases tail with
                  | nil => exact Or.inl rfl
                  | cons t0 tt =>
                    obtain ⟨u, hu⟩ := replaceAll_head tryPasswordAt_shrinks
                      tryPasswordAt_headKeeps t0 tt
                    rw [hu] at hT
                    refine Or.inr ⟨t0, u, hT, ?_⟩
                    intro he
                    exact htailq tt (by rw [← he])
                have hshape : c :: (((lt ++ r1.takeWhile isSpaceChar ++ [':']
                    ++ r3.takeWhile isSpaceChar)
                    ++ (['"', x, y] ++ run ++ ['"'])) ++ T)
                    = (c :: lt) ++ (r1.takeWhile isSpaceChar
                      ++ ':' :: (r3.takeWhile isSpaceChar
                        ++ '"' :: x :: y :: (run ++ '"' :: T))) := by
                  simp
                rw [hshape]
                unfold tryPasswordAt
                rw [matchLitCI_of_forall₂ hfa]
                dsimp only []
                rw [show List.dropWhile isSpaceChar (r1.takeWhile isSpaceChar
                    ++ ':' :: (r3.takeWhile isSpaceChar
                      ++ '"' :: x :: y :: (run ++ '"' :: T)))
                    = ':' :: (r3.takeWhile isSpaceChar
                      ++ '"' :: x :: y :: (run ++ '"' :: T))
                  from by
                    rw [dropWhile_all_append _ _ _ hws1]
                    simp [List.dropWhile_cons,
                      show isSpaceChar ':' = false from by decide]]
                split
                · rename_i r3x heq
                  injection heq with he1 he2
                  subst he2
                  rw [show List.dropWhile isSpaceChar
                      (r3.takeWhile isSpaceChar
                        ++ '"' :: x :: y :: (run ++ '"' :: T))
                      = '"' :: x :: y :: (run ++ '"' :: T)
                    from by
                      rw [dropWhile_all_append _ _ _ hws2]
                      simp [List.dropWhile_cons,
                        show isSpaceChar '"' = false from by decide]]
                  split
                  · rename_i x2 y2 r5x heq2
                    injection heq2 with he3 he4
                    injection he4 with he5 he6
                    injection he6 with he7 he8
                    subst he5
                    subst he7
                    subst he8
                    rw [if_pos (by simp [hx, hy])]
                    rw [show List.dropWhile (fun ch => ch ≠ '"')
                        (run ++ '"' :: T) = '"' :: T from by
                        rw [dropWhile_all_append _ _ _ (fun ch hch => by
                          simpa using hrq ch hch)]
                        simp [List.dropWhile_cons]]
                    split
                    · rename_i tail2 heq3
                      injection heq3 with he9 he10
                      rcases htq with hT0 | ⟨t0, u, hT0, ht0⟩
                      · rw [hT0] at he10
                        exact absurd he10 (by simp)
                      · rw [hT0] at he10
                        injection he10 with he11 he12
                        exact absurd he11 ht0
                    · rename_i t0x tail2 hno3 heq3
                      rw [show List.takeWhile (fun ch => ch ≠ '"')
                          (run ++ '"' :: T) = run from by
                          rw [takeWhile_all_append _ _ _ (fun ch hch => by
                            simpa using hrq ch hch)]
                          simp [List.takeWhile_cons]]
                      rw [hlast]
                      dsimp only []
                      exact if_neg (fun hne => hne hlcn)
                    · rename_i hno3 hno4
                      exact (hno4 T rfl).elim
                  · rename_i hno3
                    exact absurd rfl (hno3 x y (run ++ '"' :: T))
                · rename_i hno3
                  exact absurd rfl (hno3 (r3.takeWhile isSpaceChar
                    ++ '"' :: x :: y :: (run ++ '"' :: T)))
            · rename_i hlnone
              have htw : List.takeWhile (fun ch => ch ≠ '"') r5 = [] :=
                List.getLast?_eq_none_iff.mp hlnone
              have hr5 : r5 = '"' :: tail := by
                conv_lhs => rw [← List.takeWhile_append_dropWhile
                  (p := fun ch => ch ≠ '"') (l := r5), htw, hds]
                rfl
              have htailq : ∀ t2, tail ≠ '"' :: t2 := fun t2 he => hno1 t2 he
              have hcs7 : cs = ((lt ++ r1.takeWhile isSpaceChar ++ [':']
                  ++ r3.takeWhile isSpaceChar) ++ ['"', x, y, '"'])
                  ++ tail := by
                rw [hcs5, hr5]
                simp [List.append_assoc]
              have hdeadm : ∀ i, i < ((lt ++ r1.takeWhile isSpaceChar ++ [':']
                  ++ r3.takeWhile isSpaceChar) ++ ['"', x, y, '"']).length →
                  tryPasswordAt (((lt ++ r1.takeWhile isSpaceChar ++ [':']
                    ++ r3.takeWhile isSpaceChar) ++ ['"', x, y, '"']).drop i
                    ++ tail) = none := by
                intro i hi
                rw [List.length_append, List.length_cons, List.length_cons,
                  List.length_cons, List.length_cons, List.length_nil] at hi
                rcases lt_or_ge i (lt ++ r1.takeWhile isSpaceChar ++ [':']
                    ++ r3.takeWhile isSpaceChar).length with hlt2 | hge2
                · rw [List.drop_append_of_le_length (by omega),
                    List.append_assoc]
                  exact hbridge i _ hlt2
                · rw [show i = (lt ++ r1.takeWhile isSpaceChar ++ [':']
                      ++ r3.takeWhile isSpaceChar).length + (i -
                      (lt ++ r1.takeWhile isSpaceChar ++ [':']
                      ++ r3.takeWhile isSpaceChar).length) from by omega,
                    List.drop_append]
                  have hj4 : i - (lt ++ r1.takeWhile isSpaceChar ++ [':']
                      ++ r3.takeWhile isSpaceChar).length < 4 := by omega
                  set j := i - (lt ++ r1.takeWhile isSpaceChar ++ [':']
                    ++ r3.takeWhile isSpaceChar).length with hjd
                  interval_cases j
                  · rw [List.drop_zero, List.cons_append]
                    exact tryPasswordAt_none_of_head _ (by decide)
                  · rw [show (1 : Nat) = 0 + 1 from rfl,
                      List.drop_succ_cons, List.drop_zero, List.cons_append]
                    unfold tryPasswordAt
                    rw [matchLitCI_none_of_mismatch 2 (by rfl) (by rfl)
                      (by decide)]
                  · rw [show (2 : Nat) = 0 + 1 + 1 from rfl,
                      List.drop_succ_cons, List.drop_succ_cons,
                      List.drop_zero, List.cons_append]
                    unfold tryPasswordAt
                    rw [matchLitCI_none_of_mismatch 1 (by rfl) (by rfl)
                      (by decide)]
                  · rw [show (3 : Nat) = 0 + 1 + 1 + 1 from rfl,
                      List.drop_succ_cons, List.drop_succ_cons,
                      List.drop_succ_cons, List.drop_zero, List.cons_append]
                    exact tryPasswordAt_none_of_head _ (by decide)
              rw [hcs7, replaceAll_append_of_none hdeadm]
              set T := replaceAll tryPasswordAt tail with hT
              have htq : T = [] ∨ ∃ t0 u, T = t0 :: u ∧ t0 ≠ '"' := by
                cases tail with
                | nil => exact Or.inl rfl
                | cons t0 tt =>
                  obtain ⟨u, hu⟩ := replaceAll_head tryPasswordAt_shrinks
                    tryPasswordAt_headKeeps t0 tt
                  rw [hu] at hT
                  refine Or.inr ⟨t0, u, hT, ?_⟩
                  intro he
                  exact htailq tt (by rw [← he])
              have hshape : c :: (((lt ++ r1.takeWhile isSpaceChar ++ [':']
                  ++ r3.takeWhile isSpaceChar) ++ ['"', x, y, '"']) ++ T)
                  = (c :: lt) ++ (r1.takeWhile isSpaceChar
                    ++ ':' :: (r3.takeWhile isSpaceChar
                      ++ '"' :: x :: y :: ('"' :: T))) := by
                simp
              rw [hshape]
              unfold tryPasswordAt
              rw [matchLitCI_of_forall₂ hfa]
              dsimp only []
              rw [show List.dropWhile isSpaceChar (r1.takeWhile isSpaceChar
                  ++ ':' :: (r3.takeWhile isSpaceChar
                    ++ '"' :: x :: y :: ('"' :: T)))
                  = ':' :: (r3.takeWhile isSpaceChar
                    ++ '"' :: x :: y :: ('"' :: T))
                from by
                  rw [dropWhile_all_append _ _ _ hws1]
                  simp [List.dropWhile_cons,
                    show isSpaceChar ':' = false from by decide]]
              split
              · rename_i r3x heq
                injection heq with he1 he2
                subst he2
                rw [show List.dropWhile isSpaceChar (r3.takeWhile isSpaceChar
                    ++ '"' :: x :: y :: ('"' :: T))
                    = '"' :: x :: y :: ('"' :: T)
                  from by
                    rw [dropWhile_all_append _ _ _ hws2]
                    simp [List.dropWhile_cons,
                      show isSpaceChar '"' = false from by decide]]
                split
                · rename_i x2 y2 r5x heq2
                  injection heq2 with he3 he4
                  injection he4 with he5 he6
                  injection he6 with he7 he8
                  subst he5
                  subst he7
                  subst he8
                  rw [if_pos (by simp [hx, hy])]
                  rw [show List.dropWhile (fun ch => ch ≠ '"') ('"' :: T)
                      = '"' :: T from by simp [List.dropWhile_cons]]
                  split
                  · rename_i tail2 heq3
                    injection heq3 with he9 he10
                    rcases htq with hT0 | ⟨t0, u, hT0, ht0⟩
                    · rw [hT0] at he10
                      exact absurd he10 (by simp)
                    · rw [hT0] at he10
                      injection he10 with he11 he12
                      exact absurd he11 ht0
                  · rename_i t0x tail2 hno3 heq3
                    injection heq3 with he9 he10
                  · rename_i hno3 hno4
                    exact (hno4 T rfl).elim
                · rename_i hno3
                  exact absurd rfl (hno3 x y ('"' :: T))
              · rename_i hno3
                exact absurd rfl (hno3 (r3.takeWhile isSpaceChar
                  ++ '"' :: x :: y :: ('"' :: T)))
          · -- no quote at all in the remainder
            rename_i hno1 hno2
            cases hds : List.dropWhile (fun ch => ch ≠ '"') r5 with
            | cons d dt =>
              have hdns := dropWhile_head_not hds
              have hdq3 : d = '"' := by
                simpa using hdns
              subst hdq3
              exact absurd hds (hno2 dt)
            | nil =>
              have hrq : ∀ ch ∈ r5, ch ≠ '"' := by
                have h2 := List.dropWhile_eq_nil_iff.mp hds
                intro ch hch
                have := h2 ch hch
                simpa using this
              have hdead : ∀ i, i < cs.length →
                  tryPasswordAt (cs.drop i) = none := by
                intro i hi
                rw [hcs5] at hi ⊢
                rw [show lt ++ r1.takeWhile isSpaceChar ++ [':']
                    ++ r3.takeWhile isSpaceChar ++ '"' :: x :: y :: r5
                    = (lt ++ r1.takeWhile isSpaceChar ++ [':']
                    ++ r3.takeWhile isSpaceChar)
                      ++ ('"' :: x :: y :: r5) from by simp] at hi ⊢
                rcases lt_or_ge i (lt ++ r1.takeWhile isSpaceChar ++ [':']
                    ++ r3.takeWhile isSpaceChar).length with hlt2 | hge2
                · rw [List.drop_append_of_le_length (by omega)]
                  exact hbridge i _ hlt2
                · rw [show i = (lt ++ r1.takeWhile isSpaceChar ++ [':']
                      ++ r3.takeWhile isSpaceChar).length + (i -
                      (lt ++ r1.takeWhile isSpaceChar ++ [':']
                      ++ r3.takeWhile isSpaceChar).length) from by omega,
                    List.drop_append]
                  apply tryPasswordAt_none_of_drop8
                  intro u he
                  rw [List.drop_drop] at he
                  rw [show (i - (lt ++ r1.takeWhile isSpaceChar ++ [':']
                      ++ r3.takeWhile isSpaceChar).length) + 8
                      = ((5 + (i - (lt ++ r1.takeWhile isSpaceChar ++ [':']
                      ++ r3.takeWhile isSpaceChar).length)) + 1 + 1) + 1
                    from by omega, List.drop_succ_cons, List.drop_succ_cons,
                    List.drop_succ_cons] at he
                  cases hrr : r5.drop (5 + (i - (lt
                      ++ r1.takeWhile isSpaceChar ++ [':']
                      ++ r3.takeWhile isSpaceChar).length)) with
                  | nil => rw [hrr] at he; exact absurd he (by simp)
                  | cons d0 dt =>
                    rw [hrr] at he
                    injection he with he1 he2
                    have hmem : d0 ∈ r5 := by
                      have h4 : d0 ∈ r5.drop (5 + (i - (lt
                          ++ r1.takeWhile isSpaceChar ++ [':']
                          ++ r3.takeWhile isSpaceChar).length)) := by
                        rw [hrr]
                        simp
                      exact List.mem_of_mem_drop h4
                    exact absurd he1 (hrq d0 hmem)
              rw [replaceAll_id_of_none hdead]
              exact h0
        · -- a newline sits in the wildcard slot
          rename_i hxy
          rw [Bool.and_eq_true, decide_eq_true_eq, decide_eq_true_eq] at hxy
          rw [Decidable.not_and_iff_or_not] at hxy
          have hbridge : ∀ i Z, i < (lt ++ r1.takeWhile isSpaceChar ++ [':']
              ++ r3.takeWhile isSpaceChar).length →
              tryPasswordAt ((lt ++ r1.takeWhile isSpaceChar ++ [':']
                ++ r3.takeWhile isSpaceChar).drop i ++ Z) = none :=
            fun i Z hi => pwd_bridge_kill hfa hws1 hws2 i hi Z
          rcases hxy with hx | hy
          · rw [Decidable.not_not] at hx
            subst hx
            have hcs6 : cs = ((lt ++ r1.takeWhile isSpaceChar ++ [':']
                ++ r3.takeWhile isSpaceChar) ++ ['"', '\n'])
                ++ y :: r5 := by
              rw [hcs5]
              simp [List.append_assoc]
            have hdeadm : ∀ i, i < ((lt ++ r1.takeWhile isSpaceChar ++ [':']
                ++ r3.takeWhile isSpaceChar) ++ ['"', '\n']).length →
                tryPasswordAt (((lt ++ r1.takeWhile isSpaceChar ++ [':']
                  ++ r3.takeWhile isSpaceChar) ++ ['"', '\n']).drop i
                  ++ y :: r5) = none := by
              intro i hi
              rw [List.length_append, List.length_cons, List.length_cons,
                List.length_nil] at hi
              rcases lt_or_ge i (lt ++ r1.takeWhile isSpaceChar ++ [':']
                  ++ r3.takeWhile isSpaceChar).length with hlt2 | hge2
              · rw [List.drop_append_of_le_length (by omega),
                  List.append_assoc]
                exact hbridge i _ hlt2
              · rw [show i = (lt ++ r1.takeWhile isSpaceChar ++ [':']
                    ++ r3.takeWhile isSpaceChar).length + (i -
                    (lt ++ r1.takeWhile isSpaceChar ++ [':']
                    ++ r3.takeWhile isSpaceChar).length) from by omega,
                  List.drop_append]
                rcases Nat.eq_zero_or_pos (i - (lt
                    ++ r1.takeWhile isSpaceChar ++ [':']
                    ++ r3.takeWhile isSpaceChar).length) with hz | hz
                · rw [hz, List.drop_zero, List.cons_append]
                  exact tryPasswordAt_none_of_head _ (by decide)
                · rw [show i - (lt ++ r1.takeWhile isSpaceChar ++ [':']
                      ++ r3.takeWhile isSpaceChar).length
                      = 0 + 1 from by omega, List.drop_succ_cons,
                    List.drop_zero, List.cons_append]
                  exact tryPasswordAt_none_of_head _ (by decide)
            obtain ⟨u, hu⟩ := replaceAll_head tryPasswordAt_shrinks
              tryPasswordAt_headKeeps y r5
            rw [hcs6, replaceAll_append_of_none hdeadm, hu]
            have hshape : c :: (((lt ++ r1.takeWhile isSpaceChar ++ [':']
                ++ r3.takeWhile isSpaceChar) ++ ['"', '\n']) ++ y :: u)
                = (c :: lt) ++ (r1.takeWhile isSpaceChar
                  ++ ':' :: (r3.takeWhile isSpaceChar
                    ++ '"' :: '\n' :: y :: u)) := by
              simp
            rw [hshape]
            unfold tryPasswordAt
            rw [matchLitCI_of_forall₂ hfa]
            dsimp only []
            rw [show List.dropWhile isSpaceChar (r1.takeWhile isSpaceChar
                ++ ':' :: (r3.takeWhile isSpaceChar ++ '"' :: '\n' :: y :: u))
                = ':' :: (r3.takeWhile isSpaceChar ++ '"' :: '\n' :: y :: u)
              from by
                rw [dropWhile_all_append _ _ _ hws1]
                simp [List.dropWhile_cons,
                  show isSpaceChar ':' = false from by decide]]
            split
            · rename_i r3x heq
              injection heq with he1 he2
              subst he2
              rw [show List.dropWhile isSpaceChar (r3.takeWhile isSpaceChar
                  ++ '"' :: '\n' :: y :: u) = '"' :: '\n' :: y :: u
                from by
                  rw [dropWhile_all_append _ _ _ hws2]
                  simp [List.dropWhile_cons,
                    show isSpaceChar '"' = false from by decide]]
              split
              · rename_i x2 y2 r5x heq2
                injection heq2 with he3 he4
                injection he4 with he5 he6
                injection he6 with he7 he8
                subst he5
                rw [if_neg (by simp)]
              · rfl
            · rename_i hno2
              exact absurd rfl (hno2 (r3.takeWhile isSpaceChar
                ++ '"' :: '\n' :: y :: u))
          · rw [Decidable.not_not] at hy
            subst hy
            have hcs6 : cs = ((lt ++ r1.takeWhile isSpaceChar ++ [':']
                ++ r3.takeWhile isSpaceChar) ++ ['"', x, '\n'])
                ++ r5 := by
              rw [hcs5]
              simp [List.append_assoc]
            have hdeadm : ∀ i, i < ((lt ++ r1.takeWhile isSpaceChar ++ [':']
                ++ r3.takeWhile isSpaceChar) ++ ['"', x, '\n']).length →
                tryPasswordAt (((lt ++ r1.takeWhile isSpaceChar ++ [':']
                  ++ r3.takeWhile isSpaceChar) ++ ['"', x, '\n']).drop i
                  ++ r5) = none := by
              intro i hi
              rw [List.length_append, List.length_cons, List.length_cons,
                List.length_cons, List.length_nil] at hi
              rcases lt_or_ge i (lt ++ r1.takeWhile isSpaceChar ++ [':']
                  ++ r3.takeWhile isSpaceChar).length with hlt2 | hge2
              · rw [List.drop_append_of_le_length (by omega),
                  List.append_assoc]
                exact hbridge i _ hlt2
              · rw [show i = (lt ++ r1.takeWhile isSpaceChar ++ [':']
                    ++ r3.takeWhile isSpaceChar).length + (i -
                    (lt ++ r1.takeWhile isSpaceChar ++ [':']
                    ++ r3.takeWhile isSpaceChar).length) from by omega,
                  List.drop_append]
                rcases Nat.eq_zero_or_pos (i - (lt
                    ++ r1.takeWhile isSpaceChar ++ [':']
                    ++ r3.takeWhile isSpaceChar).length) with hz | hz
                · rw [hz, List.drop_zero, List.cons_append]
                  exact tryPasswordAt_none_of_head _ (by decide)
                · rcases Nat.eq_or_lt_of_le hz with hz1 | hz1
                  · rw [← hz1, List.drop_succ_cons, List.drop_zero,
                      List.cons_append]
                    unfold tryPasswordAt
                    rw [matchLitCI_none_of_mismatch 1 (by rfl) (by rfl)
                      (by decide)]
                  · rw [show i - (lt ++ r1.takeWhile isSpaceChar ++ [':']
                        ++ r3.takeWhile isSpaceChar).length
                        = 1 + 1 from by omega, List.drop_succ_cons,
                      List.drop_succ_cons, List.drop_zero, List.cons_append]
                    exact tryPasswordAt_none_of_head _ (by decide)
            rw [hcs6, replaceAll_append_of_none hdeadm]
            set R5 := replaceAll tryPasswordAt r5 with hR5
            have hshape : c :: (((lt ++ r1.takeWhile isSpaceChar ++ [':']
                ++ r3.takeWhile isSpaceChar) ++ ['"', x, '\n']) ++ R5)
                = (c :: lt) ++ (r1.takeWhile isSpaceChar
                  ++ ':' :: (r3.takeWhile isSpaceChar
                    ++ '"' :: x :: '\n' :: R5)) := by
              simp
            rw [hshape]
            unfold tryPasswordAt
            rw [matchLitCI_of_forall₂ hfa]
            dsimp only []
            rw [show List.dropWhile isSpaceChar (r1.takeWhile isSpaceChar
                ++ ':' :: (r3.takeWhile isSpaceChar
                  ++ '"' :: x :: '\n' :: R5))
                = ':' :: (r3.takeWhile isSpaceChar
                  ++ '"' :: x :: '\n' :: R5)
              from by
                rw [dropWhile_all_append _ _ _ hws1]
                simp [List.dropWhile_cons,
                  show isSpaceChar ':' = false from by decide]]
            split
            · rename_i r3x heq
              injection heq with he1 he2
              subst he2
              rw [show List.dropWhile isSpaceChar (r3.takeWhile isSpaceChar
                  ++ '"' :: x :: '\n' :: R5)
                  = '"' :: x :: '\n' :: R5
                from by
                  rw [dropWhile_all_append _ _ _ hws2]
                  simp [List.dropWhile_cons,
                    show isSpaceChar '"' = false from by decide]]
              split
              · rename_i x2 y2 r5x heq2
                injection heq2 with he3 he4
                injection he4 with he5 he6
                injection he6 with he7 he8
                subst he7
                rw [if_neg (by simp)]
              · rfl
            · rename_i hno2
              exact absurd rfl (hno2 (r3.takeWhile isSpaceChar
                ++ '"' :: x :: '\n' :: R5))
      · rename_i hnoq
        cases hdq2 : List.dropWhile isSpaceChar r3 with
        | nil =>
          have hallsp : ∀ x ∈ r3, isSpaceChar x = true := by
            rw [← List.dropWhile_eq_nil_iff]
            exact hdq2
          have hdead : ∀ i, i < cs.length →
              tryPasswordAt (cs.drop i) = none := by
            intro i hi
            rw [hcs3] at hi ⊢
            have h4 := pwd_bridge_kill hfa hws1 hallsp i hi []
            simpa using h4
          rw [replaceAll_id_of_none hdead]
          exact h0
        | cons e2 es2 =>
          have hens : isSpaceChar e2 = false := dropWhile_head_not hdq2
          have hr3 : r3 = r3.takeWhile isSpaceChar ++ e2 :: es2 := by
            conv_lhs => rw [← List.takeWhile_append_dropWhile
              (p := isSpaceChar) (l := r3), hdq2]
          have hws2 : ∀ x ∈ r3.takeWhile isSpaceChar, isSpaceChar x = true :=
            fun x hx => mem_takeWhile_pred hx
          have hcs4 : cs = (lt ++ r1.takeWhile isSpaceChar ++ [':']
              ++ r3.takeWhile isSpaceChar) ++ e2 :: es2 := by
            rw [hcs3]
            conv_lhs => rw [hr3]
            simp [List.append_assoc]
          by_cases hq : e2 = '"'
          · subst hq
            cases es2 with
            | nil =>
              have hdead : ∀ i, i < cs.length →
                  tryPasswordAt (cs.drop i) = none := by
                intro i hi
                rw [hcs4] at hi ⊢
                rw [List.length_append, List.length_cons, List.length_nil]
                  at hi
                rcases lt_or_ge i (lt ++ r1.takeWhile isSpaceChar ++ [':']
                    ++ r3.takeWhile isSpaceChar).length with hlt2 | hge2
                · rw [List.drop_append_of_le_length (by omega)]
                  exact pwd_bridge_kill hfa hws1 hws2 i hlt2 _
                · rw [show i = (lt ++ r1.takeWhile isSpaceChar ++ [':']
                      ++ r3.takeWhile isSpaceChar).length + (i -
                      (lt ++ r1.takeWhile isSpaceChar ++ [':']
                      ++ r3.takeWhile isSpaceChar).length) from by omega,
                    List.drop_append]
                  rw [show i - (lt ++ r1.takeWhile isSpaceChar ++ [':']
                      ++ r3.takeWhile isSpaceChar).length = 0 from by omega,
                    List.drop_zero]
                  exact tryPasswordAt_none_of_head [] (by decide)
              rw [replaceAll_id_of_none hdead]
              exact h0
            | cons x1 es3 =>
              cases es3 with
              | nil =>
                have hdead : ∀ i, i < cs.length →
                    tryPasswordAt (cs.drop i) = none := by
                  intro i hi
                  rw [hcs4] at hi ⊢
                  rw [List.length_append, List.length_cons, List.length_cons,
                    List.length_nil] at hi
                  rcases lt_or_ge i (lt ++ r1.takeWhile isSpaceChar ++ [':']
                      ++ r3.takeWhile isSpaceChar).length with hlt2 | hge2
                  · rw [List.drop_append_of_le_length (by omega)]
                    exact pwd_bridge_kill hfa hws1 hws2 i hlt2 _
                  · rw [show i = (lt ++ r1.takeWhile isSpaceChar ++ [':']
                        ++ r3.takeWhile isSpaceChar).length + (i -
                        (lt ++ r1.takeWhile isSpaceChar ++ [':']
                        ++ r3.takeWhile isSpaceChar).length) from by omega,
                      List.drop_append]
                    rcases Nat.eq_zero_or_pos (i - (lt
                        ++ r1.takeWhile isSpaceChar ++ [':']
                        ++ r3.takeWhile isSpaceChar).length) with hz | hz
                    · rw [hz, List.drop_zero]
                      exact tryPasswordAt_none_of_head [x1] (by decide)
                    · rw [show i - (lt ++ r1.takeWhile isSpaceChar ++ [':']
                          ++ r3.takeWhile isSpaceChar).length
                          = 0 + 1 from by omega, List.drop_succ_cons,
                        List.drop_zero]
                      unfold tryPasswordAt
                      rw [matchLitCI_none_of_exhaust (by simp)]
                rw [replaceAll_id_of_none hdead]
                exact h0
              | cons y1 es4 =>
                exact absurd hdq2 (hnoq x1 y1 es4)
          · have hdeadm : ∀ i, i < (lt ++ r1.takeWhile isSpaceChar ++ [':']
                ++ r3.takeWhile isSpaceChar).length →
                tryPasswordAt ((lt ++ r1.takeWhile isSpaceChar ++ [':']
                  ++ r3.takeWhile isSpaceChar).drop i ++ e2 :: es2)
                  = none := by
              intro i hi
              exact pwd_bridge_kill hfa hws1 hws2 i hi _
            obtain ⟨u, hu⟩ := replaceAll_head tryPasswordAt_shrinks
              tryPasswordAt_headKeeps e2 es2
            rw [hcs4, replaceAll_append_of_none hdeadm, hu]
            have hshape : c :: ((lt ++ r1.takeWhile isSpaceChar ++ [':']
                ++ r3.takeWhile isSpaceChar) ++ e2 :: u)
                = (c :: lt) ++ (r1.takeWhile isSpaceChar
                  ++ ':' :: (r3.takeWhile isSpaceChar ++ e2 :: u)) := by
              simp
            rw [hshape]
            unfold tryPasswordAt
            rw [matchLitCI_of_forall₂ hfa]
            dsimp only []
            have hdw2 : List.dropWhile isSpaceChar
                (r1.takeWhile isSpaceChar
                  ++ ':' :: (r3.takeWhile isSpaceChar ++ e2 :: u))
                = ':' :: (r3.takeWhile isSpaceChar ++ e2 :: u) := by
              rw [dropWhile_all_append _ _ _ hws1]
              simp [List.dropWhile_cons,
                show isSpaceChar ':' = false from by decide]
            rw [hdw2]
            split
            · rename_i r3x heq
              injection heq with he1 he2
              subst he2
              have hdw3 : List.dropWhile isSpaceChar
                  (r3.takeWhile isSpaceChar ++ e2 :: u) = e2 :: u := by
                rw [dropWhile_all_append _ _ _ hws2]
                simp [List.dropWhile_cons, hens]
              rw [hdw3]
              split
              · rename_i x2 y2 r5x heq2
                injection heq2 with he3 he4
                exact absurd he3 hq
              · rfl
            · rename_i hno2
              exact absurd rfl (hno2 (r3.takeWhile isSpaceChar ++ e2 :: u))
    · -- no colon after the whitespace run
      rename_i hno
      cases hdw : List.dropWhile isSpaceChar r1 with
      | nil =>
        have hallsp : ∀ x ∈ r1, isSpaceChar x = true := by
          rw [← List.dropWhile_eq_nil_iff]
          exact hdw
        have hdead : ∀ i, i < cs.length → tryPasswordAt (cs.drop i) = none := by
          intro i hi
          rw [hcs] at hi ⊢
          rcases lt_or_ge i 8 with h8 | h8
          · rw [List.drop_append_of_le_length (by omega)]
            exact hltkill i _ h8
          · rw [show i = lt.length + (i - 8) from by omega, List.drop_append]
            have hne : r1.drop (i - 8) ≠ [] := by
              intro he2
              have h3 := congrArg List.length he2
              rw [List.length_drop, List.length_nil] at h3
              rw [List.length_append, hlt8] at hi
              omega
            have h4 := tryPasswordAt_none_of_space_suffix hallsp
              (List.drop_suffix _ _) hne []
            simpa using h4
        rw [replaceAll_id_of_none hdead]
        exact h0
      | cons e es =>
        have hens : isSpaceChar e = false := dropWhile_head_not hdw
        have hnecolon : e ≠ ':' := by
          intro he
          subst he
          rw [hdw] at hno
          exact hno es rfl
        have hr1 : r1 = r1.takeWhile isSpaceChar ++ e :: es := by
          conv_lhs => rw [← List.takeWhile_append_dropWhile
            (p := isSpaceChar) (l := r1), hdw]
        have hsp : ∀ x ∈ r1.takeWhile isSpaceChar, isSpaceChar x = true :=
          fun x hx => mem_takeWhile_pred hx
        have hcs2 : cs = (lt ++ r1.takeWhile isSpaceChar) ++ e :: es := by
          rw [hcs]
          conv_lhs => rw [hr1]
          simp [List.append_assoc]
        have hdeadm : ∀ i, i < (lt ++ r1.takeWhile isSpaceChar).length →
            tryPasswordAt ((lt ++ r1.takeWhile isSpaceChar).drop i
              ++ e :: es) = none := by
          intro i hi
          rw [List.length_append, hlt8] at hi
          rcases lt_or_ge i 8 with h8 | h8
          · rw [List.drop_append_of_le_length (by omega), List.append_assoc]
            exact hltkill i _ h8
          · rw [show i = lt.length + (i - 8) from by omega, List.drop_append]
            have hne : (r1.takeWhile isSpaceChar).drop (i - 8) ≠ [] := by
              intro he2
              have h3 := congrArg List.length he2
              rw [List.length_drop, List.length_nil] at h3
              omega
            exact tryPasswordAt_none_of_space_suffix hsp
              (List.drop_suffix _ _) hne _
        obtain ⟨u, hu⟩ := replaceAll_head tryPasswordAt_shrinks
          tryPasswordAt_headKeeps e es
        rw [hcs2, replaceAll_append_of_none hdeadm, hu]
        have hshape : c :: ((lt ++ r1.takeWhile isSpaceChar) ++ e :: u)
            = (c :: lt) ++ (r1.takeWhile isSpaceChar ++ e :: u) := by
          simp
        rw [hshape]
        unfold tryPasswordAt
        rw [matchLitCI_of_forall₂ hfa]
        dsimp only []
        have hdw2 : List.dropWhile isSpaceChar
            (r1.takeWhile isSpaceChar ++ e :: u) = e :: u := by
          rw [dropWhile_all_append _ _ _ hsp]
          simp [List.dropWhile_cons, hens]
        rw [hdw2]
        split
        · rename_i r3 heq
          injection heq with he1 he2
          exact absurd he1 hnecolon
        · rfl


/-- Bounds on the character code imply membership in the word class. -/
theorem isWordChar_of_toNat {c : Char}
    (h : 97 ≤ c.toNat ∧ c.toNat ≤ 122 ∨ 65 ≤ c.toNat ∧ c.toNat ≤ 90) :
    isWordChar c = true := by
  have hlz : (('a' : Char) ≤ c ∧ c ≤ 'z') ∨ (('A' : Char) ≤ c ∧ c ≤ 'Z') := by
    rcases h with ⟨h1, h2⟩ | ⟨h1, h2⟩
    · refine Or.inl ⟨?_, ?_⟩
      · rw [Char.le_def, UInt32.le_def]
        show 97 ≤ c.val.toBitVec.toNat
        exact h1
      · rw [Char.le_def, UInt32.le_def]
        show c.val.toBitVec.toNat ≤ 122
        exact h2
    · refine Or.inr ⟨?_, ?_⟩
      · rw [Char.le_def, UInt32.le_def]
        show 65 ≤ c.val.toBitVec.toNat
        exact h1
      · rw [Char.le_def, UInt32.le_def]
        show c.val.toBitVec.toNat ≤ 90
        exact h2
  simp only [isWordChar, Bool.or_eq_true, Bool.and_eq_true, decide_eq_true_eq]
  tauto

/-- A character that case-insensitively equals a letter is a word
character. -/
theorem ci_word {c k : Char} (h : lowerEq c k = true)
    (hk : 97 ≤ k.toLower.toNat ∧ k.toLower.toNat ≤ 122) :
    isWordChar c = true := by
  rw [lowerEq_iff] at h
  rcases toLower_cases c k.toLower h with h2 | h2
  · exact isWordChar_of_toNat (Or.inl (by rw [h2]; exact hk))
  · exact isWordChar_of_toNat (Or.inr ⟨h2.1, h2.2.1⟩)

/-- The authorization pattern opens with a letter, so a non-word head
kills the attempt. -/
theorem tryAuthorizationAt_none_of_nonword_head {c : Char} (l : List Char)
    (h : isWordChar c = false) : tryAuthorizationAt (c :: l) = none := by
  refine tryAuthorizationAt_none_of_head l ?_
  cases hres : lowerEq c 'a' with
  | false => rfl
  | true => exact absurd (ci_word hres (by decide)) (by simp [h])

/-- The password pattern opens with a letter, so a non-word head kills
the attempt. -/
theorem tryPasswordAt_none_of_nonword_head {c : Char} (l : List Char)
    (h : isWordChar c = false) : tryPasswordAt (c :: l) = none := by
  refine tryPasswordAt_none_of_head l ?_
  cases hres : lowerEq c 'p' with
  | false => rfl
  | true => exact absurd (ci_word hres (by decide)) (by simp [h])

/-- A whitespace or asterisk character sitting at any literal slot of the
authorization pattern refutes the attempt. -/
theorem tryAuthorizationAt_none_of_space_at {t : List Char} (i : Nat)
    {e : Char} (hget : t.get? i = some e) (hi : i < 14)
    (he : isSpaceChar e = true ∨ e = '*') : tryAuthorizationAt t = none := by
  have hplt : i < ("Authorization:".toList).length := by simpa using hi
  unfold tryAuthorizationAt
  rw [matchLitCI_none_of_mismatch i hget (List.get?_eq_get hplt)
    (spaceStar_not_lowerEq he (auth_lit_char_cases i hi (List.get?_eq_get hplt)))]

/-- A whitespace or asterisk character sitting at any literal slot of the
password pattern refutes the attempt. -/
theorem tryPasswordAt_none_of_space_at {t : List Char} (i : Nat)
    {e : Char} (hget : t.get? i = some e) (hi : i < 9)
    (he : isSpaceChar e = true ∨ e = '*') : tryPasswordAt t = none := by
  have hplt : i < ("password\"".toList).length := by simpa using hi
  unfold tryPasswordAt
  rw [matchLitCI_none_of_mismatch i hget (List.get?_eq_get hplt)
    (spaceStar_not_lowerEq he (pwd_lit_char_cases i hi (List.get?_eq_get hplt)))]

/-- Inside the agreed region of a partial authorization-literal match,
every character away from the interior `a` slot fails to open a fresh
authorization match. -/
theorem auth_shift_head {i : Nat} {ci2 pi2 : Char} (hi : i < 13) (hne : i ≠ 7)
    (h2 : ("Authorization:".toList).get? (i + 1) = some pi2)
    (h3 : lowerEq ci2 pi2 = true) : lowerEq ci2 'a' = false := by
  interval_cases i
  · rw [show ("Authorization:".toList).get? 1 = some 'u' from rfl] at h2
    injection h2 with h2e
    subst h2e
    exact lowerEq_shift h3 (by decide)
  · rw [show ("Authorization:".toList).get? 2 = some 't' from rfl] at h2
    injection h2 with h2e
    subst h2e
    exact lowerEq_shift h3 (by decide)
  · rw [show ("Authorization:".toList).get? 3 = some 'h' from rfl] at h2
    injection h2 with h2e
    subst h2e
    exact lowerEq_shift h3 (by decide)
  · rw [show ("Authorization:".toList).get? 4 = some 'o' from rfl] at h2
    injection h2 with h2e
    subst h2e
    exact lowerEq_shift h3 (by decide)
  · rw [show ("Authorization:".toList).get? 5 = some 'r' from rfl] at h2
    injection h2 with h2e
    subst h2e
    exact lowerEq_shift h3 (by decide)
  · rw [show ("Authorization:".toList).get? 6 = some 'i' from rfl] at h2
    injection h2 with h2e
    subst h2e
    exact lowerEq_shift h3 (by decide)
  · rw [show ("Authorization:".toList).get? 7 = some 'z' from rfl] at h2
    injection h2 with h2e
    subst h2e
    exact lowerEq_shift h3 (by decide)
  · exact absurd rfl hne
  · rw [show ("Authorization:".toList).get? 9 = some 't' from rfl] at h2
    injection h2 with h2e
    subst h2e
    exact lowerEq_shift h3 (by decide)
  · rw [show ("Authorization:".toList).get? 10 = some 'i' from rfl] at h2
    injection h2 with h2e
    subst h2e
    exact lowerEq_shift h3 (by decide)
  · rw [show ("Authorization:".toList).get? 11 = some 'o' from rfl] at h2
    injection h2 with h2e
    subst h2e
    exact lowerEq_shift h3 (by decide)
  · rw [show ("Authorization:".toList).get? 12 = some 'n' from rfl] at h2
    injection h2 with h2e
    subst h2e
    exact lowerEq_shift h3 (by decide)
  · rw [show ("Authorization:".toList).get? 13 = some ':' from rfl] at h2
    injection h2 with h2e
    subst h2e
    exact lowerEq_shift h3 (by decide)

/-- Inside the agreed region of a partial authorization-literal match,
no character can open a password match. -/
theorem auth_shift_head_pwd {i : Nat} {ci2 pi2 : Char} (hi : i < 13)
    (h2 : ("Authorization:".toList).get? (i + 1) = some pi2)
    (h3 : lowerEq ci2 pi2 = true) : lowerEq ci2 'p' = false := by
  interval_cases i
  · rw [show ("Authorization:".toList).get? 1 = some 'u' from rfl] at h2
    injection h2 with h2e
    subst h2e
    exact lowerEq_shift h3 (by decide)
  · rw [show ("Authorization:".toList).get? 2 = some 't' from rfl] at h2
    injection h2 with h2e
    subst h2e
    exact lowerEq_shift h3 (by decide)
  · rw [show ("Authorization:".toList).get? 3 = some 'h' from rfl] at h2
    injection h2 with h2e
    subst h2e
    exact lowerEq_shift h3 (by decide)
  · rw [show ("Authorization:".toList).get? 4 = some 'o' from rfl] at h2
    injection h2 with h2e
    subst h2e
    exact lowerEq_shift h3 (by decide)
  · rw [show ("Authorization:".toList).get? 5 = some 'r' from rfl] at h2
    injection h2 with h2e
    subst h2e
    exact lowerEq_shift h3 (by decide)
  · rw [show ("Authorization:".toList).get? 6 = some 'i' from rfl] at h2
    injection h2 with h2e
    subst h2e
    exact lowerEq_shift h3 (by decide)
  · rw [show ("Authorization:".toList).get? 7 = some 'z' from rfl] at h2
    injection h2 with h2e
    subst h2e
    exact lowerEq_shift h3 (by decide)
  · rw [show ("Authorization:".toList).get? 8 = some 'a' from rfl] at h2
    injection h2 with h2e
    subst h2e
    exact lowerEq_shift h3 (by decide)
  · rw [show ("Authorization:".toList).get? 9 = some 't' from rfl] at h2
    injection h2 with h2e
    subst h2e
    exact lowerEq_shift h3 (by decide)
  · rw [show ("Authorization:".toList).get? 10 = some 'i' from rfl] at h2
    injection h2 with h2e
    subst h2e
    exact lowerEq_shift h3 (by decide)
  · rw [show ("Authorization:".toList).get? 11 = some 'o' from rfl] at h2
    injection h2 with h2e
    subst h2e
    exact lowerEq_shift h3 (by decide)
  · rw [show ("Authorization:".toList).get? 12 = some 'n' from rfl] at h2
    injection h2 with h2e
    subst h2e
    exact lowerEq_shift h3 (by decide)
  · rw [show ("Authorization:".toList).get? 13 = some ':' from rfl] at h2
    injection h2 with h2e
    subst h2e
    exact lowerEq_shift h3 (by decide)

/-- Password attempts beginning inside a case-insensitive match of the
authorization literal die on the head character. -/
theorem auth_tail_pwd_kill {lit : List Char}
    (hfa : List.Forall₂ (fun c q => lowerEq c q = true) lit
      ("Authorization:".toList))
    {ta : List Char} (hta : ta <:+ lit) (htane : ta ≠ [])
    (htapr : ta.length < 14) (Z : List Char) :
    tryPasswordAt (ta ++ Z) = none := by
  have hlen : lit.length = 14 := by simpa using hfa.length_eq
  obtain ⟨k, hk, rfl⟩ := isSuffix_drop_form hta
  rw [hlen] at hk
  rw [List.length_drop, hlen] at htapr
  have hk9 : k < 14 := by
    by_contra hc
    rw [Nat.not_lt] at hc
    rw [List.drop_eq_nil_of_le (by omega)] at htane
    exact absurd rfl htane
  have hklt : k < lit.length := by omega
  have hk0 : k ≠ 0 := by omega
  have hcg : lit.get? k = some (lit.get ⟨k, hklt⟩) := List.get?_eq_get hklt
  rw [List.drop_eq_get_cons hklt, List.cons_append]
  refine tryPasswordAt_none_of_head _ ?_
  interval_cases k
  · exact absurd rfl hk0
  · exact lowerEq_shift (forall₂_get?_ci hfa hcg
      (show _ = some 'u' from rfl)) (by decide)
  · exact lowerEq_shift (forall₂_get?_ci hfa hcg
      (show _ = some 't' from rfl)) (by decide)
  · exact lowerEq_shift (forall₂_get?_ci hfa hcg
      (show _ = some 'h' from rfl)) (by decide)
  · exact lowerEq_shift (forall₂_get?_ci hfa hcg
      (show _ = some 'o' from rfl)) (by decide)
  · exact lowerEq_shift (forall₂_get?_ci hfa hcg
      (show _ = some 'r' from rfl)) (by decide)
  · exact lowerEq_shift (forall₂_get?_ci hfa hcg
      (show _ = some 'i' from rfl)) (by decide)
  · exact lowerEq_shift (forall₂_get?_ci hfa hcg
      (show _ = some 'z' from rfl)) (by decide)
  · exact lowerEq_shift (forall₂_get?_ci hfa hcg
      (show _ = some 'a' from rfl)) (by decide)
  · exact lowerEq_shift (forall₂_get?_ci hfa hcg
      (show _ = some 't' from rfl)) (by decide)
  · exact lowerEq_shift (forall₂_get?_ci hfa hcg
      (show _ = some 'i' from rfl)) (by decide)
  · exact lowerEq_shift (forall₂_get?_ci hfa hcg
      (show _ = some 'o' from rfl)) (by decide)
  · exact lowerEq_shift (forall₂_get?_ci hfa hcg
      (show _ = some 'n' from rfl)) (by decide)
  · exact lowerEq_shift (forall₂_get?_ci hfa hcg
      (show _ = some ':' from rfl)) (by decide)

/-- Every one of the first thirteen authorization-pattern characters
lowercases to a letter. -/
theorem auth_pat_letter (j : Nat) (hj : j < 13) {q : Char}
    (hq : ("Authorization:".toList).get? j = some q) :
    97 ≤ q.toLower.toNat ∧ q.toLower.toNat ≤ 122 := by
  interval_cases j <;> (injection hq with he; subst he; decide)

/-- Every one of the first eight password-pattern characters lowercases
to a letter. -/
theorem pwd_pat_letter (j : Nat) (hj : j < 8) {q : Char}
    (hq : ("password\"".toList).get? j = some q) :
    97 ≤ q.toLower.toNat ∧ q.toLower.toNat ≤ 122 := by
  interval_cases j <;> (injection hq with he; subst he; decide)

/-- A non-word character never case-insensitively equals a letter. -/
theorem nonword_not_lowerEq {w q : Char} (hw : isWordChar w = false)
    (hq : 97 ≤ q.toLower.toNat ∧ q.toLower.toNat ≤ 122) :
    lowerEq w q = false := by
  cases hres : lowerEq w q with
  | false => rfl
  | true => exact absurd (ci_word hres hq) (by simp [hw])

/-- The authorization replacement opens with a word run closed by the
(non-space, non-word) colon of its matched literal. -/
theorem tryAuthorizationAt_rep_frontier {l rep rest : List Char}
    (h : tryAuthorizationAt l = some (rep, rest)) :
    ∃ wpre d rrest, rep = wpre ++ d :: rrest ∧
      (∀ ch ∈ wpre, isWordChar ch = true) ∧
      isWordChar d = false ∧ isSpaceChar d = false := by
  obtain ⟨lit, ws, wd, s1, a, b, c, mid, g2, hfa, _, _, _, _, _, _, _, _, _,
    _, _, _, hrep⟩ := tryAuthorizationAt_some_decomp h
  have hlen : lit.length = 14 := by simpa using hfa.length_eq
  have h13 : 13 < lit.length := by omega
  have hc13 : lit.get ⟨13, h13⟩ = ':' :=
    eq_colon_of_lowerEq (forall₂_get?_ci hfa (List.get?_eq_get h13)
      (show _ = some ':' from rfl))
  have hsplit : lit = lit.take 13 ++ [':'] := by
    conv_lhs => rw [← List.take_append_drop 13 lit]
    congr 1
    rw [List.drop_eq_get_cons h13, hc13, List.drop_eq_nil_of_le (by omega)]
  refine ⟨lit.take 13, ':',
    ws ++ wd ++ [s1, a, b, c] ++ "*****".toList ++ g2, ?_, ?_, by decide,
    by decide⟩
  · conv_lhs => rw [hrep, hsplit]
    simp [List.append_assoc]
  · intro ch hch
    obtain ⟨j, hj⟩ := List.mem_iff_get?.mp hch
    have hjlt : j < 13 := by
      have h2 := (List.get?_eq_some.mp hj).1
      rw [List.length_take] at h2
      omega
    have hlj : lit.get? j = some ch := by
      rw [← List.get?_take hjlt]
      exact hj
    have hplt : j < ("Authorization:".toList).length := by
      simp
      omega
    exact ci_word (forall₂_get?_ci hfa hlj (List.get?_eq_get hplt))
      (auth_pat_letter j hjlt (List.get?_eq_get hplt))

/-- The password replacement opens with a word run closed by the
(non-space, non-word) quote of its matched literal. -/
theorem tryPasswordAt_rep_frontier {l rep rest : List Char}
    (h : tryPasswordAt l = some (rep, rest)) :
    ∃ wpre d rrest, rep = wpre ++ d :: rrest ∧
      (∀ ch ∈ wpre, isWordChar ch = true) ∧
      isWordChar d = false ∧ isSpaceChar d = false := by
  obtain ⟨lit, sp1, sp2, x, y, run, hfa, _, _, _, _, _, hcase⟩ :=
    tryPasswordAt_some_decomp h
  have hlen : lit.length = 9 := by simpa using hfa.length_eq
  have h8 : 8 < lit.length := by omega
  have hc8 : lit.get ⟨8, h8⟩ = '"' :=
    eq_quote_of_lowerEq (forall₂_get?_ci hfa (List.get?_eq_get h8)
      (show _ = some '"' from rfl))
  have hsplit : lit = lit.take 8 ++ ['"'] := by
    conv_lhs => rw [← List.take_append_drop 8 lit]
    congr 1
    rw [List.drop_eq_get_cons h8, hc8, List.drop_eq_nil_of_le (by omega)]
  have hwpre : ∀ ch ∈ lit.take 8, isWordChar ch = true := by
    intro ch hch
    obtain ⟨j, hj⟩ := List.mem_iff_get?.mp hch
    have hjlt : j < 8 := by
      have h2 := (List.get?_eq_some.mp hj).1
      rw [List.length_take] at h2
      omega
    have hlj : lit.get? j = some ch := by
      rw [← List.get?_take hjlt]
      exact hj
    have hplt : j < ("password\"".toList).length := by
      simp
      omega
    exact ci_word (forall₂_get?_ci hfa hlj (List.get?_eq_get hplt))
      (pwd_pat_letter j hjlt (List.get?_eq_get hplt))
  rcases hcase with ⟨_, hrep⟩ | ⟨lc, _, _, _, _, hrep⟩
  · refine ⟨lit.take 8, '"',
      sp1 ++ [':'] ++ sp2 ++ ['"', x, y] ++ "***".toList ++ ['"', '"'],
      ?_, hwpre, by decide, by decide⟩
    conv_lhs => rw [hrep, hsplit]
    simp [List.append_assoc]
  · refine ⟨lit.take 8, '"',
      sp1 ++ [':'] ++ sp2 ++ ['"', x, y] ++ "***".toList ++ [lc, '"'],
      ?_, hwpre, by decide, by decide⟩
    conv_lhs => rw [hrep, hsplit]
    simp [List.append_assoc]

/-- For a scanner whose attempts need a leading word character and whose
replacements expose a non-space character right after their leading word
run, scanning preserves a non-space (or absent) word-run frontier. -/
theorem scan_word_frontier {f : List Char → Option (List Char × List Char)}
    (hsh : Shrinks f)
    (hkill : ∀ c cs, isWordChar c = false → f (c :: cs) = none)
    (hrep : ∀ l rep rest, f l = some (rep, rest) →
      ∃ wpre d rrest, rep = wpre ++ d :: rrest ∧
        (∀ ch ∈ wpre, isWordChar ch = true) ∧
        isWordChar d = false ∧ isSpaceChar d = false)
    (u : List Char)
    (hu : u.dropWhile isWordChar = [] ∨
      ∃ d v, u.dropWhile isWordChar = d :: v ∧ isSpaceChar d = false) :
    (replaceAll f u).dropWhile isWordChar = [] ∨
      ∃ d v, (replaceAll f u).dropWhile isWordChar = d :: v ∧
        isSpaceChar d = false := by
  suffices H : ∀ n u2, u2.length ≤ n →
      (u2.dropWhile isWordChar = [] ∨
        ∃ d v, u2.dropWhile isWordChar = d :: v ∧ isSpaceChar d = false) →
      ((replaceAll f u2).dropWhile isWordChar = [] ∨
        ∃ d v, (replaceAll f u2).dropWhile isWordChar = d :: v ∧
          isSpaceChar d = false) from H u.length u le_rfl hu
  intro n
  induction n with
  | zero =>
    intro u2 hn _
    have h0 : u2 = [] := List.length_eq_zero.mp (Nat.le_zero.mp hn)
    subst h0
    exact Or.inl rfl
  | succ n ih =>
    intro u2 hn hu2
    cases u2 with
    | nil => exact Or.inl rfl
    | cons e et =>
      by_cases hew : isWordChar e = true
      · cases htry : f (e :: et) with
        | none =>
          rw [replaceAll_cons_none htry, List.dropWhile_cons, if_pos hew]
          refine ih et (by simpa using hn) ?_
          rwa [List.dropWhile_cons, if_pos hew] at hu2
        | some pr =>
          obtain ⟨rep, rest⟩ := pr
          rw [replaceAll_cons_some hsh htry]
          obtain ⟨wpre, d, rrest, hr, hwp, hdw, hds⟩ := hrep _ _ _ htry
          right
          refine ⟨d, rrest ++ replaceAll f rest, ?_, hds⟩
          rw [hr, List.append_assoc, List.cons_append,
            dropWhile_all_append _ _ _ hwp, List.dropWhile_cons,
            if_neg (by simp [hdw])]
      · have hef : isWordChar e = false := by simpa using hew
        have hnone : f (e :: et) = none := hkill e et hef
        rw [replaceAll_cons_none hnone]
        rw [List.dropWhile_cons, if_neg hew] at hu2
        rcases hu2 with h2 | ⟨d, v, h2, hds⟩
        · exact absurd h2 (by simp)
        · injection h2 with he1 he2
          refine Or.inr ⟨e, replaceAll f et, ?_, by rw [he1]; exact hds⟩
          rw [List.dropWhile_cons, if_neg hew]

/-- Crux: a failed authorization match at the head survives the
authorization scan of the tail. -/
theorem authConfineA {c : Char} {cs : List Char}
    (h : tryAuthorizationAt (c :: cs) = none) :
    tryAuthorizationAt (c :: replaceAll tryAuthorizationAt cs) = none := by
  have h0 := h
  unfold tryAuthorizationAt at h
  split at h
  · -- literal never matched
    rename_i hlit
    rcases matchLitCI_none_cases hlit with
      ⟨j, cj, pj, hcj, hpj, hex, hpre⟩ | ⟨hshort, hall⟩
    · have hj14 : j < 14 := by
        have := (List.get?_eq_some.mp hpj).1
        simpa using this
      cases j with
      | zero =>
        have hc : cj = c := by
          rw [show (c :: cs).get? 0 = some c from rfl] at hcj
          injection hcj with hcj2
          exact hcj2.symm
        have hp : pj = 'A' := by
          rw [show ("Authorization:".toList).get? 0 = some 'A' from rfl] at hpj
          injection hpj with hpj2
          exact hpj2.symm
        subst hc
        subst hp
        refine tryAuthorizationAt_none_of_head _ ?_
        cases hres : lowerEq cj 'a' with
        | false => rfl
        | true =>
          have h2 : lowerEq cj 'A' = true := by
            rw [lowerEq_iff] at hres ⊢
            rw [hres]
            decide
          rw [h2] at hex
          simp at hex
      | succ j2 =>
        have hjcs : j2 < cs.length := by
          have := (List.get?_eq_some.mp hcj).1
          simpa using this
        have hgj : cs.get? j2 = some cj := by simpa using hcj
        have hdead7 : ∀ i, i < j2 → i ≠ 7 →
            tryAuthorizationAt (cs.drop i) = none := by
          intro i hi hne
          obtain ⟨ci2, pi2, h1, h2, h3⟩ := hpre (i + 1) (by omega)
          have hg : cs.get? i = some ci2 := by simpa using h1
          have hic : i < cs.length := (List.get?_eq_some.mp hg).1
          rw [List.drop_eq_get_cons hic]
          have hgi : cs.get ⟨i, hic⟩ = ci2 := by
            rw [List.get?_eq_get hic] at hg
            injection hg
          rw [hgi]
          refine tryAuthorizationAt_none_of_head _ ?_
          exact auth_shift_head (by omega) hne h2 h3
        have hdropeq : cs.drop j2 = cj :: cs.drop (j2 + 1) := by
          rw [List.drop_eq_get_cons hjcs]
          congr 1
          rw [List.get?_eq_get hjcs] at hgj
          injection hgj
        by_cases hlive : 7 < j2 ∧ ∃ pr, tryAuthorizationAt (cs.drop 7)
            = some pr
        · obtain ⟨h7lt, ⟨⟨rep, rest⟩, hres⟩⟩ := hlive
          have hdead : ∀ i, i < 7 → tryAuthorizationAt (cs.drop i) = none :=
            fun i hi => hdead7 i (by omega) (by omega)
          rw [replaceAll_take_split (by omega) hdead,
            replaceAll_eq_of_some tryAuthorizationAt_shrinks hres]
          obtain ⟨lit2, ws2, wd2, s12, a2, b2, c2, mid2, g22, hfa2, _, _, _,
            _, _, _, _, _, _, _, _, _, hrep2⟩ :=
            tryAuthorizationAt_some_decomp hres
          have hlen2 : lit2.length = 14 := by simpa using hfa2.length_eq
          have h1lt : 1 < lit2.length := by omega
          have hu2 : lowerEq (lit2.get ⟨1, h1lt⟩) 'u' = true :=
            forall₂_get?_ci hfa2 (List.get?_eq_get h1lt)
              (show _ = some 'u' from rfl)
          have hkill : lowerEq (lit2.get ⟨1, h1lt⟩) 't' = false :=
            lowerEq_shift hu2 (by decide)
          have hm7 : (cs.take 7).length = 7 := by
            rw [List.length_take]
            omega
          have hget9 : (c :: (cs.take 7
              ++ (rep ++ replaceAll tryAuthorizationAt rest))).get? 9
              = some (lit2.get ⟨1, h1lt⟩) := by
            rw [show (c :: (cs.take 7
                ++ (rep ++ replaceAll tryAuthorizationAt rest))).get? 9
              = (cs.take 7
                ++ (rep ++ replaceAll tryAuthorizationAt rest)).get? 8
              from rfl,
              List.get?_append_right (by rw [hm7]; omega), hm7]
            show (rep ++ replaceAll tryAuthorizationAt rest).get? 1 = _
            have hrep2a : rep = lit2 ++ (ws2 ++ wd2 ++ [s12, a2, b2, c2]
                ++ "*****".toList ++ g22) := by
              rw [hrep2]
              simp [List.append_assoc]
            have hreplen : 14 ≤ rep.length := by
              rw [hrep2a, List.length_append]
              omega
            rw [List.get?_append (by omega)]
            rw [hrep2a, List.get?_append (by omega)]
            exact List.get?_eq_get h1lt
          set R := replaceAll tryAuthorizationAt rest with hR
          unfold tryAuthorizationAt
          rw [matchLitCI_none_of_mismatch 9 hget9
            (show ("Authorization:".toList).get? 9 = some 't' from rfl) hkill]
        · have hdead : ∀ i, i < j2 → tryAuthorizationAt (cs.drop i) = none := by
            intro i hi
            by_cases hi7 : i = 7
            · subst hi7
              cases hres : tryAuthorizationAt (cs.drop 7) with
              | none => rfl
              | some pr => exact absurd ⟨hi, ⟨pr, hres⟩⟩ hlive
            · exact hdead7 i hi hi7
          obtain ⟨u, hu⟩ := replaceAll_head tryAuthorizationAt_shrinks
            tryAuthorizationAt_headKeeps cj (cs.drop (j2 + 1))
          rw [replaceAll_take_split (by omega) hdead, hdropeq, hu]
          have hgetgoal : (c :: (cs.take j2 ++ cj :: u)).get? (j2 + 1)
              = some cj := by
            rw [show (c :: (cs.take j2 ++ cj :: u)).get? (j2 + 1)
              = (cs.take j2 ++ cj :: u).get? j2 from rfl]
            rw [List.get?_append_right (by rw [List.length_take]; omega)]
            rw [List.length_take]
            rw [show j2 - min j2 cs.length = 0 from by omega]
            rfl
          unfold tryAuthorizationAt
          rw [matchLitCI_none_of_mismatch (j2 + 1) hgetgoal hpj hex]
    · have hlen : cs.length < 13 := by
        have h2 : (c :: cs).length < 14 := by simpa using hshort
        rw [List.length_cons] at h2
        omega
      have hdead : ∀ i, i < cs.length →
          tryAuthorizationAt (cs.drop i) = none := by
        intro i hi
        by_cases hi7 : i = 7
        · subst hi7
          unfold tryAuthorizationAt
          rw [matchLitCI_none_of_exhaust (by
            rw [List.length_drop]
            show cs.length - 7 < 14
            omega)]
        · obtain ⟨ci2, pi2, h1, h2, h3⟩ := hall (i + 1) (by simpa using hi)
          have hg : cs.get? i = some ci2 := by simpa using h1
          have hic : i < cs.length := (List.get?_eq_some.mp hg).1
          rw [List.drop_eq_get_cons hic]
          have hgi : cs.get ⟨i, hic⟩ = ci2 := by
            rw [List.get?_eq_get hic] at hg
            injection hg
          rw [hgi]
          refine tryAuthorizationAt_none_of_head _ ?_
          exact auth_shift_head (by omega) hi7 h2 h3
      rw [replaceAll_id_of_none hdead]
      exact h0
  · -- literal matched
    rename_i lit14 r1 hlit
    obtain ⟨hsl, hlen14, hfa⟩ := matchLitCI_some_decomp hlit
    obtain ⟨lt, hltn⟩ : ∃ lt, lit14 = c :: lt := by
      cases lit14 with
      | nil => simp at hlen14
      | cons c0 l0 =>
        rw [List.cons_append] at hsl
        injection hsl with e1 e2
        exact ⟨l0, by rw [← e1]⟩
    subst hltn
    have hlt13 : lt.length = 13 := by simpa using hlen14
    have hcs : cs = lt ++ r1 := by
      have h2 := congrArg List.tail hsl
      simpa using h2
    have hltkill : ∀ i Z, i < 13 →
        tryAuthorizationAt (lt.drop i ++ Z) = none := by
      intro i Z hi
      have he : lt.drop i = (c :: lt).drop (i + 1) := rfl
      rw [he]
      refine auth_lit_tail_kill hfa (List.drop_suffix _ _) ?_ ?_ Z
      · intro hnil
        have h2 := congrArg List.length hnil
        rw [List.length_drop, List.length_nil, List.length_cons, hlt13] at h2
        omega
      · rw [List.length_drop, List.length_cons, hlt13]
        omega
    dsimp only [] at h
    split at h
    · -- F1: no word character after the spaces
      rename_i hempty
      cases hdw : r1.dropWhile isSpaceChar with
      | nil =>
        have hsp : ∀ ch ∈ r1, isSpaceChar ch = true := by
          intro ch hch
          have h2 := List.dropWhile_eq_nil_iff.mp hdw ch hch
          simpa using h2
        have hdead : ∀ i, i < cs.length →
            tryAuthorizationAt (cs.drop i) = none := by
          intro i hi
          rw [hcs] at hi
          rw [List.length_append, hlt13] at hi
          rcases lt_or_ge i 13 with hlt | hge
          · rw [hcs, List.drop_append_of_le_length (by rw [hlt13]; omega)]
            exact hltkill i _ hlt
          · rw [hcs, show i = lt.length + (i - lt.length) from by
                rw [hlt13]; omega,
              List.drop_append]
            have hilen : i - lt.length < r1.length := by
              rw [hlt13]
              omega
            rw [List.drop_eq_get_cons hilen]
            exact tryAuthorizationAt_none_of_space_head _
              (hsp _ (r1.get_mem _ _))
        rw [replaceAll_id_of_none hdead]
        exact h0
      | cons e es =>
        have hes : isSpaceChar e = false := dropWhile_head_not hdw
        have hew : isWordChar e = false := by
          rw [hdw] at hempty
          cases hres : isWordChar e with
          | false => rfl
          | true =>
            rw [List.takeWhile_cons, if_pos hres] at hempty
            simp at hempty
        have hr1 : r1 = r1.takeWhile isSpaceChar ++ e :: es := by
          conv_lhs => rw [← List.takeWhile_append_dropWhile
            (p := isSpaceChar) (l := r1), hdw]
        have hws1 : ∀ x ∈ r1.takeWhile isSpaceChar, isSpaceChar x = true :=
          fun x hx => mem_takeWhile_pred hx
        have hcs3 : cs = (lt ++ r1.takeWhile isSpaceChar ++ [e]) ++ es := by
          rw [hcs]
          conv_lhs => rw [hr1]
          simp [List.append_assoc]
        have hdeadm : ∀ i, i < (lt ++ r1.takeWhile isSpaceChar
            ++ [e]).length →
            tryAuthorizationAt ((lt ++ r1.takeWhile isSpaceChar
              ++ [e]).drop i ++ es) = none := by
          intro i hi
          rw [List.length_append, List.length_append, hlt13,
            List.length_cons, List.length_nil] at hi
          rcases lt_or_ge i 13 with hlt | hge
          · rw [List.append_assoc,
              List.drop_append_of_le_length (by rw [hlt13]; omega),
              List.append_assoc]
            exact hltkill i _ hlt
          · rcases lt_or_ge i (13 + (r1.takeWhile isSpaceChar).length)
              with hlt2 | hge2
            · rw [List.append_assoc, show i = lt.length + (i - lt.length)
                  from by rw [hlt13]; omega,
                List.drop_append]
              have hilen : i - lt.length
                  < (r1.takeWhile isSpaceChar).length := by
                rw [hlt13]
                omega
              rw [List.drop_append_of_le_length (by omega),
                List.drop_eq_get_cons hilen, List.cons_append,
                List.cons_append]
              exact tryAuthorizationAt_none_of_space_head _
                (hws1 _ ((r1.takeWhile isSpaceChar).get_mem _ _))
            · have hieq : i = (lt ++ r1.takeWhile isSpaceChar).length
                  + (i - (lt ++ r1.takeWhile isSpaceChar).length) := by
                rw [List.length_append, hlt13]
                omega
              have hiz : i - (lt ++ r1.takeWhile isSpaceChar).length = 0 := by
                rw [List.length_append, hlt13]
                omega
              rw [hieq, hiz, List.drop_append, List.drop_zero,
                List.cons_append]
              exact tryAuthorizationAt_none_of_nonword_head _ hew
        rw [hcs3, replaceAll_append_of_none hdeadm]
        have hshape : c :: ((lt ++ r1.takeWhile isSpaceChar ++ [e])
            ++ replaceAll tryAuthorizationAt es)
            = (c :: lt) ++ (r1.takeWhile isSpaceChar
              ++ e :: replaceAll tryAuthorizationAt es) := by
          simp
        rw [hshape]
        set E := replaceAll tryAuthorizationAt es with hE
        unfold tryAuthorizationAt
        rw [matchLitCI_of_forall₂ hfa]
        dsimp only []
        rw [show List.dropWhile isSpaceChar (r1.takeWhile isSpaceChar
            ++ e :: E) = e :: E from by
            rw [dropWhile_all_append _ _ _ hws1, List.dropWhile_cons,
              if_neg (by simp [hes])]]
        rw [show List.takeWhile isWordChar (e :: E) = [] from by
            rw [List.takeWhile_cons, if_neg (by simp [hew])]]
        rw [if_pos (show ([] : List Char).isEmpty = true from rfl)]
    · rename_i hwdne
      split at h
      · -- F2: the word run extends to the end of input
        rename_i hr3nil
        have hr2w : ∀ ch ∈ r1.dropWhile isSpaceChar, isWordChar ch = true := by
          intro ch hch
          have h2 := List.dropWhile_eq_nil_iff.mp hr3nil ch hch
          simpa using h2
        have hws1 : ∀ x ∈ r1.takeWhile isSpaceChar, isSpaceChar x = true :=
          fun x hx => mem_takeWhile_pred hx
        have hr1 : r1 = r1.takeWhile isSpaceChar
            ++ r1.dropWhile isSpaceChar :=
          (List.takeWhile_append_dropWhile _ _).symm
        have hdead : ∀ i, i < cs.length →
            tryAuthorizationAt (cs.drop i) = none := by
          intro i hi
          rw [hcs, List.length_append, hlt13] at hi
          rcases lt_or_ge i 13 with hlt | hge
          · rw [hcs, List.drop_append_of_le_length (by rw [hlt13]; omega)]
            exact hltkill i _ hlt
          · rw [hcs, show i = lt.length + (i - lt.length) from by
                rw [hlt13]; omega,
              List.drop_append]
            have hir : i - lt.length < r1.length := by
              rw [hlt13]
              omega
            conv_lhs => rw [hr1]
            rcases lt_or_ge (i - lt.length)
                (r1.takeWhile isSpaceChar).length with hlt2 | hge2
            · rw [List.drop_append_of_le_length (by omega),
                List.drop_eq_get_cons hlt2, List.cons_append]
              exact tryAuthorizationAt_none_of_space_head _
                (hws1 _ ((r1.takeWhile isSpaceChar).get_mem _ _))
            · rw [show i - lt.length = (r1.takeWhile isSpaceChar).length
                  + (i - lt.length - (r1.takeWhile isSpaceChar).length)
                  from by omega,
                List.drop_append]
              have hDlen : i - lt.length
                  - (r1.takeWhile isSpaceChar).length
                  < (r1.dropWhile isSpaceChar).length := by
                have h2 : (r1.takeWhile isSpaceChar).length
                    + (r1.dropWhile isSpaceChar).length = r1.length := by
                  rw [← List.length_append,
                    List.takeWhile_append_dropWhile]
                omega
              rw [show (r1.dropWhile isSpaceChar).drop
                  (i - lt.length - (r1.takeWhile isSpaceChar).length)
                  = (r1.dropWhile isSpaceChar).drop
                    (i - lt.length - (r1.takeWhile isSpaceChar).length)
                    ++ [] from (List.append_nil _).symm]
              refine tryAuthorizationAt_none_of_word ?_ (Or.inl rfl)
              intro ch hch
              exact hr2w ch (List.drop_subset _ _ hch)
        rw [replaceAll_id_of_none hdead]
        exact h0
      · rename_i s1 r4 hr3
        split at h
        · rename_i hs1sp
          split at h
          · rename_i a b c2 r5
            split at h
            · rename_i habc
              split at h
              · -- F5: the non-CRLF run is too short
                rename_i hrun
                have hws1 : ∀ x ∈ r1.takeWhile isSpaceChar,
                    isSpaceChar x = true :=
                  fun x hx => mem_takeWhile_pred hx
                have hwdw : ∀ ch ∈ (r1.dropWhile isSpaceChar).takeWhile
                    isWordChar, isWordChar ch = true :=
                  fun ch hch => mem_takeWhile_pred hch
                have hs1w : isWordChar s1 = false := dropWhile_head_not hr3
                have hDsplit : r1.dropWhile isSpaceChar
                    = (r1.dropWhile isSpaceChar).takeWhile isWordChar
                      ++ s1 :: a :: b :: c2 :: r5 := by
                  conv_lhs => rw [← List.takeWhile_append_dropWhile
                    (p := isWordChar) (l := r1.dropWhile isSpaceChar), hr3]
                cases hdcr : r5.dropWhile (fun ch => !isCRLF ch) with
                | nil =>
                  have hlen5 : r5.length < 3 := by
                    have h2 := congrArg List.length
                      (List.takeWhile_append_dropWhile
                        (p := fun ch => !isCRLF ch) (l := r5))
                    rw [List.length_append, hdcr, List.length_nil] at h2
                    omega
                  have hdead : ∀ i, i < cs.length →
                      tryAuthorizationAt (cs.drop i) = none := by
                    intro i hi
                    rcases lt_or_ge i 13 with hlt | hge
                    · rw [hcs, List.drop_append_of_le_length
                        (by rw [hlt13]; omega)]
                      exact hltkill i _ hlt
                    · rw [hcs, show i = lt.length + (i - lt.length) from by
                          rw [hlt13]; omega,
                        List.drop_append]
                      conv_lhs => rw [← List.takeWhile_append_dropWhile
                        (p := isSpaceChar) (l := r1)]
                      rcases lt_or_ge (i - lt.length)
                          (r1.takeWhile isSpaceChar).length with hlt2 | hge2
                      · rw [List.drop_append_of_le_length (by omega),
                          List.drop_eq_get_cons hlt2, List.cons_append]
                        exact tryAuthorizationAt_none_of_space_head _
                          (hws1 _ ((r1.takeWhile isSpaceChar).get_mem _ _))
                      · rw [show i - lt.length
                            = (r1.takeWhile isSpaceChar).length
                              + (i - lt.length
                                - (r1.takeWhile isSpaceChar).length)
                            from by omega,
                          List.drop_append]
                        conv_lhs => rw [hDsplit]
                        rcases lt_or_ge (i - lt.length
                            - (r1.takeWhile isSpaceChar).length)
                            ((r1.dropWhile isSpaceChar).takeWhile
                              isWordChar).length with hlt3 | hge3
                        · rw [List.drop_append_of_le_length (by omega)]
                          refine tryAuthorizationAt_none_of_word ?_
                            (Or.inr ⟨s1, _, rfl, Or.inl hs1sp⟩)
                          intro ch hch
                          exact hwdw ch (List.drop_subset _ _ hch)
                        · rw [show i - lt.length
                              - (r1.takeWhile isSpaceChar).length
                              = ((r1.dropWhile isSpaceChar).takeWhile
                                isWordChar).length
                                + (i - lt.length
                                  - (r1.takeWhile isSpaceChar).length
                                  - ((r1.dropWhile isSpaceChar).takeWhile
                                    isWordChar).length) from by omega,
                            List.drop_append]
                          cases hj3 : i - lt.length
                              - (r1.takeWhile isSpaceChar).length
                              - ((r1.dropWhile isSpaceChar).takeWhile
                                isWordChar).length with
                          | zero =>
                            rw [List.drop_zero]
                            exact tryAuthorizationAt_none_of_space_head
                              _ hs1sp
                          | succ j4 =>
                            rw [List.drop_succ_cons]
                            unfold tryAuthorizationAt
                            rw [matchLitCI_none_of_exhaust (by
                              rw [List.length_drop]
                              show (a :: b :: c2 :: r5).length - j4 < 14
                              simp only [List.length_cons]
                              omega)]
                  rw [replaceAll_id_of_none hdead]
                  exact h0
                | cons e ecs =>
                  have heb : isCRLF e = true := by
                    have h2 := dropWhile_head_not hdcr
                    simpa using h2
                  have hrunpred : ∀ u ∈ r5.takeWhile
                      (fun ch => !isCRLF ch), (!isCRLF u) = true :=
                    fun u hu => mem_takeWhile_pred hu
                  have hr5split : r5 = r5.takeWhile (fun ch => !isCRLF ch)
                      ++ e :: ecs := by
                    conv_lhs => rw [← List.takeWhile_append_dropWhile
                      (p := fun ch => !isCRLF ch) (l := r5), hdcr]
                  have hcsM : cs = (lt ++ r1.takeWhile isSpaceChar
                      ++ (r1.dropWhile isSpaceChar).takeWhile isWordChar
                      ++ (s1 :: (([a, b, c2]
                        ++ r5.takeWhile (fun ch => !isCRLF ch))
                        ++ [e]))) ++ ecs := by
                    rw [hcs]
                    conv_lhs => rw [← List.takeWhile_append_dropWhile
                      (p := isSpaceChar) (l := r1)]
                    conv_lhs => rw [hDsplit]
                    conv_lhs => rw [hr5split]
                    simp [List.append_assoc]
                  have hdeadm : ∀ i, i < (lt ++ r1.takeWhile isSpaceChar
                      ++ (r1.dropWhile isSpaceChar).takeWhile isWordChar
                      ++ (s1 :: (([a, b, c2]
                        ++ r5.takeWhile (fun ch => !isCRLF ch))
                        ++ [e]))).length →
                      tryAuthorizationAt ((lt ++ r1.takeWhile isSpaceChar
                        ++ (r1.dropWhile isSpaceChar).takeWhile isWordChar
                        ++ (s1 :: (([a, b, c2]
                          ++ r5.takeWhile (fun ch => !isCRLF ch))
                          ++ [e]))).drop i ++ ecs) = none := by
                    intro i hi
                    simp only [List.length_append, List.length_cons,
                      List.length_nil, hlt13] at hi
                    rw [List.append_assoc, List.append_assoc]
                    rcases lt_or_ge i 13 with hlt | hge
                    · rw [List.drop_append_of_le_length
                        (by rw [hlt13]; omega), List.append_assoc]
                      exact hltkill i _ hlt
                    · rw [show i = lt.length + (i - lt.length) from by
                          rw [hlt13]; omega,
                        List.drop_append]
                      rcases lt_or_ge (i - lt.length)
                          (r1.takeWhile isSpaceChar).length with hlt2 | hge2
                      · rw [List.drop_append_of_le_length (by omega),
                          List.drop_eq_get_cons hlt2, List.cons_append,
                          List.cons_append]
                        exact tryAuthorizationAt_none_of_space_head _
                          (hws1 _ ((r1.takeWhile isSpaceChar).get_mem _ _))
                      · rw [show i - lt.length
                            = (r1.takeWhile isSpaceChar).length
                              + (i - lt.length
                                - (r1.takeWhile isSpaceChar).length)
                            from by omega,
                          List.drop_append]
                        rcases lt_or_ge (i - lt.length
                            - (r1.takeWhile isSpaceChar).length)
                            ((r1.dropWhile isSpaceChar).takeWhile
                              isWordChar).length with hlt3 | hge3
                        · rw [List.drop_append_of_le_length (by omega),
                            List.append_assoc, List.cons_append]
                          refine tryAuthorizationAt_none_of_word ?_
                            (Or.inr ⟨s1, _, rfl, Or.inl hs1sp⟩)
                          intro ch hch
                          exact hwdw ch (List.drop_subset _ _ hch)
                        · rw [show i - lt.length
                              - (r1.takeWhile isSpaceChar).length
                              = ((r1.dropWhile isSpaceChar).takeWhile
                                isWordChar).length
                                + (i - lt.length
                                  - (r1.takeWhile isSpaceChar).length
                                  - ((r1.dropWhile isSpaceChar).takeWhile
                                    isWordChar).length) from by omega,
                            List.drop_append]
                          cases hj3 : i - lt.length
                              - (r1.takeWhile isSpaceChar).length
                              - ((r1.dropWhile isSpaceChar).takeWhile
                                isWordChar).length with
                          | zero =>
                            rw [List.drop_zero, List.cons_append]
                            exact tryAuthorizationAt_none_of_space_head
                              _ hs1sp
                          | succ j4 =>
                            rw [List.drop_succ_cons,
                              List.drop_append_of_le_length (by
                                rw [List.length_append]
                                simp only [List.length_cons,
                                  List.length_nil]
                                omega),
                              List.append_assoc, List.singleton_append]
                            have htlen : ((([a, b, c2]
                                ++ r5.takeWhile (fun ch => !isCRLF ch))
                                ).drop j4).length < 14 := by
                              rw [List.length_drop, List.length_append]
                              simp only [List.length_cons, List.length_nil]
                              omega
                            refine tryAuthorizationAt_none_of_space_at
                              ((([a, b, c2]
                                ++ r5.takeWhile (fun ch => !isCRLF ch))
                                ).drop j4).length ?_ htlen
                              (Or.inl (crlf_space heb))
                            rw [List.get?_append_right le_rfl, Nat.sub_self]
                            rfl
                  rw [hcsM, replaceAll_append_of_none hdeadm]
                  generalize replaceAll tryAuthorizationAt ecs = Y
                  have hshape : c :: ((lt ++ r1.takeWhile isSpaceChar
                      ++ (r1.dropWhile isSpaceChar).takeWhile isWordChar
                      ++ (s1 :: (([a, b, c2]
                        ++ r5.takeWhile (fun ch => !isCRLF ch))
                        ++ [e]))) ++ Y)
                      = (c :: lt) ++ (r1.takeWhile isSpaceChar
                        ++ ((r1.dropWhile isSpaceChar).takeWhile isWordChar
                          ++ s1 :: a :: b :: c2
                            :: (r5.takeWhile (fun ch => !isCRLF ch)
                              ++ e :: Y))) := by
                    simp
                  rw [hshape]
                  obtain ⟨w0, wt, hwd⟩ : ∃ w0 wt,
                      (r1.dropWhile isSpaceChar).takeWhile isWordChar
                        = w0 :: wt := by
                    cases hD2 : (r1.dropWhile isSpaceChar).takeWhile
                        isWordChar with
                    | nil =>
                      rw [hD2] at hwdne
                      simp at hwdne
                    | cons a2 as2 => exact ⟨a2, as2, rfl⟩
                  have hw0 : isWordChar w0 = true := by
                    have h2 : w0 ∈ (r1.dropWhile isSpaceChar).takeWhile
                        isWordChar := by
                      rw [hwd]
                      simp
                    exact mem_takeWhile_pred h2
                  have hwtw : ∀ ch ∈ wt, isWordChar ch = true := by
                    intro ch hch
                    refine hwdw ch ?_
                    rw [hwd]
                    exact List.mem_cons_of_mem _ hch
                  unfold tryAuthorizationAt
                  rw [matchLitCI_of_forall₂ hfa]
                  dsimp only []
                  rw [show List.dropWhile isSpaceChar
                      (r1.takeWhile isSpaceChar
                        ++ ((r1.dropWhile isSpaceChar).takeWhile isWordChar
                          ++ s1 :: a :: b :: c2
                            :: (r5.takeWhile (fun ch => !isCRLF ch)
                              ++ e :: Y)))
                      = w0 :: (wt ++ s1 :: a :: b :: c2
                          :: (r5.takeWhile (fun ch => !isCRLF ch)
                            ++ e :: Y)) from by
                      rw [dropWhile_all_append _ _ _ hws1, hwd,
                        List.cons_append, List.dropWhile_cons,
                        if_neg (by simp [word_not_space hw0])]]
                  rw [show List.dropWhile isWordChar
                      (w0 :: (wt ++ s1 :: a :: b :: c2
                        :: (r5.takeWhile (fun ch => !isCRLF ch)
                          ++ e :: Y)))
                      = s1 :: a :: b :: c2
                        :: (r5.takeWhile (fun ch => !isCRLF ch)
                          ++ e :: Y) from by
                      rw [List.dropWhile_cons, if_pos hw0,
                        dropWhile_all_append _ _ _ hwtw,
                        List.dropWhile_cons, if_neg (by simp [hs1w])]]
                  rw [show List.takeWhile isWordChar
                      (w0 :: (wt ++ s1 :: a :: b :: c2
                        :: (r5.takeWhile (fun ch => !isCRLF ch)
                          ++ e :: Y)))
                      = w0 :: List.takeWhile isWordChar
                        (wt ++ s1 :: a :: b :: c2
                          :: (r5.takeWhile (fun ch => !isCRLF ch)
                            ++ e :: Y)) from by
                      rw [List.takeWhile_cons, if_pos hw0]]
                  rw [if_neg (show ¬((w0 :: List.takeWhile isWordChar
                      (wt ++ s1 :: a :: b :: c2
                        :: (r5.takeWhile (fun ch => !isCRLF ch)
                          ++ e :: Y))).isEmpty = true) from by simp)]
                  dsimp only []
                  rw [if_pos hs1sp, if_pos habc]
                  rw [show List.takeWhile (fun ch => !isCRLF ch)
                      (r5.takeWhile (fun ch => !isCRLF ch) ++ e :: Y)
                      = r5.takeWhile (fun ch => !isCRLF ch) from by
                      rw [takeWhile_all_append _ _ _ hrunpred,
                        List.takeWhile_cons, if_neg (by simp [heb]),
                        List.append_nil]]
                  rw [if_pos hrun]
              · exact absurd h (by simp)
            · -- F4: the three wildcard characters are not all word
              rename_i habc
              have hws1 : ∀ x ∈ r1.takeWhile isSpaceChar,
                  isSpaceChar x = true :=
                fun x hx => mem_takeWhile_pred hx
              have hwdw : ∀ ch ∈ (r1.dropWhile isSpaceChar).takeWhile
                  isWordChar, isWordChar ch = true :=
                fun ch hch => mem_takeWhile_pred hch
              have hs1w : isWordChar s1 = false := dropWhile_head_not hr3
              obtain ⟨w0, wt, hwd⟩ : ∃ w0 wt,
                  (r1.dropWhile isSpaceChar).takeWhile isWordChar
                    = w0 :: wt := by
                cases hD2 : (r1.dropWhile isSpaceChar).takeWhile
                    isWordChar with
                | nil =>
                  rw [hD2] at hwdne
                  simp at hwdne
                | cons a2 as2 => exact ⟨a2, as2, rfl⟩
              have hw0 : isWordChar w0 = true := by
                have h2 : w0 ∈ (r1.dropWhile isSpaceChar).takeWhile
                    isWordChar := by
                  rw [hwd]
                  simp
                exact mem_takeWhile_pred h2
              have hwtw : ∀ ch ∈ wt, isWordChar ch = true := by
                intro ch hch
                refine hwdw ch ?_
                rw [hwd]
                exact List.mem_cons_of_mem _ hch
              have hDsplit : r1.dropWhile isSpaceChar
                  = (r1.dropWhile isSpaceChar).takeWhile isWordChar
                    ++ s1 :: a :: b :: c2 :: r5 := by
                conv_lhs => rw [← List.takeWhile_append_dropWhile
                  (p := isWordChar) (l := r1.dropWhile isSpaceChar), hr3]
              have habc2 : isWordChar a = false
                  ∨ isWordChar a = true ∧ isWordChar b = false
                  ∨ isWordChar a = true ∧ isWordChar b = true
                    ∧ isWordChar c2 = false := by
                cases ha : isWordChar a with
                | false => exact Or.inl rfl
                | true =>
                  cases hb : isWordChar b with
                  | false => exact Or.inr (Or.inl ⟨rfl, rfl⟩)
                  | true =>
                    cases hcw : isWordChar c2 with
                    | false => exact Or.inr (Or.inr ⟨rfl, rfl, rfl⟩)
                    | true => exact absurd (by rw [ha, hb, hcw]; decide) habc
              rcases habc2 with haf | ⟨hat, hbf⟩ | ⟨hat, hbt, hc2f⟩
              · have hcsM : cs = (lt ++ r1.takeWhile isSpaceChar
                    ++ (r1.dropWhile isSpaceChar).takeWhile isWordChar
                    ++ [s1, a]) ++ (b :: c2 :: r5) := by
                  rw [hcs]
                  conv_lhs => rw [← List.takeWhile_append_dropWhile
                    (p := isSpaceChar) (l := r1)]
                  conv_lhs => rw [hDsplit]
                  simp [List.append_assoc]
                have hdeadm : ∀ i, i < (lt ++ r1.takeWhile isSpaceChar
                    ++ (r1.dropWhile isSpaceChar).takeWhile isWordChar
                    ++ [s1, a]).length →
                    tryAuthorizationAt ((lt ++ r1.takeWhile isSpaceChar
                      ++ (r1.dropWhile isSpaceChar).takeWhile isWordChar
                      ++ [s1, a]).drop i ++ (b :: c2 :: r5)) = none := by
                  intro i hi
                  simp only [List.length_append, List.length_cons,
                    List.length_nil, hlt13] at hi
                  rw [List.append_assoc, List.append_assoc]
                  rcases lt_or_ge i 13 with hlt | hge
                  · rw [List.drop_append_of_le_length
                      (by rw [hlt13]; omega), List.append_assoc]
                    exact hltkill i _ hlt
                  · rw [show i = lt.length + (i - lt.length) from by
                        rw [hlt13]; omega,
                      List.drop_append]
                    rcases lt_or_ge (i - lt.length)
                        (r1.takeWhile isSpaceChar).length with hlt2 | hge2
                    · rw [List.drop_append_of_le_length (by omega),
                        List.drop_eq_get_cons hlt2, List.cons_append,
                        List.cons_append]
                      exact tryAuthorizationAt_none_of_space_head _
                        (hws1 _ ((r1.takeWhile isSpaceChar).get_mem _ _))
                    · rw [show i - lt.length
                          = (r1.takeWhile isSpaceChar).length
                            + (i - lt.length
                              - (r1.takeWhile isSpaceChar).length)
                          from by omega,
                        List.drop_append]
                      rcases lt_or_ge (i - lt.length
                          - (r1.takeWhile isSpaceChar).length)
                          ((r1.dropWhile isSpaceChar).takeWhile
                            isWordChar).length with hlt3 | hge3
                      · rw [List.drop_append_of_le_length (by omega),
                          List.append_assoc,
                          show ([s1, a] : List Char) ++ (b :: c2 :: r5)
                            = s1 :: a :: b :: c2 :: r5 from rfl]
                        refine tryAuthorizationAt_none_of_word ?_
                          (Or.inr ⟨s1, _, rfl, Or.inl hs1sp⟩)
                        intro ch hch
                        exact hwdw ch (List.drop_subset _ _ hch)
                      · rw [show i - lt.length
                            - (r1.takeWhile isSpaceChar).length
                            = ((r1.dropWhile isSpaceChar).takeWhile
                              isWordChar).length
                              + (i - lt.length
                                - (r1.takeWhile isSpaceChar).length
                                - ((r1.dropWhile isSpaceChar).takeWhile
                                  isWordChar).length) from by omega,
                          List.drop_append]
                        cases hj3 : i - lt.length
                            - (r1.takeWhile isSpaceChar).length
                            - ((r1.dropWhile isSpaceChar).takeWhile
                              isWordChar).length with
                        | zero =>
                          rw [List.drop_zero,
                            show ([s1, a] : List Char) ++ (b :: c2 :: r5)
                              = s1 :: a :: b :: c2 :: r5 from rfl]
                          exact tryAuthorizationAt_none_of_space_head _ hs1sp
                        | succ j4 =>
                          have hj40 : j4 = 0 := by omega
                          subst hj40
                          rw [show (([s1, a] : List Char).drop 1)
                              ++ (b :: c2 :: r5)
                              = a :: b :: c2 :: r5 from rfl]
                          exact tryAuthorizationAt_none_of_nonword_head
                            _ haf
                rw [hcsM, replaceAll_append_of_none hdeadm]
                generalize replaceAll tryAuthorizationAt (b :: c2 :: r5) = Y
                have hshape : c :: ((lt ++ r1.takeWhile isSpaceChar
                    ++ (r1.dropWhile isSpaceChar).takeWhile isWordChar
                    ++ [s1, a]) ++ Y)
                    = (c :: lt) ++ (r1.takeWhile isSpaceChar
                      ++ ((r1.dropWhile isSpaceChar).takeWhile isWordChar
                        ++ s1 :: a :: Y)) := by
                  simp
                rw [hshape]
                unfold tryAuthorizationAt
                rw [matchLitCI_of_forall₂ hfa]
                dsimp only []
                rw [show List.dropWhile isSpaceChar
                    (r1.takeWhile isSpaceChar
                      ++ ((r1.dropWhile isSpaceChar).takeWhile isWordChar
                        ++ s1 :: a :: Y))
                    = w0 :: (wt ++ s1 :: a :: Y) from by
                    rw [dropWhile_all_append _ _ _ hws1, hwd,
                      List.cons_append, List.dropWhile_cons,
                      if_neg (by simp [word_not_space hw0])]]
                rw [show List.dropWhile isWordChar
                    (w0 :: (wt ++ s1 :: a :: Y)) = s1 :: a :: Y from by
                    rw [List.dropWhile_cons, if_pos hw0,
                      dropWhile_all_append _ _ _ hwtw, List.dropWhile_cons,
                      if_neg (by simp [hs1w])]]
                rw [show List.takeWhile isWordChar
                    (w0 :: (wt ++ s1 :: a :: Y))
                    = w0 :: List.takeWhile isWordChar
                      (wt ++ s1 :: a :: Y) from by
                    rw [List.takeWhile_cons, if_pos hw0]]
                rw [if_neg (show ¬((w0 :: List.takeWhile isWordChar
                    (wt ++ s1 :: a :: Y)).isEmpty = true) from by simp)]
                dsimp only []
                rw [if_pos hs1sp]
                cases Y with
                | nil => rfl
                | cons y1 Y1 =>
                  cases Y1 with
                  | nil => rfl
                  | cons y2 Y2 =>
                    dsimp only []
                    rw [if_neg (by simp [haf])]
              · have hcsM : cs = (lt ++ r1.takeWhile isSpaceChar
                    ++ (r1.dropWhile isSpaceChar).takeWhile isWordChar
                    ++ [s1, a, b]) ++ (c2 :: r5) := by
                  rw [hcs]
                  conv_lhs => rw [← List.takeWhile_append_dropWhile
                    (p := isSpaceChar) (l := r1)]
                  conv_lhs => rw [hDsplit]
                  simp [List.append_assoc]
                have hdeadm : ∀ i, i < (lt ++ r1.takeWhile isSpaceChar
                    ++ (r1.dropWhile isSpaceChar).takeWhile isWordChar
                    ++ [s1, a, b]).length →
                    tryAuthorizationAt ((lt ++ r1.takeWhile isSpaceChar
                      ++ (r1.dropWhile isSpaceChar).takeWhile isWordChar
                      ++ [s1, a, b]).drop i ++ (c2 :: r5)) = none := by
                  intro i hi
                  simp only [List.length_append, List.length_cons,
                    List.length_nil, hlt13] at hi
                  rw [List.append_assoc, List.append_assoc]
                  rcases lt_or_ge i 13 with hlt | hge
                  · rw [List.drop_append_of_le_length
                      (by rw [hlt13]; omega), List.append_assoc]
                    exact hltkill i _ hlt
                  · rw [show i = lt.length + (i - lt.length) from by
                        rw [hlt13]; omega,
                      List.drop_append]
                    rcases lt_or_ge (i - lt.length)
                        (r1.takeWhile isSpaceChar).length with hlt2 | hge2
                    · rw [List.drop_append_of_le_length (by omega),
                        List.drop_eq_get_cons hlt2, List.cons_append,
                        List.cons_append]
                      exact tryAuthorizationAt_none_of_space_head _
                        (hws1 _ ((r1.takeWhile isSpaceChar).get_mem _ _))
                    · rw [show i - lt.length
                          = (r1.takeWhile isSpaceChar).length
                            + (i - lt.length
                              - (r1.takeWhile isSpaceChar).length)
                          from by omega,
                        List.drop_append]
                      rcases lt_or_ge (i - lt.length
                          - (r1.takeWhile isSpaceChar).length)
                          ((r1.dropWhile isSpaceChar).takeWhile
                            isWordChar).length with hlt3 | hge3
                      · rw [List.drop_append_of_le_length (by omega),
                          List.append_assoc,
                          show ([s1, a, b] : List Char) ++ (c2 :: r5)
                            = s1 :: a :: b :: c2 :: r5 from rfl]
                        refine tryAuthorizationAt_none_of_word ?_
                          (Or.inr ⟨s1, _, rfl, Or.inl hs1sp⟩)
                        intro ch hch
                        exact hwdw ch (List.drop_subset _ _ hch)
                      · rw [show i - lt.length
                            - (r1.takeWhile isSpaceChar).length
                            = ((r1.dropWhile isSpaceChar).takeWhile
                              isWordChar).length
                              + (i - lt.length
                                - (r1.takeWhile isSpaceChar).length
                                - ((r1.dropWhile isSpaceChar).takeWhile
                                  isWordChar).length) from by omega,
                          List.drop_append]
                        cases hj3 : i - lt.length
                            - (r1.takeWhile isSpaceChar).length
                            - ((r1.dropWhile isSpaceChar).takeWhile
                              isWordChar).length with
                        | zero =>
                          rw [List.drop_zero,
                            show ([s1, a, b] : List Char) ++ (c2 :: r5)
                              = s1 :: a :: b :: c2 :: r5 from rfl]
                          exact tryAuthorizationAt_none_of_space_head _ hs1sp
                        | succ j4 =>
                          cases j4 with
                          | zero =>
                            rw [show (([s1, a, b] : List Char).drop 1)
                                ++ (c2 :: r5)
                                = a :: b :: c2 :: r5 from rfl]
                            unfold tryAuthorizationAt
                            rw [matchLitCI_none_of_mismatch 1
                              (show (a :: b :: c2 :: r5).get? 1 = some b
                                from rfl)
                              (show ("Authorization:".toList).get? 1
                                = some 'u' from rfl)
                              (nonword_not_lowerEq hbf (by decide))]
                          | succ j5 =>
                            have hj50 : j5 = 0 := by omega
                            subst hj50
                            rw [show (([s1, a, b] : List Char).drop 2)
                                ++ (c2 :: r5)
                                = b :: c2 :: r5 from rfl]
                            exact tryAuthorizationAt_none_of_nonword_head
                              _ hbf
                rw [hcsM, replaceAll_append_of_none hdeadm]
                generalize replaceAll tryAuthorizationAt (c2 :: r5) = Y
                have hshape : c :: ((lt ++ r1.takeWhile isSpaceChar
                    ++ (r1.dropWhile isSpaceChar).takeWhile isWordChar
                    ++ [s1, a, b]) ++ Y)
                    = (c :: lt) ++ (r1.takeWhile isSpaceChar
                      ++ ((r1.dropWhile isSpaceChar).takeWhile isWordChar
                        ++ s1 :: a :: b :: Y)) := by
                  simp
                rw [hshape]
                unfold tryAuthorizationAt
                rw [matchLitCI_of_forall₂ hfa]
                dsimp only []
                rw [show List.dropWhile isSpaceChar
                    (r1.takeWhile isSpaceChar
                      ++ ((r1.dropWhile isSpaceChar).takeWhile isWordChar
                        ++ s1 :: a :: b :: Y))
                    = w0 :: (wt ++ s1 :: a :: b :: Y) from by
                    rw [dropWhile_all_append _ _ _ hws1, hwd,
                      List.cons_append, List.dropWhile_cons,
                      if_neg (by simp [word_not_space hw0])]]
                rw [show List.dropWhile isWordChar
                    (w0 :: (wt ++ s1 :: a :: b :: Y)) = s1 :: a :: b :: Y from by
                    rw [List.dropWhile_cons, if_pos hw0,
                      dropWhile_all_append _ _ _ hwtw, List.dropWhile_cons,
                      if_neg (by simp [hs1w])]]
                rw [show List.takeWhile isWordChar
                    (w0 :: (wt ++ s1 :: a :: b :: Y))
                    = w0 :: List.takeWhile isWordChar
                      (wt ++ s1 :: a :: b :: Y) from by
                    rw [List.takeWhile_cons, if_pos hw0]]
                rw [if_neg (show ¬((w0 :: List.takeWhile isWordChar
                    (wt ++ s1 :: a :: b :: Y)).isEmpty = true) from by simp)]
                dsimp only []
                rw [if_pos hs1sp]
                cases Y with
                | nil => rfl
                | cons y1 Y1 =>
                  dsimp only []
                  rw [if_neg (by simp [hbf])]
              · have hcsM : cs = (lt ++ r1.takeWhile isSpaceChar
                    ++ (r1.dropWhile isSpaceChar).takeWhile isWordChar
                    ++ [s1, a, b, c2]) ++ (r5) := by
                  rw [hcs]
                  conv_lhs => rw [← List.takeWhile_append_dropWhile
                    (p := isSpaceChar) (l := r1)]
                  conv_lhs => rw [hDsplit]
                  simp [List.append_assoc]
                have hdeadm : ∀ i, i < (lt ++ r1.takeWhile isSpaceChar
                    ++ (r1.dropWhile isSpaceChar).takeWhile isWordChar
                    ++ [s1, a, b, c2]).length →
                    tryAuthorizationAt ((lt ++ r1.takeWhile isSpaceChar
                      ++ (r1.dropWhile isSpaceChar).takeWhile isWordChar
                      ++ [s1, a, b, c2]).drop i ++ (r5)) = none := by
                  intro i hi
                  simp only [List.length_append, List.length_cons,
                    List.length_nil, hlt13] at hi
                  rw [List.append_assoc, List.append_assoc]
                  rcases lt_or_ge i 13 with hlt | hge
                  · rw [List.drop_append_of_le_length
                      (by rw [hlt13]; omega), List.append_assoc]
                    exact hltkill i _ hlt
                  · rw [show i = lt.length + (i - lt.length) from by
                        rw [hlt13]; omega,
                      List.drop_append]
                    rcases lt_or_ge (i - lt.length)
                        (r1.takeWhile isSpaceChar).length with hlt2 | hge2
                    · rw [List.drop_append_of_le_length (by omega),
                        List.drop_eq_get_cons hlt2, List.cons_append,
                        List.cons_append]
                      exact tryAuthorizationAt_none_of_space_head _
                        (hws1 _ ((r1.takeWhile isSpaceChar).get_mem _ _))
                    · rw [show i - lt.length
                          = (r1.takeWhile isSpaceChar).length
                            + (i - lt.length
                              - (r1.takeWhile isSpaceChar).length)
                          from by omega,
                        List.drop_append]
                      rcases lt_or_ge (i - lt.length
                          - (r1.takeWhile isSpaceChar).length)
                          ((r1.dropWhile isSpaceChar).takeWhile
                            isWordChar).length with hlt3 | hge3
                      · rw [List.drop_append_of_le_length (by omega),
                          List.append_assoc,
                          show ([s1, a, b, c2] : List Char) ++ (r5)
                            = s1 :: a :: b :: c2 :: r5 from rfl]
                        refine tryAuthorizationAt_none_of_word ?_
                          (Or.inr ⟨s1, _, rfl, Or.inl hs1sp⟩)
                        intro ch hch
                        exact hwdw ch (List.drop_subset _ _ hch)
                      · rw [show i - lt.length
                            - (r1.takeWhile isSpaceChar).length
                            = ((r1.dropWhile isSpaceChar).takeWhile
                              isWordChar).length
                              + (i - lt.length
                                - (r1.takeWhile isSpaceChar).length
                                - ((r1.dropWhile isSpaceChar).takeWhile
                                  isWordChar).length) from by omega,
                          List.drop_append]
                        cases hj3 : i - lt.length
                            - (r1.takeWhile isSpaceChar).length
                            - ((r1.dropWhile isSpaceChar).takeWhile
                              isWordChar).length with
                        | zero =>
                          rw [List.drop_zero,
                            show ([s1, a, b, c2] : List Char) ++ r5
                              = s1 :: a :: b :: c2 :: r5 from rfl]
                          exact tryAuthorizationAt_none_of_space_head _ hs1sp
                        | succ j4 =>
                          cases j4 with
                          | zero =>
                            rw [show (([s1, a, b, c2] : List Char).drop 1)
                                ++ r5 = a :: b :: c2 :: r5 from rfl]
                            unfold tryAuthorizationAt
                            rw [matchLitCI_none_of_mismatch 2
                              (show (a :: b :: c2 :: r5).get? 2 = some c2
                                from rfl)
                              (show ("Authorization:".toList).get? 2
                                = some 't' from rfl)
                              (nonword_not_lowerEq hc2f (by decide))]
                          | succ j5 =>
                            cases j5 with
                            | zero =>
                              rw [show (([s1, a, b, c2] : List Char).drop 2)
                                  ++ r5 = b :: c2 :: r5 from rfl]
                              unfold tryAuthorizationAt
                              rw [matchLitCI_none_of_mismatch 1
                                (show (b :: c2 :: r5).get? 1 = some c2
                                  from rfl)
                                (show ("Authorization:".toList).get? 1
                                  = some 'u' from rfl)
                                (nonword_not_lowerEq hc2f (by decide))]
                            | succ j6 =>
                              have hj60 : j6 = 0 := by omega
                              subst hj60
                              rw [show (([s1, a, b, c2] : List Char).drop 3)
                                  ++ r5 = c2 :: r5 from rfl]
                              exact tryAuthorizationAt_none_of_nonword_head
                                _ hc2f
                rw [hcsM, replaceAll_append_of_none hdeadm]
                generalize replaceAll tryAuthorizationAt (r5) = Y
                have hshape : c :: ((lt ++ r1.takeWhile isSpaceChar
                    ++ (r1.dropWhile isSpaceChar).takeWhile isWordChar
                    ++ [s1, a, b, c2]) ++ Y)
                    = (c :: lt) ++ (r1.takeWhile isSpaceChar
                      ++ ((r1.dropWhile isSpaceChar).takeWhile isWordChar
                        ++ s1 :: a :: b :: c2 :: Y)) := by
                  simp
                rw [hshape]
                unfold tryAuthorizationAt
                rw [matchLitCI_of_forall₂ hfa]
                dsimp only []
                rw [show List.dropWhile isSpaceChar
                    (r1.takeWhile isSpaceChar
                      ++ ((r1.dropWhile isSpaceChar).takeWhile isWordChar
                        ++ s1 :: a :: b :: c2 :: Y))
                    = w0 :: (wt ++ s1 :: a :: b :: c2 :: Y) from by
                    rw [dropWhile_all_append _ _ _ hws1, hwd,
                      List.cons_append, List.dropWhile_cons,
                      if_neg (by simp [word_not_space hw0])]]
                rw [show List.dropWhile isWordChar
                    (w0 :: (wt ++ s1 :: a :: b :: c2 :: Y)) = s1 :: a :: b :: c2 :: Y from by
                    rw [List.dropWhile_cons, if_pos hw0,
                      dropWhile_all_append _ _ _ hwtw, List.dropWhile_cons,
                      if_neg (by simp [hs1w])]]
                rw [show List.takeWhile isWordChar
                    (w0 :: (wt ++ s1 :: a :: b :: c2 :: Y))
                    = w0 :: List.takeWhile isWordChar
                      (wt ++ s1 :: a :: b :: c2 :: Y) from by
                    rw [List.takeWhile_cons, if_pos hw0]]
                rw [if_neg (show ¬((w0 :: List.takeWhile isWordChar
                    (wt ++ s1 :: a :: b :: c2 :: Y)).isEmpty = true) from by simp)]
                dsimp only []
                rw [if_pos hs1sp]
                rw [if_neg (by simp [hc2f])]
          · -- F6: fewer than three characters after the space
            rename_i hnor4
            have hr4len : r4.length < 3 := by
              by_contra hc
              rw [Nat.not_lt] at hc
              cases r4 with
              | nil => simp at hc
              | cons a1 t1 =>
                cases t1 with
                | nil => simp at hc
                | cons b1 t2 =>
                  cases t2 with
                  | nil => simp at hc
                  | cons c1 t3 => exact hnor4 a1 b1 c1 t3 rfl
            have hwdw : ∀ ch ∈ (r1.dropWhile isSpaceChar).takeWhile
                isWordChar, isWordChar ch = true :=
              fun ch hch => mem_takeWhile_pred hch
            have hws1 : ∀ x ∈ r1.takeWhile isSpaceChar,
                isSpaceChar x = true :=
              fun x hx => mem_takeWhile_pred hx
            have hDsplit : r1.dropWhile isSpaceChar
                = (r1.dropWhile isSpaceChar).takeWhile isWordChar
                  ++ s1 :: r4 := by
              conv_lhs => rw [← List.takeWhile_append_dropWhile
                (p := isWordChar) (l := r1.dropWhile isSpaceChar), hr3]
            have hdead : ∀ i, i < cs.length →
                tryAuthorizationAt (cs.drop i) = none := by
              intro i hi
              rcases lt_or_ge i 13 with hlt | hge
              · rw [hcs, List.drop_append_of_le_length
                  (by rw [hlt13]; omega)]
                exact hltkill i _ hlt
              · rw [hcs, show i = lt.length + (i - lt.length) from by
                    rw [hlt13]; omega,
                  List.drop_append]
                have hir : i - lt.length < r1.length := by
                  rw [hcs, List.length_append, hlt13] at hi
                  rw [hlt13]
                  omega
                conv_lhs => rw [← List.takeWhile_append_dropWhile
                  (p := isSpaceChar) (l := r1)]
                rcases lt_or_ge (i - lt.length)
                    (r1.takeWhile isSpaceChar).length with hlt2 | hge2
                · rw [List.drop_append_of_le_length (by omega),
                    List.drop_eq_get_cons hlt2, List.cons_append]
                  exact tryAuthorizationAt_none_of_space_head _
                    (hws1 _ ((r1.takeWhile isSpaceChar).get_mem _ _))
                · rw [show i - lt.length
                      = (r1.takeWhile isSpaceChar).length
                        + (i - lt.length
                          - (r1.takeWhile isSpaceChar).length)
                      from by omega,
                    List.drop_append]
                  conv_lhs => rw [hDsplit]
                  rcases lt_or_ge (i - lt.length
                      - (r1.takeWhile isSpaceChar).length)
                      ((r1.dropWhile isSpaceChar).takeWhile
                        isWordChar).length with hlt3 | hge3
                  · rw [List.drop_append_of_le_length (by omega)]
                    refine tryAuthorizationAt_none_of_word ?_
                      (Or.inr ⟨s1, r4, rfl, Or.inl hs1sp⟩)
                    intro ch hch
                    exact hwdw ch (List.drop_subset _ _ hch)
                  · rw [show i - lt.length
                        - (r1.takeWhile isSpaceChar).length
                        = ((r1.dropWhile isSpaceChar).takeWhile
                          isWordChar).length
                          + (i - lt.length
                            - (r1.takeWhile isSpaceChar).length
                            - ((r1.dropWhile isSpaceChar).takeWhile
                              isWordChar).length) from by omega,
                      List.drop_append]
                    cases hj3 : i - lt.length
                        - (r1.takeWhile isSpaceChar).length
                        - ((r1.dropWhile isSpaceChar).takeWhile
                          isWordChar).length with
                    | zero =>
                      rw [List.drop_zero]
                      exact tryAuthorizationAt_none_of_space_head _ hs1sp
                    | succ j4 =>
                      rw [List.drop_succ_cons]
                      unfold tryAuthorizationAt
                      rw [matchLitCI_none_of_exhaust (by
                        rw [List.length_drop]
                        show r4.length - j4 < 14
                        omega)]
            rw [replaceAll_id_of_none hdead]
            exact h0
        · -- F3: the character after the word run is not whitespace
          rename_i hs1
          have hs1f : isSpaceChar s1 = false := by simpa using hs1
          have hws1 : ∀ x ∈ r1.takeWhile isSpaceChar, isSpaceChar x = true :=
            fun x hx => mem_takeWhile_pred hx
          obtain ⟨w0, wt, hwd⟩ : ∃ w0 wt,
              (r1.dropWhile isSpaceChar).takeWhile isWordChar
                = w0 :: wt := by
            cases hD2 : (r1.dropWhile isSpaceChar).takeWhile isWordChar with
            | nil =>
              rw [hD2] at hwdne
              simp at hwdne
            | cons a2 as2 => exact ⟨a2, as2, rfl⟩
          have hw0 : isWordChar w0 = true := by
            have h2 : w0 ∈ (r1.dropWhile isSpaceChar).takeWhile
                isWordChar := by
              rw [hwd]
              simp
            exact mem_takeWhile_pred h2
          have hDhead : r1.dropWhile isSpaceChar
              = w0 :: (wt ++ s1 :: r4) := by
            conv_lhs => rw [← List.takeWhile_append_dropWhile
              (p := isWordChar) (l := r1.dropWhile isSpaceChar), hwd, hr3]
            rw [List.cons_append]
          have hcs3 : cs = (lt ++ r1.takeWhile isSpaceChar)
              ++ r1.dropWhile isSpaceChar := by
            rw [hcs]
            conv_lhs => rw [← List.takeWhile_append_dropWhile
              (p := isSpaceChar) (l := r1)]
            simp [List.append_assoc]
          have hdeadm : ∀ i, i < (lt ++ r1.takeWhile isSpaceChar).length →
              tryAuthorizationAt ((lt ++ r1.takeWhile isSpaceChar).drop i
                ++ r1.dropWhile isSpaceChar) = none := by
            intro i hi
            rw [List.length_append, hlt13] at hi
            rcases lt_or_ge i 13 with hlt | hge
            · rw [List.drop_append_of_le_length (by rw [hlt13]; omega),
                List.append_assoc]
              exact hltkill i _ hlt
            · rw [show i = lt.length + (i - lt.length) from by
                  rw [hlt13]; omega,
                List.drop_append]
              have hilen : i - lt.length
                  < (r1.takeWhile isSpaceChar).length := by
                rw [hlt13]
                omega
              rw [List.drop_eq_get_cons hilen, List.cons_append]
              exact tryAuthorizationAt_none_of_space_head _
                (hws1 _ ((r1.takeWhile isSpaceChar).get_mem _ _))
          rw [hcs3, replaceAll_append_of_none hdeadm]
          obtain ⟨X2, hX2⟩ := replaceAll_head tryAuthorizationAt_shrinks
            tryAuthorizationAt_headKeeps w0 (wt ++ s1 :: r4)
          have hXD : replaceAll tryAuthorizationAt
              (r1.dropWhile isSpaceChar) = w0 :: X2 := by
            rw [hDhead]
            exact hX2
          have hfront := scan_word_frontier tryAuthorizationAt_shrinks
            (fun c2 cs2 hc2 =>
              tryAuthorizationAt_none_of_nonword_head cs2 hc2)
            (fun l2 rep2 rest2 h2 => tryAuthorizationAt_rep_frontier h2)
            (r1.dropWhile isSpaceChar) (Or.inr ⟨s1, r4, hr3, hs1f⟩)
          rw [hXD] at hfront ⊢
          have hshape : c :: ((lt ++ r1.takeWhile isSpaceChar)
              ++ (w0 :: X2))
              = (c :: lt) ++ (r1.takeWhile isSpaceChar ++ w0 :: X2) := by
            simp
          rw [hshape]
          unfold tryAuthorizationAt
          rw [matchLitCI_of_forall₂ hfa]
          dsimp only []
          rw [show List.dropWhile isSpaceChar (r1.takeWhile isSpaceChar
              ++ w0 :: X2) = w0 :: X2 from by
              rw [dropWhile_all_append _ _ _ hws1, List.dropWhile_cons,
                if_neg (by simp [word_not_space hw0])]]
          rw [show List.takeWhile isWordChar (w0 :: X2)
              = w0 :: List.takeWhile isWordChar X2 from by
              rw [List.takeWhile_cons, if_pos hw0]]
          rw [if_neg (show ¬((w0 :: List.takeWhile isWordChar X2).isEmpty
              = true) from by simp)]
          rcases hfront with hnil | ⟨d, v, hdv, hdns⟩
          · rw [hnil]
          · rw [hdv]
            dsimp only []
            rw [if_neg (by simp [hdns])]

/-- Crux: a failed authorization match at the head survives the password
scan of the tail. -/
theorem authConfineP {c : Char} {cs : List Char}
    (h : tryAuthorizationAt (c :: cs) = none) :
    tryAuthorizationAt (c :: replaceAll tryPasswordAt cs) = none := by
  have h0 := h
  unfold tryAuthorizationAt at h
  split at h
  · -- literal never matched
    rename_i hlit
    rcases matchLitCI_none_cases hlit with
      ⟨j, cj, pj, hcj, hpj, hex, hpre⟩ | ⟨hshort, hall⟩
    · have hj14 : j < 14 := by
        have := (List.get?_eq_some.mp hpj).1
        simpa using this
      cases j with
      | zero =>
        have hc : cj = c := by
          rw [show (c :: cs).get? 0 = some c from rfl] at hcj
          injection hcj with hcj2
          exact hcj2.symm
        have hp : pj = 'A' := by
          rw [show ("Authorization:".toList).get? 0 = some 'A' from rfl] at hpj
          injection hpj with hpj2
          exact hpj2.symm
        subst hc
        subst hp
        refine tryAuthorizationAt_none_of_head _ ?_
        cases hres : lowerEq cj 'a' with
        | false => rfl
        | true =>
          have h2 : lowerEq cj 'A' = true := by
            rw [lowerEq_iff] at hres ⊢
            rw [hres]
            decide
          rw [h2] at hex
          simp at hex
      | succ j2 =>
        have hjcs : j2 < cs.length := by
          have := (List.get?_eq_some.mp hcj).1
          simpa using this
        have hgj : cs.get? j2 = some cj := by simpa using hcj
        have hdead : ∀ i, i < j2 → tryPasswordAt (cs.drop i) = none := by
          intro i hi
          obtain ⟨ci2, pi2, h1, h2, h3⟩ := hpre (i + 1) (by omega)
          have hg : cs.get? i = some ci2 := by simpa using h1
          have hic : i < cs.length := (List.get?_eq_some.mp hg).1
          rw [List.drop_eq_get_cons hic]
          have hgi : cs.get ⟨i, hic⟩ = ci2 := by
            rw [List.get?_eq_get hic] at hg
            injection hg
          rw [hgi]
          refine tryPasswordAt_none_of_head _ ?_
          exact auth_shift_head_pwd (by omega) h2 h3
        have hdropeq : cs.drop j2 = cj :: cs.drop (j2 + 1) := by
          rw [List.drop_eq_get_cons hjcs]
          congr 1
          rw [List.get?_eq_get hjcs] at hgj
          injection hgj
        obtain ⟨u, hu⟩ := replaceAll_head tryPasswordAt_shrinks
          tryPasswordAt_headKeeps cj (cs.drop (j2 + 1))
        rw [replaceAll_take_split (by omega) hdead, hdropeq, hu]
        have hgetgoal : (c :: (cs.take j2 ++ cj :: u)).get? (j2 + 1)
            = some cj := by
          rw [show (c :: (cs.take j2 ++ cj :: u)).get? (j2 + 1)
            = (cs.take j2 ++ cj :: u).get? j2 from rfl]
          rw [List.get?_append_right (by rw [List.length_take]; omega)]
          rw [List.length_take]
          rw [show j2 - min j2 cs.length = 0 from by omega]
          rfl
        unfold tryAuthorizationAt
        rw [matchLitCI_none_of_mismatch (j2 + 1) hgetgoal hpj hex]
    · have hlen : cs.length < 13 := by
        have h2 : (c :: cs).length < 14 := by simpa using hshort
        rw [List.length_cons] at h2
        omega
      have hdead : ∀ i, i < cs.length →
          tryPasswordAt (cs.drop i) = none := by
        intro i hi
        obtain ⟨ci2, pi2, h1, h2, h3⟩ := hall (i + 1) (by simpa using hi)
        have hg : cs.get? i = some ci2 := by simpa using h1
        have hic : i < cs.length := (List.get?_eq_some.mp hg).1
        rw [List.drop_eq_get_cons hic]
        have hgi : cs.get ⟨i, hic⟩ = ci2 := by
          rw [List.get?_eq_get hic] at hg
          injection hg
        rw [hgi]
        refine tryPasswordAt_none_of_head _ ?_
        exact auth_shift_head_pwd (by omega) h2 h3
      rw [replaceAll_id_of_none hdead]
      exact h0
  · -- literal matched
    rename_i lit14 r1 hlit
    obtain ⟨hsl, hlen14, hfa⟩ := matchLitCI_some_decomp hlit
    obtain ⟨lt, hltn⟩ : ∃ lt, lit14 = c :: lt := by
      cases lit14 with
      | nil => simp at hlen14
      | cons c0 l0 =>
        rw [List.cons_append] at hsl
        injection hsl with e1 e2
        exact ⟨l0, by rw [← e1]⟩
    subst hltn
    have hlt13 : lt.length = 13 := by simpa using hlen14
    have hcs : cs = lt ++ r1 := by
      have h2 := congrArg List.tail hsl
      simpa using h2
    have hltkill : ∀ i Z, i < 13 →
        tryPasswordAt (lt.drop i ++ Z) = none := by
      intro i Z hi
      have he : lt.drop i = (c :: lt).drop (i + 1) := rfl
      rw [he]
      refine auth_tail_pwd_kill hfa (List.drop_suffix _ _) ?_ ?_ Z
      · intro hnil
        have h2 := congrArg List.length hnil
        rw [List.length_drop, List.length_nil, List.length_cons, hlt13] at h2
        omega
      · rw [List.length_drop, List.length_cons, hlt13]
        omega
    dsimp only [] at h
    split at h
    · -- F1: no word character after the spaces
      rename_i hempty
      cases hdw : r1.dropWhile isSpaceChar with
      | nil =>
        have hsp : ∀ ch ∈ r1, isSpaceChar ch = true := by
          intro ch hch
          have h2 := List.dropWhile_eq_nil_iff.mp hdw ch hch
          simpa using h2
        have hdead : ∀ i, i < cs.length →
            tryPasswordAt (cs.drop i) = none := by
          intro i hi
          rw [hcs] at hi
          rw [List.length_append, hlt13] at hi
          rcases lt_or_ge i 13 with hlt | hge
          · rw [hcs, List.drop_append_of_le_length (by rw [hlt13]; omega)]
            exact hltkill i _ hlt
          · rw [hcs, show i = lt.length + (i - lt.length) from by
                rw [hlt13]; omega,
              List.drop_append]
            have hilen : i - lt.length < r1.length := by
              rw [hlt13]
              omega
            rw [List.drop_eq_get_cons hilen]
            exact tryPasswordAt_none_of_space_head _
              (hsp _ (r1.get_mem _ _))
        rw [replaceAll_id_of_none hdead]
        exact h0
      | cons e es =>
        have hes : isSpaceChar e = false := dropWhile_head_not hdw
        have hew : isWordChar e = false := by
          rw [hdw] at hempty
          cases hres : isWordChar e with
          | false => rfl
          | true =>
            rw [List.takeWhile_cons, if_pos hres] at hempty
            simp at hempty
        have hr1 : r1 = r1.takeWhile isSpaceChar ++ e :: es := by
          conv_lhs => rw [← List.takeWhile_append_dropWhile
            (p := isSpaceChar) (l := r1), hdw]
        have hws1 : ∀ x ∈ r1.takeWhile isSpaceChar, isSpaceChar x = true :=
          fun x hx => mem_takeWhile_pred hx
        have hcs3 : cs = (lt ++ r1.takeWhile isSpaceChar ++ [e]) ++ es := by
          rw [hcs]
          conv_lhs => rw [hr1]
          simp [List.append_assoc]
        have hdeadm : ∀ i, i < (lt ++ r1.takeWhile isSpaceChar
            ++ [e]).length →
            tryPasswordAt ((lt ++ r1.takeWhile isSpaceChar
              ++ [e]).drop i ++ es) = none := by
          intro i hi
          rw [List.length_append, List.length_append, hlt13,
            List.length_cons, List.length_nil] at hi
          rcases lt_or_ge i 13 with hlt | hge
          · rw [List.append_assoc,
              List.drop_append_of_le_length (by rw [hlt13]; omega),
              List.append_assoc]
            exact hltkill i _ hlt
          · rcases lt_or_ge i (13 + (r1.takeWhile isSpaceChar).length)
              with hlt2 | hge2
            · rw [List.append_assoc, show i = lt.length + (i - lt.length)
                  from by rw [hlt13]; omega,
                List.drop_append]
              have hilen : i - lt.length
                  < (r1.takeWhile isSpaceChar).length := by
                rw [hlt13]
                omega
              rw [List.drop_append_of_le_length (by omega),
                List.drop_eq_get_cons hilen, List.cons_append,
                List.cons_append]
              exact tryPasswordAt_none_of_space_head _
                (hws1 _ ((r1.takeWhile isSpaceChar).get_mem _ _))
            · have hieq : i = (lt ++ r1.takeWhile isSpaceChar).length
                  + (i - (lt ++ r1.takeWhile isSpaceChar).length) := by
                rw [List.length_append, hlt13]
                omega
              have hiz : i - (lt ++ r1.takeWhile isSpaceChar).length = 0 := by
                rw [List.length_append, hlt13]
                omega
              rw [hieq, hiz, List.drop_append, List.drop_zero,
                List.cons_append]
              exact tryPasswordAt_none_of_nonword_head _ hew
        rw [hcs3, replaceAll_append_of_none hdeadm]
        have hshape : c :: ((lt ++ r1.takeWhile isSpaceChar ++ [e])
            ++ replaceAll tryPasswordAt es)
            = (c :: lt) ++ (r1.takeWhile isSpaceChar
              ++ e :: replaceAll tryPasswordAt es) := by
          simp
        rw [hshape]
        set E := replaceAll tryPasswordAt es with hE
        unfold tryAuthorizationAt
        rw [matchLitCI_of_forall₂ hfa]
        dsimp only []
        rw [show List.dropWhile isSpaceChar (r1.takeWhile isSpaceChar
            ++ e :: E) = e :: E from by
            rw [dropWhile_all_append _ _ _ hws1, List.dropWhile_cons,
              if_neg (by simp [hes])]]
        rw [show List.takeWhile isWordChar (e :: E) = [] from by
            rw [List.takeWhile_cons, if_neg (by simp [hew])]]
        rw [if_pos (show ([] : List Char).isEmpty = true from rfl)]
    · rename_i hwdne
      split at h
      · -- F2: the word run extends to the end of input
        rename_i hr3nil
        have hr2w : ∀ ch ∈ r1.dropWhile isSpaceChar, isWordChar ch = true := by
          intro ch hch
          have h2 := List.dropWhile_eq_nil_iff.mp hr3nil ch hch
          simpa using h2
        have hws1 : ∀ x ∈ r1.takeWhile isSpaceChar, isSpaceChar x = true :=
          fun x hx => mem_takeWhile_pred hx
        have hr1 : r1 = r1.takeWhile isSpaceChar
            ++ r1.dropWhile isSpaceChar :=
          (List.takeWhile_append_dropWhile _ _).symm
        have hdead : ∀ i, i < cs.length →
            tryPasswordAt (cs.drop i) = none := by
          intro i hi
          rw [hcs, List.length_append, hlt13] at hi
          rcases lt_or_ge i 13 with hlt | hge
          · rw [hcs, List.drop_append_of_le_length (by rw [hlt13]; omega)]
            exact hltkill i _ hlt
          · rw [hcs, show i = lt.length + (i - lt.length) from by
                rw [hlt13]; omega,
              List.drop_append]
            have hir : i - lt.length < r1.length := by
              rw [hlt13]
              omega
            conv_lhs => rw [hr1]
            rcases lt_or_ge (i - lt.length)
                (r1.takeWhile isSpaceChar).length with hlt2 | hge2
            · rw [List.drop_append_of_le_length (by omega),
                List.drop_eq_get_cons hlt2, List.cons_append]
              exact tryPasswordAt_none_of_space_head _
                (hws1 _ ((r1.takeWhile isSpaceChar).get_mem _ _))
            · rw [show i - lt.length = (r1.takeWhile isSpaceChar).length
                  + (i - lt.length - (r1.takeWhile isSpaceChar).length)
                  from by omega,
                List.drop_append]
              have hDlen : i - lt.length
                  - (r1.takeWhile isSpaceChar).length
                  < (r1.dropWhile isSpaceChar).length := by
                have h2 : (r1.takeWhile isSpaceChar).length
                    + (r1.dropWhile isSpaceChar).length = r1.length := by
                  rw [← List.length_append,
                    List.takeWhile_append_dropWhile]
                omega
              rw [show (r1.dropWhile isSpaceChar).drop
                  (i - lt.length - (r1.takeWhile isSpaceChar).length)
                  = (r1.dropWhile isSpaceChar).drop
                    (i - lt.length - (r1.takeWhile isSpaceChar).length)
                    ++ [] from (List.append_nil _).symm]
              refine tryPasswordAt_none_of_word ?_ (Or.inl rfl)
              intro ch hch
              exact hr2w ch (List.drop_subset _ _ hch)
        rw [replaceAll_id_of_none hdead]
        exact h0
      · rename_i s1 r4 hr3
        split at h
        · rename_i hs1sp
          split at h
          · rename_i a b c2 r5
            split at h
            · rename_i habc
              split at h
              · -- F5: the non-CRLF run is too short
                rename_i hrun
                have hws1 : ∀ x ∈ r1.takeWhile isSpaceChar,
                    isSpaceChar x = true :=
                  fun x hx => mem_takeWhile_pred hx
                have hwdw : ∀ ch ∈ (r1.dropWhile isSpaceChar).takeWhile
                    isWordChar, isWordChar ch = true :=
                  fun ch hch => mem_takeWhile_pred hch
                have hs1w : isWordChar s1 = false := dropWhile_head_not hr3
                have hDsplit : r1.dropWhile isSpaceChar
                    = (r1.dropWhile isSpaceChar).takeWhile isWordChar
                      ++ s1 :: a :: b :: c2 :: r5 := by
                  conv_lhs => rw [← List.takeWhile_append_dropWhile
                    (p := isWordChar) (l := r1.dropWhile isSpaceChar), hr3]
                cases hdcr : r5.dropWhile (fun ch => !isCRLF ch) with
                | nil =>
                  have hlen5 : r5.length < 3 := by
                    have h2 := congrArg List.length
                      (List.takeWhile_append_dropWhile
                        (p := fun ch => !isCRLF ch) (l := r5))
                    rw [List.length_append, hdcr, List.length_nil] at h2
                    omega
                  have hdead : ∀ i, i < cs.length →
                      tryPasswordAt (cs.drop i) = none := by
                    intro i hi
                    rcases lt_or_ge i 13 with hlt | hge
                    · rw [hcs, List.drop_append_of_le_length
                        (by rw [hlt13]; omega)]
                      exact hltkill i _ hlt
                    · rw [hcs, show i = lt.length + (i - lt.length) from by
                          rw [hlt13]; omega,
                        List.drop_append]
                      conv_lhs => rw [← List.takeWhile_append_dropWhile
                        (p := isSpaceChar) (l := r1)]
                      rcases lt_or_ge (i - lt.length)
                          (r1.takeWhile isSpaceChar).length with hlt2 | hge2
                      · rw [List.drop_append_of_le_length (by omega),
                          List.drop_eq_get_cons hlt2, List.cons_append]
                        exact tryPasswordAt_none_of_space_head _
                          (hws1 _ ((r1.takeWhile isSpaceChar).get_mem _ _))
                      · rw [show i - lt.length
                            = (r1.takeWhile isSpaceChar).length
                              + (i - lt.length
                                - (r1.takeWhile isSpaceChar).length)
                            from by omega,
                          List.drop_append]
                        conv_lhs => rw [hDsplit]
                        rcases lt_or_ge (i - lt.length
                            - (r1.takeWhile isSpaceChar).length)
                            ((r1.dropWhile isSpaceChar).takeWhile
                              isWordChar).length with hlt3 | hge3
                        · rw [List.drop_append_of_le_length (by omega)]
                          refine tryPasswordAt_none_of_word ?_
                            (Or.inr ⟨s1, _, rfl, Or.inl hs1sp⟩)
                          intro ch hch
                          exact hwdw ch (List.drop_subset _ _ hch)
                        · rw [show i - lt.length
                              - (r1.takeWhile isSpaceChar).length
                              = ((r1.dropWhile isSpaceChar).takeWhile
                                isWordChar).length
                                + (i - lt.length
                                  - (r1.takeWhile isSpaceChar).length
                                  - ((r1.dropWhile isSpaceChar).takeWhile
                                    isWordChar).length) from by omega,
                            List.drop_append]
                          cases hj3 : i - lt.length
                              - (r1.takeWhile isSpaceChar).length
                              - ((r1.dropWhile isSpaceChar).takeWhile
                                isWordChar).length with
                          | zero =>
                            rw [List.drop_zero]
                            exact tryPasswordAt_none_of_space_head
                              _ hs1sp
                          | succ j4 =>
                            rw [List.drop_succ_cons]
                            unfold tryPasswordAt
                            rw [matchLitCI_none_of_exhaust (by
                              rw [List.length_drop]
                              show (a :: b :: c2 :: r5).length - j4 < 9
                              simp only [List.length_cons]
                              omega)]
                  rw [replaceAll_id_of_none hdead]
                  exact h0
                | cons e ecs =>
                  have heb : isCRLF e = true := by
                    have h2 := dropWhile_head_not hdcr
                    simpa using h2
                  have hrunpred : ∀ u ∈ r5.takeWhile
                      (fun ch => !isCRLF ch), (!isCRLF u) = true :=
                    fun u hu => mem_takeWhile_pred hu
                  have hr5split : r5 = r5.takeWhile (fun ch => !isCRLF ch)
                      ++ e :: ecs := by
                    conv_lhs => rw [← List.takeWhile_append_dropWhile
                      (p := fun ch => !isCRLF ch) (l := r5), hdcr]
                  have hcsM : cs = (lt ++ r1.takeWhile isSpaceChar
                      ++ (r1.dropWhile isSpaceChar).takeWhile isWordChar
                      ++ (s1 :: (([a, b, c2]
                        ++ r5.takeWhile (fun ch => !isCRLF ch))
                        ++ [e]))) ++ ecs := by
                    rw [hcs]
                    conv_lhs => rw [← List.takeWhile_append_dropWhile
                      (p := isSpaceChar) (l := r1)]
                    conv_lhs => rw [hDsplit]
                    conv_lhs => rw [hr5split]
                    simp [List.append_assoc]
                  have hdeadm : ∀ i, i < (lt ++ r1.takeWhile isSpaceChar
                      ++ (r1.dropWhile isSpaceChar).takeWhile isWordChar
                      ++ (s1 :: (([a, b, c2]
                        ++ r5.takeWhile (fun ch => !isCRLF ch))
                        ++ [e]))).length →
                      tryPasswordAt ((lt ++ r1.takeWhile isSpaceChar
                        ++ (r1.dropWhile isSpaceChar).takeWhile isWordChar
                        ++ (s1 :: (([a, b, c2]
                          ++ r5.takeWhile (fun ch => !isCRLF ch))
                          ++ [e]))).drop i ++ ecs) = none := by
                    intro i hi
                    simp only [List.length_append, List.length_cons,
                      List.length_nil, hlt13] at hi
                    rw [List.append_assoc, List.append_assoc]
                    rcases lt_or_ge i 13 with hlt | hge
                    · rw [List.drop_append_of_le_length
                        (by rw [hlt13]; omega), List.append_assoc]
                      exact hltkill i _ hlt
                    · rw [show i = lt.length + (i - lt.length) from by
                          rw [hlt13]; omega,
                        List.drop_append]
                      rcases lt_or_ge (i - lt.length)
                          (r1.takeWhile isSpaceChar).length with hlt2 | hge2
                      · rw [List.drop_append_of_le_length (by omega),
                          List.drop_eq_get_cons hlt2, List.cons_append,
                          List.cons_append]
                        exact tryPasswordAt_none_of_space_head _
                          (hws1 _ ((r1.takeWhile isSpaceChar).get_mem _ _))
                      · rw [show i - lt.length
                            = (r1.takeWhile isSpaceChar).length
                              + (i - lt.length
                                - (r1.takeWhile isSpaceChar).length)
                            from by omega,
                          List.drop_append]
                        rcases lt_or_ge (i - lt.length
                            - (r1.takeWhile isSpaceChar).length)
                            ((r1.dropWhile isSpaceChar).takeWhile
                              isWordChar).length with hlt3 | hge3
                        · rw [List.drop_append_of_le_length (by omega),
                            List.append_assoc, List.cons_append]
                          refine tryPasswordAt_none_of_word ?_
                            (Or.inr ⟨s1, _, rfl, Or.inl hs1sp⟩)
                          intro ch hch
                          exact hwdw ch (List.drop_subset _ _ hch)
                        · rw [show i - lt.length
                              - (r1.takeWhile isSpaceChar).length
                              = ((r1.dropWhile isSpaceChar).takeWhile
                                isWordChar).length
                                + (i - lt.length
                                  - (r1.takeWhile isSpaceChar).length
                                  - ((r1.dropWhile isSpaceChar).takeWhile
                                    isWordChar).length) from by omega,
                            List.drop_append]
                          cases hj3 : i - lt.length
                              - (r1.takeWhile isSpaceChar).length
                              - ((r1.dropWhile isSpaceChar).takeWhile
                                isWordChar).length with
                          | zero =>
                            rw [List.drop_zero, List.cons_append]
                            exact tryPasswordAt_none_of_space_head
                              _ hs1sp
                          | succ j4 =>
                            rw [List.drop_succ_cons,
                              List.drop_append_of_le_length (by
                                rw [List.length_append]
                                simp only [List.length_cons,
                                  List.length_nil]
                                omega),
                              List.append_assoc, List.singleton_append]
                            have htlen : ((([a, b, c2]
                                ++ r5.takeWhile (fun ch => !isCRLF ch))
                                ).drop j4).length < 9 := by
                              rw [List.length_drop, List.length_append]
                              simp only [List.length_cons, List.length_nil]
                              omega
                            refine tryPasswordAt_none_of_space_at
                              ((([a, b, c2]
                                ++ r5.takeWhile (fun ch => !isCRLF ch))
                                ).drop j4).length ?_ htlen
                              (Or.inl (crlf_space heb))
                            rw [List.get?_append_right le_rfl, Nat.sub_self]
                            rfl
                  rw [hcsM, replaceAll_append_of_none hdeadm]
                  generalize replaceAll tryPasswordAt ecs = Y
                  have hshape : c :: ((lt ++ r1.takeWhile isSpaceChar
                      ++ (r1.dropWhile isSpaceChar).takeWhile isWordChar
                      ++ (s1 :: (([a, b, c2]
                        ++ r5.takeWhile (fun ch => !isCRLF ch))
                        ++ [e]))) ++ Y)
                      = (c :: lt) ++ (r1.takeWhile isSpaceChar
                        ++ ((r1.dropWhile isSpaceChar).takeWhile isWordChar
                          ++ s1 :: a :: b :: c2
                            :: (r5.takeWhile (fun ch => !isCRLF ch)
                              ++ e :: Y))) := by
                    simp
                  rw [hshape]
                  obtain ⟨w0, wt, hwd⟩ : ∃ w0 wt,
                      (r1.dropWhile isSpaceChar).takeWhile isWordChar
                        = w0 :: wt := by
                    cases hD2 : (r1.dropWhile isSpaceChar).takeWhile
                        isWordChar with
                    | nil =>
                      rw [hD2] at hwdne
                      simp at hwdne
                    | cons a2 as2 => exact ⟨a2, as2, rfl⟩
                  have hw0 : isWordChar w0 = true := by
                    have h2 : w0 ∈ (r1.dropWhile isSpaceChar).takeWhile
                        isWordChar := by
                      rw [hwd]
                      simp
                    exact mem_takeWhile_pred h2
                  have hwtw : ∀ ch ∈ wt, isWordChar ch = true := by
                    intro ch hch
                    refine hwdw ch ?_
                    rw [hwd]
                    exact List.mem_cons_of_mem _ hch
                  unfold tryAuthorizationAt
                  rw [matchLitCI_of_forall₂ hfa]
                  dsimp only []
                  rw [show List.dropWhile isSpaceChar
                      (r1.takeWhile isSpaceChar
                        ++ ((r1.dropWhile isSpaceChar).takeWhile isWordChar
                          ++ s1 :: a :: b :: c2
                            :: (r5.takeWhile (fun ch => !isCRLF ch)
                              ++ e :: Y)))
                      = w0 :: (wt ++ s1 :: a :: b :: c2
                          :: (r5.takeWhile (fun ch => !isCRLF ch)
                            ++ e :: Y)) from by
                      rw [dropWhile_all_append _ _ _ hws1, hwd,
                        List.cons_append, List.dropWhile_cons,
                        if_neg (by simp [word_not_space hw0])]]
                  rw [show List.dropWhile isWordChar
                      (w0 :: (wt ++ s1 :: a :: b :: c2
                        :: (r5.takeWhile (fun ch => !isCRLF ch)
                          ++ e :: Y)))
                      = s1 :: a :: b :: c2
                        :: (r5.takeWhile (fun ch => !isCRLF ch)
                          ++ e :: Y) from by
                      rw [List.dropWhile_cons, if_pos hw0,
                        dropWhile_all_append _ _ _ hwtw,
                        List.dropWhile_cons, if_neg (by simp [hs1w])]]
                  rw [show List.takeWhile isWordChar
                      (w0 :: (wt ++ s1 :: a :: b :: c2
                        :: (r5.takeWhile (fun ch => !isCRLF ch)
                          ++ e :: Y)))
                      = w0 :: List.takeWhile isWordChar
                        (wt ++ s1 :: a :: b :: c2
                          :: (r5.takeWhile (fun ch => !isCRLF ch)
                            ++ e :: Y)) from by
                      rw [List.takeWhile_cons, if_pos hw0]]
                  rw [if_neg (show ¬((w0 :: List.takeWhile isWordChar
                      (wt ++ s1 :: a :: b :: c2
                        :: (r5.takeWhile (fun ch => !isCRLF ch)
                          ++ e :: Y))).isEmpty = true) from by simp)]
                  dsimp only []
                  rw [if_pos hs1sp, if_pos habc]
                  rw [show List.takeWhile (fun ch => !isCRLF ch)
                      (r5.takeWhile (fun ch => !isCRLF ch) ++ e :: Y)
                      = r5.takeWhile (fun ch => !isCRLF ch) from by
                      rw [takeWhile_all_append _ _ _ hrunpred,
                        List.takeWhile_cons, if_neg (by simp [heb]),
                        List.append_nil]]
                  rw [if_pos hrun]
              · exact absurd h (by simp)
            · -- F4: the three wildcard characters are not all word
              rename_i habc
              have hws1 : ∀ x ∈ r1.takeWhile isSpaceChar,
                  isSpaceChar x = true :=
                fun x hx => mem_takeWhile_pred hx
              have hwdw : ∀ ch ∈ (r1.dropWhile isSpaceChar).takeWhile
                  isWordChar, isWordChar ch = true :=
                fun ch hch => mem_takeWhile_pred hch
              have hs1w : isWordChar s1 = false := dropWhile_head_not hr3
              obtain ⟨w0, wt, hwd⟩ : ∃ w0 wt,
                  (r1.dropWhile isSpaceChar).takeWhile isWordChar
                    = w0 :: wt := by
                cases hD2 : (r1.dropWhile isSpaceChar).takeWhile
                    isWordChar with
                | nil =>
                  rw [hD2] at hwdne
                  simp at hwdne
                | cons a2 as2 => exact ⟨a2, as2, rfl⟩
              have hw0 : isWordChar w0 = true := by
                have h2 : w0 ∈ (r1.dropWhile isSpaceChar).takeWhile
                    isWordChar := by
                  rw [hwd]
                  simp
                exact mem_takeWhile_pred h2
              have hwtw : ∀ ch ∈ wt, isWordChar ch = true := by
                intro ch hch
                refine hwdw ch ?_
                rw [hwd]
                exact List.mem_cons_of_mem _ hch
              have hDsplit : r1.dropWhile isSpaceChar
                  = (r1.dropWhile isSpaceChar).takeWhile isWordChar
                    ++ s1 :: a :: b :: c2 :: r5 := by
                conv_lhs => rw [← List.takeWhile_append_dropWhile
                  (p := isWordChar) (l := r1.dropWhile isSpaceChar), hr3]
              have habc2 : isWordChar a = false
                  ∨ isWordChar a = true ∧ isWordChar b = false
                  ∨ isWordChar a = true ∧ isWordChar b = true
                    ∧ isWordChar c2 = false := by
                cases ha : isWordChar a with
                | false => exact Or.inl rfl
                | true =>
                  cases hb : isWordChar b with
                  | false => exact Or.inr (Or.inl ⟨rfl, rfl⟩)
                  | true =>
                    cases hcw : isWordChar c2 with
                    | false => exact Or.inr (Or.inr ⟨rfl, rfl, rfl⟩)
                    | true => exact absurd (by rw [ha, hb, hcw]; decide) habc
              rcases habc2 with haf | ⟨hat, hbf⟩ | ⟨hat, hbt, hc2f⟩
              · have hcsM : cs = (lt ++ r1.takeWhile isSpaceChar
                    ++ (r1.dropWhile isSpaceChar).takeWhile isWordChar
                    ++ [s1, a]) ++ (b :: c2 :: r5) := by
                  rw [hcs]
                  conv_lhs => rw [← List.takeWhile_append_dropWhile
                    (p := isSpaceChar) (l := r1)]
                  conv_lhs => rw [hDsplit]
                  simp [List.append_assoc]
                have hdeadm : ∀ i, i < (lt ++ r1.takeWhile isSpaceChar
                    ++ (r1.dropWhile isSpaceChar).takeWhile isWordChar
                    ++ [s1, a]).length →
                    tryPasswordAt ((lt ++ r1.takeWhile isSpaceChar
                      ++ (r1.dropWhile isSpaceChar).takeWhile isWordChar
                      ++ [s1, a]).drop i ++ (b :: c2 :: r5)) = none := by
                  intro i hi
                  simp only [List.length_append, List.length_cons,
                    List.length_nil, hlt13] at hi
                  rw [List.append_assoc, List.append_assoc]
                  rcases lt_or_ge i 13 with hlt | hge
                  · rw [List.drop_append_of_le_length
                      (by rw [hlt13]; omega), List.append_assoc]
                    exact hltkill i _ hlt
                  · rw [show i = lt.length + (i - lt.length) from by
                        rw [hlt13]; omega,
                      List.drop_append]
                    rcases lt_or_ge (i - lt.length)
                        (r1.takeWhile isSpaceChar).length with hlt2 | hge2
                    · rw [List.drop_append_of_le_length (by omega),
                        List.drop_eq_get_cons hlt2, List.cons_append,
                        List.cons_append]
                      exact tryPasswordAt_none_of_space_head _
                        (hws1 _ ((r1.takeWhile isSpaceChar).get_mem _ _))
                    · rw [show i - lt.length
                          = (r1.takeWhile isSpaceChar).length
                            + (i - lt.length
                              - (r1.takeWhile isSpaceChar).length)
                          from by omega,
                        List.drop_append]
                      rcases lt_or_ge (i - lt.length
                          - (r1.takeWhile isSpaceChar).length)
                          ((r1.dropWhile isSpaceChar).takeWhile
                            isWordChar).length with hlt3 | hge3
                      · rw [List.drop_append_of_le_length (by omega),
                          List.append_assoc,
                          show ([s1, a] : List Char) ++ (b :: c2 :: r5)
                            = s1 :: a :: b :: c2 :: r5 from rfl]
                        refine tryPasswordAt_none_of_word ?_
                          (Or.inr ⟨s1, _, rfl, Or.inl hs1sp⟩)
                        intro ch hch
                        exact hwdw ch (List.drop_subset _ _ hch)
                      · rw [show i - lt.length
                            - (r1.takeWhile isSpaceChar).length
                            = ((r1.dropWhile isSpaceChar).takeWhile
                              isWordChar).length
                              + (i - lt.length
                                - (r1.takeWhile isSpaceChar).length
                                - ((r1.dropWhile isSpaceChar).takeWhile
                                  isWordChar).length) from by omega,
                          List.drop_append]
                        cases hj3 : i - lt.length
                            - (r1.takeWhile isSpaceChar).length
                            - ((r1.dropWhile isSpaceChar).takeWhile
                              isWordChar).length with
                        | zero =>
                          rw [List.drop_zero,
                            show ([s1, a] : List Char) ++ (b :: c2 :: r5)
                              = s1 :: a :: b :: c2 :: r5 from rfl]
                          exact tryPasswordAt_none_of_space_head _ hs1sp
                        | succ j4 =>
                          have hj40 : j4 = 0 := by omega
                          subst hj40
                          rw [show (([s1, a] : List Char).drop 1)
                              ++ (b :: c2 :: r5)
                              = a :: b :: c2 :: r5 from rfl]
                          exact tryPasswordAt_none_of_nonword_head
                            _ haf
                rw [hcsM, replaceAll_append_of_none hdeadm]
                generalize replaceAll tryPasswordAt (b :: c2 :: r5) = Y
                have hshape : c :: ((lt ++ r1.takeWhile isSpaceChar
                    ++ (r1.dropWhile isSpaceChar).takeWhile isWordChar
                    ++ [s1, a]) ++ Y)
                    = (c :: lt) ++ (r1.takeWhile isSpaceChar
                      ++ ((r1.dropWhile isSpaceChar).takeWhile isWordChar
                        ++ s1 :: a :: Y)) := by
                  simp
                rw [hshape]
                unfold tryAuthorizationAt
                rw [matchLitCI_of_forall₂ hfa]
                dsimp only []
                rw [show List.dropWhile isSpaceChar
                    (r1.takeWhile isSpaceChar
                      ++ ((r1.dropWhile isSpaceChar).takeWhile isWordChar
                        ++ s1 :: a :: Y))
                    = w0 :: (wt ++ s1 :: a :: Y) from by
                    rw [dropWhile_all_append _ _ _ hws1, hwd,
                      List.cons_append, List.dropWhile_cons,
                      if_neg (by simp [word_not_space hw0])]]
                rw [show List.dropWhile isWordChar
                    (w0 :: (wt ++ s1 :: a :: Y)) = s1 :: a :: Y from by
                    rw [List.dropWhile_cons, if_pos hw0,
                      dropWhile_all_append _ _ _ hwtw, List.dropWhile_cons,
                      if_neg (by simp [hs1w])]]
                rw [show List.takeWhile isWordChar
                    (w0 :: (wt ++ s1 :: a :: Y))
                    = w0 :: List.takeWhile isWordChar
                      (wt ++ s1 :: a :: Y) from by
                    rw [List.takeWhile_cons, if_pos hw0]]
                rw [if_neg (show ¬((w0 :: List.takeWhile isWordChar
                    (wt ++ s1 :: a :: Y)).isEmpty = true) from by simp)]
                dsimp only []
                rw [if_pos hs1sp]
                cases Y with
                | nil => rfl
                | cons y1 Y1 =>
                  cases Y1 with
                  | nil => rfl
                  | cons y2 Y2 =>
                    dsimp only []
                    rw [if_neg (by simp [haf])]
              · have hcsM : cs = (lt ++ r1.takeWhile isSpaceChar
                    ++ (r1.dropWhile isSpaceChar).takeWhile isWordChar
                    ++ [s1, a, b]) ++ (c2 :: r5) := by
                  rw [hcs]
                  conv_lhs => rw [← List.takeWhile_append_dropWhile
                    (p := isSpaceChar) (l := r1)]
                  conv_lhs => rw [hDsplit]
                  simp [List.append_assoc]
                have hdeadm : ∀ i, i < (lt ++ r1.takeWhile isSpaceChar
                    ++ (r1.dropWhile isSpaceChar).takeWhile isWordChar
                    ++ [s1, a, b]).length →
                    tryPasswordAt ((lt ++ r1.takeWhile isSpaceChar
                      ++ (r1.dropWhile isSpaceChar).takeWhile isWordChar
                      ++ [s1, a, b]).drop i ++ (c2 :: r5)) = none := by
                  intro i hi
                  simp only [List.length_append, List.length_cons,
                    List.length_nil, hlt13] at hi
                  rw [List.append_assoc, List.append_assoc]
                  rcases lt_or_ge i 13 with hlt | hge
                  · rw [List.drop_append_of_le_length
                      (by rw [hlt13]; omega), List.append_assoc]
                    exact hltkill i _ hlt
                  · rw [show i = lt.length + (i - lt.length) from by
                        rw [hlt13]; omega,
                      List.drop_append]
                    rcases lt_or_ge (i - lt.length)
                        (r1.takeWhile isSpaceChar).length with hlt2 | hge2
                    · rw [List.drop_append_of_le_length (by omega),
                        List.drop_eq_get_cons hlt2, List.cons_append,
                        List.cons_append]
                      exact tryPasswordAt_none_of_space_head _
                        (hws1 _ ((r1.takeWhile isSpaceChar).get_mem _ _))
                    · rw [show i - lt.length
                          = (r1.takeWhile isSpaceChar).length
                            + (i - lt.length
                              - (r1.takeWhile isSpaceChar).length)
                          from by omega,
                        List.drop_append]
                      rcases lt_or_ge (i - lt.length
                          - (r1.takeWhile isSpaceChar).length)
                          ((r1.dropWhile isSpaceChar).takeWhile
                            isWordChar).length with hlt3 | hge3
                      · rw [List.drop_append_of_le_length (by omega),
                          List.append_assoc,
                          show ([s1, a, b] : List Char) ++ (c2 :: r5)
                            = s1 :: a :: b :: c2 :: r5 from rfl]
                        refine tryPasswordAt_none_of_word ?_
                          (Or.inr ⟨s1, _, rfl, Or.inl hs1sp⟩)
                        intro ch hch
                        exact hwdw ch (List.drop_subset _ _ hch)
                      · rw [show i - lt.length
                            - (r1.takeWhile isSpaceChar).length
                            = ((r1.dropWhile isSpaceChar).takeWhile
                              isWordChar).length
                              + (i - lt.length
                                - (r1.takeWhile isSpaceChar).length
                                - ((r1.dropWhile isSpaceChar).takeWhile
                                  isWordChar).length) from by omega,
                          List.drop_append]
                        cases hj3 : i - lt.length
                            - (r1.takeWhile isSpaceChar).length
                            - ((r1.dropWhile isSpaceChar).takeWhile
                              isWordChar).length with
                        | zero =>
                          rw [List.drop_zero,
                            show ([s1, a, b] : List Char) ++ (c2 :: r5)
                              = s1 :: a :: b :: c2 :: r5 from rfl]
                          exact tryPasswordAt_none_of_space_head _ hs1sp
                        | succ j4 =>
                          cases j4 with
                          | zero =>
                            rw [show (([s1, a, b] : List Char).drop 1)
                                ++ (c2 :: r5)
                                = a :: b :: c2 :: r5 from rfl]
                            unfold tryPasswordAt
                            rw [matchLitCI_none_of_mismatch 1
                              (show (a :: b :: c2 :: r5).get? 1 = some b
                                from rfl)
                              (show ("password\"".toList).get? 1
                                = some 'a' from rfl)
                              (nonword_not_lowerEq hbf (by decide))]
                          | succ j5 =>
                            have hj50 : j5 = 0 := by omega
                            subst hj50
                            rw [show (([s1, a, b] : List Char).drop 2)
                                ++ (c2 :: r5)
                                = b :: c2 :: r5 from rfl]
                            exact tryPasswordAt_none_of_nonword_head
                              _ hbf
                rw [hcsM, replaceAll_append_of_none hdeadm]
                generalize replaceAll tryPasswordAt (c2 :: r5) = Y
                have hshape : c :: ((lt ++ r1.takeWhile isSpaceChar
                    ++ (r1.dropWhile isSpaceChar).takeWhile isWordChar
                    ++ [s1, a, b]) ++ Y)
                    = (c :: lt) ++ (r1.takeWhile isSpaceChar
                      ++ ((r1.dropWhile isSpaceChar).takeWhile isWordChar
                        ++ s1 :: a :: b :: Y)) := by
                  simp
                rw [hshape]
                unfold tryAuthorizationAt
                rw [matchLitCI_of_forall₂ hfa]
                dsimp only []
                rw [show List.dropWhile isSpaceChar
                    (r1.takeWhile isSpaceChar
                      ++ ((r1.dropWhile isSpaceChar).takeWhile isWordChar
                        ++ s1 :: a :: b :: Y))
                    = w0 :: (wt ++ s1 :: a :: b :: Y) from by
                    rw [dropWhile_all_append _ _ _ hws1, hwd,
                      List.cons_append, List.dropWhile_cons,
                      if_neg (by simp [word_not_space hw0])]]
                rw [show List.dropWhile isWordChar
                    (w0 :: (wt ++ s1 :: a :: b :: Y)) = s1 :: a :: b :: Y from by
                    rw [List.dropWhile_cons, if_pos hw0,
                      dropWhile_all_append _ _ _ hwtw, List.dropWhile_cons,
                      if_neg (by simp [hs1w])]]
                rw [show List.takeWhile isWordChar
                    (w0 :: (wt ++ s1 :: a :: b :: Y))
                    = w0 :: List.takeWhile isWordChar
                      (wt ++ s1 :: a :: b :: Y) from by
                    rw [List.takeWhile_cons, if_pos hw0]]
                rw [if_neg (show ¬((w0 :: List.takeWhile isWordChar
                    (wt ++ s1 :: a :: b :: Y)).isEmpty = true) from by simp)]
                dsimp only []
                rw [if_pos hs1sp]
                cases Y with
                | nil => rfl
                | cons y1 Y1 =>
                  dsimp only []
                  rw [if_neg (by simp [hbf])]
              · have hcsM : cs = (lt ++ r1.takeWhile isSpaceChar
                    ++ (r1.dropWhile isSpaceChar).takeWhile isWordChar
                    ++ [s1, a, b, c2]) ++ (r5) := by
                  rw [hcs]
                  conv_lhs => rw [← List.takeWhile_append_dropWhile
                    (p := isSpaceChar) (l := r1)]
                  conv_lhs => rw [hDsplit]
                  simp [List.append_assoc]
                have hdeadm : ∀ i, i < (lt ++ r1.takeWhile isSpaceChar
                    ++ (r1.dropWhile isSpaceChar).takeWhile isWordChar
                    ++ [s1, a, b, c2]).length →
                    tryPasswordAt ((lt ++ r1.takeWhile isSpaceChar
                      ++ (r1.dropWhile isSpaceChar).takeWhile isWordChar
                      ++ [s1, a, b, c2]).drop i ++ (r5)) = none := by
                  intro i hi
                  simp only [List.length_append, List.length_cons,
                    List.length_nil, hlt13] at hi
                  rw [List.append_assoc, List.append_assoc]
                  rcases lt_or_ge i 13 with hlt | hge
                  · rw [List.drop_append_of_le_length
                      (by rw [hlt13]; omega), List.append_assoc]
                    exact hltkill i _ hlt
                  · rw [show i = lt.length + (i - lt.length) from by
                        rw [hlt13]; omega,
                      List.drop_append]
                    rcases lt_or_ge (i - lt.length)
                        (r1.takeWhile isSpaceChar).length with hlt2 | hge2
                    · rw [List.drop_append_of_le_length (by omega),
                        List.drop_eq_get_cons hlt2, List.cons_append,
                        List.cons_append]
                      exact tryPasswordAt_none_of_space_head _
                        (hws1 _ ((r1.takeWhile isSpaceChar).get_mem _ _))
                    · rw [show i - lt.length
                          = (r1.takeWhile isSpaceChar).length
                            + (i - lt.length
                              - (r1.takeWhile isSpaceChar).length)
                          from by omega,
                        List.drop_append]
                      rcases lt_or_ge (i - lt.length
                          - (r1.takeWhile isSpaceChar).length)
                          ((r1.dropWhile isSpaceChar).takeWhile
                            isWordChar).length with hlt3 | hge3
                      · rw [List.drop_append_of_le_length (by omega),
                          List.append_assoc,
                          show ([s1, a, b, c2] : List Char) ++ (r5)
                            = s1 :: a :: b :: c2 :: r5 from rfl]
                        refine tryPasswordAt_none_of_word ?_
                          (Or.inr ⟨s1, _, rfl, Or.inl hs1sp⟩)
                        intro ch hch
                        exact hwdw ch (List.drop_subset _ _ hch)
                      · rw [show i - lt.length
                            - (r1.takeWhile isSpaceChar).length
                            = ((r1.dropWhile isSpaceChar).takeWhile
                              isWordChar).length
                              + (i - lt.length
                                - (r1.takeWhile isSpaceChar).length
                                - ((r1.dropWhile isSpaceChar).takeWhile
                                  isWordChar).length) from by omega,
                          List.drop_append]
                        cases hj3 : i - lt.length
                            - (r1.takeWhile isSpaceChar).length
                            - ((r1.dropWhile isSpaceChar).takeWhile
                              isWordChar).length with
                        | zero =>
                          rw [List.drop_zero,
                            show ([s1, a, b, c2] : List Char) ++ r5
                              = s1 :: a :: b :: c2 :: r5 from rfl]
                          exact tryPasswordAt_none_of_space_head _ hs1sp
                        | succ j4 =>
                          cases j4 with
                          | zero =>
                            rw [show (([s1, a, b, c2] : List Char).drop 1)
                                ++ r5 = a :: b :: c2 :: r5 from rfl]
                            unfold tryPasswordAt
                            rw [matchLitCI_none_of_mismatch 2
                              (show (a :: b :: c2 :: r5).get? 2 = some c2
                                from rfl)
                              (show ("password\"".toList).get? 2
                                = some 's' from rfl)
                              (nonword_not_lowerEq hc2f (by decide))]
                          | succ j5 =>
                            cases j5 with
                            | zero =>
                              rw [show (([s1, a, b, c2] : List Char).drop 2)
                                  ++ r5 = b :: c2 :: r5 from rfl]
                              unfold tryPasswordAt
                              rw [matchLitCI_none_of_mismatch 1
                                (show (b :: c2 :: r5).get? 1 = some c2
                                  from rfl)
                                (show ("password\"".toList).get? 1
                                  = some 'a' from rfl)
                                (nonword_not_lowerEq hc2f (by decide))]
                            | succ j6 =>
                              have hj60 : j6 = 0 := by omega
                              subst hj60
                              rw [show (([s1, a, b, c2] : List Char).drop 3)
                                  ++ r5 = c2 :: r5 from rfl]
                              exact tryPasswordAt_none_of_nonword_head
                                _ hc2f
                rw [hcsM, replaceAll_append_of_none hdeadm]
                generalize replaceAll tryPasswordAt (r5) = Y
                have hshape : c :: ((lt ++ r1.takeWhile isSpaceChar
                    ++ (r1.dropWhile isSpaceChar).takeWhile isWordChar
                    ++ [s1, a, b, c2]) ++ Y)
                    = (c :: lt) ++ (r1.takeWhile isSpaceChar
                      ++ ((r1.dropWhile isSpaceChar).takeWhile isWordChar
                        ++ s1 :: a :: b :: c2 :: Y)) := by
                  simp
                rw [hshape]
                unfold tryAuthorizationAt
                rw [matchLitCI_of_forall₂ hfa]
                dsimp only []
                rw [show List.dropWhile isSpaceChar
                    (r1.takeWhile isSpaceChar
                      ++ ((r1.dropWhile isSpaceChar).takeWhile isWordChar
                        ++ s1 :: a :: b :: c2 :: Y))
                    = w0 :: (wt ++ s1 :: a :: b :: c2 :: Y) from by
                    rw [dropWhile_all_append _ _ _ hws1, hwd,
                      List.cons_append, List.dropWhile_cons,
                      if_neg (by simp [word_not_space hw0])]]
                rw [show List.dropWhile isWordChar
                    (w0 :: (wt ++ s1 :: a :: b :: c2 :: Y)) = s1 :: a :: b :: c2 :: Y from by
                    rw [List.dropWhile_cons, if_pos hw0,
                      dropWhile_all_append _ _ _ hwtw, List.dropWhile_cons,
                      if_neg (by simp [hs1w])]]
                rw [show List.takeWhile isWordChar
                    (w0 :: (wt ++ s1 :: a :: b :: c2 :: Y))
                    = w0 :: List.takeWhile isWordChar
                      (wt ++ s1 :: a :: b :: c2 :: Y) from by
                    rw [List.takeWhile_cons, if_pos hw0]]
                rw [if_neg (show ¬((w0 :: List.takeWhile isWordChar
                    (wt ++ s1 :: a :: b :: c2 :: Y)).isEmpty = true) from by simp)]
                dsimp only []
                rw [if_pos hs1sp]
                rw [if_neg (by simp [hc2f])]
          · -- F6: fewer than three characters after the space
            rename_i hnor4
            have hr4len : r4.length < 3 := by
              by_contra hc
              rw [Nat.not_lt] at hc
              cases r4 with
              | nil => simp at hc
              | cons a1 t1 =>
                cases t1 with
                | nil => simp at hc
                | cons b1 t2 =>
                  cases t2 with
                  | nil => simp at hc
                  | cons c1 t3 => exact hnor4 a1 b1 c1 t3 rfl
            have hwdw : ∀ ch ∈ (r1.dropWhile isSpaceChar).takeWhile
                isWordChar, isWordChar ch = true :=
              fun ch hch => mem_takeWhile_pred hch
            have hws1 : ∀ x ∈ r1.takeWhile isSpaceChar,
                isSpaceChar x = true :=
              fun x hx => mem_takeWhile_pred hx
            have hDsplit : r1.dropWhile isSpaceChar
                = (r1.dropWhile isSpaceChar).takeWhile isWordChar
                  ++ s1 :: r4 := by
              conv_lhs => rw [← List.takeWhile_append_dropWhile
                (p := isWordChar) (l := r1.dropWhile isSpaceChar), hr3]
            have hdead : ∀ i, i < cs.length →
                tryPasswordAt (cs.drop i) = none := by
              intro i hi
              rcases lt_or_ge i 13 with hlt | hge
              · rw [hcs, List.drop_append_of_le_length
                  (by rw [hlt13]; omega)]
                exact hltkill i _ hlt
              · rw [hcs, show i = lt.length + (i - lt.length) from by
                    rw [hlt13]; omega,
                  List.drop_append]
                have hir : i - lt.length < r1.length := by
                  rw [hcs, List.length_append, hlt13] at hi
                  rw [hlt13]
                  omega
                conv_lhs => rw [← List.takeWhile_append_dropWhile
                  (p := isSpaceChar) (l := r1)]
                rcases lt_or_ge (i - lt.length)
                    (r1.takeWhile isSpaceChar).length with hlt2 | hge2
                · rw [List.drop_append_of_le_length (by omega),
                    List.drop_eq_get_cons hlt2, List.cons_append]
                  exact tryPasswordAt_none_of_space_head _
                    (hws1 _ ((r1.takeWhile isSpaceChar).get_mem _ _))
                · rw [show i - lt.length
                      = (r1.takeWhile isSpaceChar).length
                        + (i - lt.length
                          - (r1.takeWhile isSpaceChar).length)
                      from by omega,
                    List.drop_append]
                  conv_lhs => rw [hDsplit]
                  rcases lt_or_ge (i - lt.length
                      - (r1.takeWhile isSpaceChar).length)
                      ((r1.dropWhile isSpaceChar).takeWhile
                        isWordChar).length with hlt3 | hge3
                  · rw [List.drop_append_of_le_length (by omega)]
                    refine tryPasswordAt_none_of_word ?_
                      (Or.inr ⟨s1, r4, rfl, Or.inl hs1sp⟩)
                    intro ch hch
                    exact hwdw ch (List.drop_subset _ _ hch)
                  · rw [show i - lt.length
                        - (r1.takeWhile isSpaceChar).length
                        = ((r1.dropWhile isSpaceChar).takeWhile
                          isWordChar).length
                          + (i - lt.length
                            - (r1.takeWhile isSpaceChar).length
                            - ((r1.dropWhile isSpaceChar).takeWhile
                              isWordChar).length) from by omega,
                      List.drop_append]
                    cases hj3 : i - lt.length
                        - (r1.takeWhile isSpaceChar).length
                        - ((r1.dropWhile isSpaceChar).takeWhile
                          isWordChar).length with
                    | zero =>
                      rw [List.drop_zero]
                      exact tryPasswordAt_none_of_space_head _ hs1sp
                    | succ j4 =>
                      rw [List.drop_succ_cons]
                      unfold tryPasswordAt
                      rw [matchLitCI_none_of_exhaust (by
                        rw [List.length_drop]
                        show r4.length - j4 < 9
                        omega)]
            rw [replaceAll_id_of_none hdead]
            exact h0
        · -- F3: the character after the word run is not whitespace
          rename_i hs1
          have hs1f : isSpaceChar s1 = false := by simpa using hs1
          have hws1 : ∀ x ∈ r1.takeWhile isSpaceChar, isSpaceChar x = true :=
            fun x hx => mem_takeWhile_pred hx
          obtain ⟨w0, wt, hwd⟩ : ∃ w0 wt,
              (r1.dropWhile isSpaceChar).takeWhile isWordChar
                = w0 :: wt := by
            cases hD2 : (r1.dropWhile isSpaceChar).takeWhile isWordChar with
            | nil =>
              rw [hD2] at hwdne
              simp at hwdne
            | cons a2 as2 => exact ⟨a2, as2, rfl⟩
          have hw0 : isWordChar w0 = true := by
            have h2 : w0 ∈ (r1.dropWhile isSpaceChar).takeWhile
                isWordChar := by
              rw [hwd]
              simp
            exact mem_takeWhile_pred h2
          have hDhead : r1.dropWhile isSpaceChar
              = w0 :: (wt ++ s1 :: r4) := by
            conv_lhs => rw [← List.takeWhile_append_dropWhile
              (p := isWordChar) (l := r1.dropWhile isSpaceChar), hwd, hr3]
            rw [List.cons_append]
          have hcs3 : cs = (lt ++ r1.takeWhile isSpaceChar)
              ++ r1.dropWhile isSpaceChar := by
            rw [hcs]
            conv_lhs => rw [← List.takeWhile_append_dropWhile
              (p := isSpaceChar) (l := r1)]
            simp [List.append_assoc]
          have hdeadm : ∀ i, i < (lt ++ r1.takeWhile isSpaceChar).length →
              tryPasswordAt ((lt ++ r1.takeWhile isSpaceChar).drop i
                ++ r1.dropWhile isSpaceChar) = none := by
            intro i hi
            rw [List.length_append, hlt13] at hi
            rcases lt_or_ge i 13 with hlt | hge
            · rw [List.drop_append_of_le_length (by rw [hlt13]; omega),
                List.append_assoc]
              exact hltkill i _ hlt
            · rw [show i = lt.length + (i - lt.length) from by
                  rw [hlt13]; omega,
                List.drop_append]
              have hilen : i - lt.length
                  < (r1.takeWhile isSpaceChar).length := by
                rw [hlt13]
                omega
              rw [List.drop_eq_get_cons hilen, List.cons_append]
              exact tryPasswordAt_none_of_space_head _
                (hws1 _ ((r1.takeWhile isSpaceChar).get_mem _ _))
          rw [hcs3, replaceAll_append_of_none hdeadm]
          obtain ⟨X2, hX2⟩ := replaceAll_head tryPasswordAt_shrinks
            tryPasswordAt_headKeeps w0 (wt ++ s1 :: r4)
          have hXD : replaceAll tryPasswordAt
              (r1.dropWhile isSpaceChar) = w0 :: X2 := by
            rw [hDhead]
            exact hX2
          have hfront := scan_word_frontier tryPasswordAt_shrinks
            (fun c2 cs2 hc2 =>
              tryPasswordAt_none_of_nonword_head cs2 hc2)
            (fun l2 rep2 rest2 h2 => tryPasswordAt_rep_frontier h2)
            (r1.dropWhile isSpaceChar) (Or.inr ⟨s1, r4, hr3, hs1f⟩)
          rw [hXD] at hfront ⊢
          have hshape : c :: ((lt ++ r1.takeWhile isSpaceChar)
              ++ (w0 :: X2))
              = (c :: lt) ++ (r1.takeWhile isSpaceChar ++ w0 :: X2) := by
            simp
          rw [hshape]
          unfold tryAuthorizationAt
          rw [matchLitCI_of_forall₂ hfa]
          dsimp only []
          rw [show List.dropWhile isSpaceChar (r1.takeWhile isSpaceChar
              ++ w0 :: X2) = w0 :: X2 from by
              rw [dropWhile_all_append _ _ _ hws1, List.dropWhile_cons,
                if_neg (by simp [word_not_space hw0])]]
          rw [show List.takeWhile isWordChar (w0 :: X2)
              = w0 :: List.takeWhile isWordChar X2 from by
              rw [List.takeWhile_cons, if_pos hw0]]
          rw [if_neg (show ¬((w0 :: List.takeWhile isWordChar X2).isEmpty
              = true) from by simp)]
          rcases hfront with hnil | ⟨d, v, hdv, hdns⟩
          · rw [hnil]
          · rw [hdv]
            dsimp only []
            rw [if_neg (by simp [hdns])]

/-- The password scan is idempotent. -/
theorem pwdscan_idem (y : List Char) :
    replaceAll tryPasswordAt (replaceAll tryPasswordAt y)
      = replaceAll tryPasswordAt y := by
  suffices H : ∀ n y2, y2.length ≤ n →
      replaceAll tryPasswordAt (replaceAll tryPasswordAt y2)
        = replaceAll tryPasswordAt y2 from H y.length y le_rfl
  intro n
  induction n with
  | zero =>
    intro y2 hn
    have : y2 = [] := List.length_eq_zero.mp (Nat.le_zero.mp hn)
    subst this
    rfl
  | succ n ih =>
    intro y2 hn
    cases y2 with
    | nil => rfl
    | cons c cs =>
      cases htry : tryPasswordAt (c :: cs) with
      | none =>
        rw [replaceAll_cons_none htry]
        rw [replaceAll_cons_none (pwdConfine htry)]
        rw [ih cs (by simpa using hn)]
      | some pr =>
        obtain ⟨rep, rest⟩ := pr
        obtain ⟨lit, sp1, sp2, x, y2, run, hfa, hsp1, hsp2, hx, hy, hrun,
          hcase⟩ := tryPasswordAt_some_decomp htry
        have hlt : rest.length < (c :: cs).length :=
          tryPasswordAt_shrinks _ _ _ htry
        rw [replaceAll_cons_some tryPasswordAt_shrinks htry]
        rcases hcase with ⟨hs, hrep⟩ | ⟨lc, hlast, hlcn, hrq, hs, hrep⟩
        · have hsr : tryPasswordAt (rep ++ replaceAll tryPasswordAt rest)
              = some (rep, replaceAll tryPasswordAt rest) := by
            rw [hrep]
            exact tryPasswordAt_selfrep_case1 _ hfa hsp1 hsp2 hx hy
          rw [replaceAll_eq_of_some tryPasswordAt_shrinks hsr]
          rw [ih rest (by simp at hlt hn; omega)]
        · have hlcq : lc ≠ '"' := by
            have hmem : lc ∈ run := by
              rw [List.getLast?_eq_get? run] at hlast
              exact List.get?_mem hlast
            exact hrun lc hmem
          have hXq : ∀ t2, replaceAll tryPasswordAt rest ≠ '"' :: t2 := by
            cases rest with
            | nil =>
              intro t2 he
              exact absurd he (by simp [show replaceAll tryPasswordAt []
                = ([] : List Char) from rfl])
            | cons r0 rt =>
              have hr0 : r0 ≠ '"' := by
                intro he
                exact absurd rfl (by rw [he] at hrq; exact hrq rt)
              obtain ⟨u, hu⟩ := replaceAll_head tryPasswordAt_shrinks
                tryPasswordAt_headKeeps r0 rt
              rw [hu]
              intro t2 he
              injection he with he1 he2
              exact hr0 he1
          have hsr : tryPasswordAt (rep ++ replaceAll tryPasswordAt rest)
              = some (rep, replaceAll tryPasswordAt rest) := by
            rw [hrep]
            exact tryPasswordAt_selfrep_case2 hfa hsp1 hsp2 hx hy hlcn hlcq hXq
          rw [replaceAll_eq_of_some tryPasswordAt_shrinks hsr]
          rw [ih rest (by simp at hlt hn; omega)]

theorem selfMatch_of_suffix {f : List Char → Option (List Char × List Char)}
    {l1 l2 : List Char} (h : l1 <:+ l2) (hs : SelfMatch f l2) :
    SelfMatch f l1 :=
  fun t rep rest ht hm => hs t rep rest (ht.trans h) hm

/-- Every authorization match inside the output of the authorization scan
reproduces itself exactly. -/
theorem authscan_selfMatch (b : List Char) :
    SelfMatch tryAuthorizationAt (replaceAll tryAuthorizationAt b) := by
  suffices H : ∀ n b2, b2.length ≤ n →
      SelfMatch tryAuthorizationAt (replaceAll tryAuthorizationAt b2) from
    H b.length b le_rfl
  intro n
  induction n with
  | zero =>
    intro b2 hn t rep rest ht hm
    have hb : b2 = [] := List.length_eq_zero.mp (Nat.le_zero.mp hn)
    subst hb
    have ht2 : t = [] := List.eq_nil_of_suffix_nil
      (by rw [show replaceAll tryAuthorizationAt [] = ([] : List Char)
        from rfl] at ht; exact ht)
    rw [ht2, tryAuthorizationAt_nil] at hm
    exact absurd hm (by simp)
  | succ n ih =>
    intro b2 hn t rep rest ht hm
    rcases replaceAll_suffix_cases tryAuthorizationAt_shrinks
        tryAuthorizationAt_sufRest ht with ⟨v, hv, rfl⟩ |
        ⟨v, arep, arest, k, hv, hvm, hk1, hk2, rfl⟩
    · cases v with
      | nil =>
        rw [show replaceAll tryAuthorizationAt [] = ([] : List Char)
          from rfl, tryAuthorizationAt_nil] at hm
        exact absurd hm (by simp)
      | cons c cs =>
        cases htry : tryAuthorizationAt (c :: cs) with
        | none =>
          rw [replaceAll_cons_none htry, authConfineA htry] at hm
          exact absurd hm (by simp)
        | some pr =>
          obtain ⟨arep, arest⟩ := pr
          obtain ⟨lit, ws, wd, s1, a2, b2c, c2, mid, g2, hfa, hws, hwdne, hwd,
            hs1, ha2, hb2, hc2, hmid, hg2len, hg2, hrest, hs, hrep⟩ :=
            tryAuthorizationAt_some_decomp htry
          have hXc : replaceAll tryAuthorizationAt arest = [] ∨
              ∃ r0 rt, replaceAll tryAuthorizationAt arest = r0 :: rt ∧
                isCRLF r0 = true := by
            rcases hrest with rfl | ⟨r0, rt, rfl, hr0⟩
            · exact Or.inl rfl
            · obtain ⟨u, hu⟩ := replaceAll_head tryAuthorizationAt_shrinks
                tryAuthorizationAt_headKeeps r0 rt
              exact Or.inr ⟨r0, u, hu, hr0⟩
          have hg2a : tryAuthorizationAt (arep
              ++ replaceAll tryAuthorizationAt arest)
              = some (arep, replaceAll tryAuthorizationAt arest) := by
            rw [hrep]
            exact tryAuthorizationAt_selfrep hfa hws hwdne hwd hs1 ha2 hb2 hc2
              hg2len hg2 hXc
          rw [replaceAll_cons_some tryAuthorizationAt_shrinks htry] at hm ⊢
          rw [hg2a] at hm
          injection hm with hm2
          injection hm2 with hml hmr
          rw [← hml, ← hmr]
    · obtain ⟨lit, ws, wd, s1, a2, b2c, c2, mid, g2, hfa, hws, hwdne, hwd,
        hs1, ha2, hb2, hc2, hmid, hg2len, hg2, hrest, hs, hrep⟩ :=
        tryAuthorizationAt_some_decomp hvm
      have hXc : replaceAll tryAuthorizationAt arest = [] ∨
          ∃ r0 rt, replaceAll tryAuthorizationAt arest = r0 :: rt ∧
            isCRLF r0 = true := by
        rcases hrest with rfl | ⟨r0, rt, rfl, hr0⟩
        · exact Or.inl rfl
        · obtain ⟨u, hu⟩ := replaceAll_head tryAuthorizationAt_shrinks
            tryAuthorizationAt_headKeeps r0 rt
          exact Or.inr ⟨r0, u, hu, hr0⟩
      have hkill : tryAuthorizationAt (arep.drop k
          ++ replaceAll tryAuthorizationAt arest) = none := by
        refine tryAuthorizationAt_none_inside_authrep hfa hws hwd hs1 ha2 hb2
          hc2 hg2len hXc (hrep ▸ List.drop_suffix k arep) ?_ ?_
        · intro he
          have h2 := congrArg List.length he
          rw [List.length_drop, List.length_nil] at h2
          omega
        · rw [← hrep]
          rw [List.length_drop]
          omega
      rw [hkill] at hm
      exact absurd hm (by simp)

/-- If every authorization match in `y` reproduces itself, the
authorization scan leaves the password-scanned `y` unchanged. -/
theorem authscan_pwdscan_fixed {y : List Char}
    (hy : SelfMatch tryAuthorizationAt y) :
    replaceAll tryAuthorizationAt (replaceAll tryPasswordAt y)
      = replaceAll tryPasswordAt y := by
  suffices H : ∀ n y2, y2.length ≤ n → SelfMatch tryAuthorizationAt y2 →
      replaceAll tryAuthorizationAt (replaceAll tryPasswordAt y2)
        = replaceAll tryPasswordAt y2 from H y.length y le_rfl hy
  intro n
  induction n with
  | zero =>
    intro y2 hn _
    have : y2 = [] := List.length_eq_zero.mp (Nat.le_zero.mp hn)
    subst this
    rfl
  | succ n ih =>
    intro y2 hn hy2
    cases y2 with
    | nil => rfl
    | cons c cs =>
      cases htryA : tryAuthorizationAt (c :: cs) with
      | some pr =>
        obtain ⟨arep, arest⟩ := pr
        have hself := hy2 (c :: cs) arep arest (List.suffix_refl _) htryA
        obtain ⟨lit, ws, wd, s1, a2, b2c, c2, mid, g2, hfa, hws, hwdne, hwd,
          hs1, ha2, hb2, hc2, hmid, hg2len, hg2, hrest, hs, hrep⟩ :=
          tryAuthorizationAt_some_decomp htryA
        have hlt : arest.length < (c :: cs).length :=
          tryAuthorizationAt_shrinks _ _ _ htryA
        have htr : replaceAll tryPasswordAt (c :: cs)
            = arep ++ replaceAll tryPasswordAt arest := by
          rw [hself, hrep]
          exact pwdscan_authrep_transp hfa hws hwd hs1 ha2 hb2 hc2 hg2len hrest
        have hXc : replaceAll tryPasswordAt arest = [] ∨
            ∃ r0 rt, replaceAll tryPasswordAt arest = r0 :: rt ∧
              isCRLF r0 = true := by
          rcases hrest with rfl | ⟨r0, rt, rfl, hr0⟩
          · exact Or.inl rfl
          · obtain ⟨u, hu⟩ := replaceAll_head tryPasswordAt_shrinks
              tryPasswordAt_headKeeps r0 rt
            exact Or.inr ⟨r0, u, hu, hr0⟩
        have hg2a : tryAuthorizationAt (arep
            ++ replaceAll tryPasswordAt arest)
            = some (arep, replaceAll tryPasswordAt arest) := by
          rw [hrep]
          exact tryAuthorizationAt_selfrep hfa hws hwdne hwd hs1 ha2 hb2 hc2
            hg2len hg2 hXc
        rw [htr, replaceAll_eq_of_some tryAuthorizationAt_shrinks hg2a]
        have harest : arest <:+ c :: cs := ⟨arep, hself.symm⟩
        rw [ih arest (by simp at hlt hn; omega)
          (selfMatch_of_suffix harest hy2)]
      | none =>
        cases htryP : tryPasswordAt (c :: cs) with
        | none =>
          rw [replaceAll_cons_none htryP,
            replaceAll_cons_none (authConfineP htryA)]
          have hcs : cs <:+ c :: cs := List.suffix_cons c cs
          rw [ih cs (by simpa using hn) (selfMatch_of_suffix hcs hy2)]
        | some pr =>
          obtain ⟨prep, prest⟩ := pr
          obtain ⟨lit, sp1, sp2, x, y3, run, hfa, hsp1, hsp2, hx, hy3, hrun,
            hcase⟩ := tryPasswordAt_some_decomp htryP
          have hlt : prest.length < (c :: cs).length :=
            tryPasswordAt_shrinks _ _ _ htryP
          have hprest : prest <:+ c :: cs :=
            tryPasswordAt_sufRest _ _ _ htryP
          have hw1 : ∃ w1, prep = lit ++ sp1 ++ [':'] ++ sp2 ++ ['"', x, y3]
              ++ "***".toList ++ [w1, '"'] := by
            rcases hcase with ⟨hs, hrep⟩ | ⟨lc, _, _, _, hs, hrep⟩
            · exact ⟨'"', by rw [hrep]⟩
            · exact ⟨lc, by rw [hrep]⟩
          obtain ⟨w1, hrep⟩ := hw1
          have htrans : replaceAll tryAuthorizationAt
              (prep ++ replaceAll tryPasswordAt prest)
              = prep ++ replaceAll tryAuthorizationAt
                  (replaceAll tryPasswordAt prest) := by
            rw [hrep]
            exact authscan_pwdrep_transp _ hfa hsp1 hsp2
          rw [replaceAll_cons_some tryPasswordAt_shrinks htryP, htrans]
          rw [ih prest (by simp at hlt hn; omega)
            (selfMatch_of_suffix hprest hy2)]

/-- `SecretMask` is idempotent. -/
theorem secretMask_idem_aux (b : List Char) :
    SecretMask (SecretMask b) = SecretMask b := by
  unfold SecretMask
  rw [authscan_pwdscan_fixed (authscan_selfMatch b), pwdscan_idem]

/-- C3: `SecretMask` is idempotent — masking twice equals masking once
(every emitted replacement, re-scanned, matches its own pattern again
and reproduces itself exactly, so the second pass rewrites nothing) —
and in particular a buffer on which neither the authorization pattern
nor the password pattern matches at any position is returned
unchanged. -/
theorem secretMask_idempotent :
    (∀ b : List Char, SecretMask (SecretMask b) = SecretMask b) ∧
    (∀ b : List Char,
      (∀ i, i < b.length → tryAuthorizationAt (b.drop i) = none) →
      (∀ i, i < b.length → tryPasswordAt (b.drop i) = none) →
      SecretMask b = b) := by
  constructor
  · exact secretMask_idem_aux
  · intro b ha hp
    unfold SecretMask
    rw [replaceAll_id_of_none ha, replaceAll_id_of_none hp]

/-- Witness for C3: masking the masked form of a live credential changes
nothing, and the pattern-free buffer `"hello"` passes through
`SecretMask` untouched. -/
theorem secretMask_idempotent_witness :
    SecretMask (SecretMask "Authorization: Bearer tok42A xyz".toList)
      = SecretMask "Authorization: Bearer tok42A xyz".toList
    ∧ ((∀ i, i < ("hello".toList).length
        → tryAuthorizationAt (("hello".toList).drop i) = none)
      ∧ (∀ i, i < ("hello".toList).length
        → tryPasswordAt (("hello".toList).drop i) = none)
      ∧ SecretMask "hello".toList = "hello".toList) :=
  ⟨secretMask_idempotent.1 _,
    by decide,
    by decide,
    secretMask_idempotent.2 "hello".toList (by decide) (by decide)⟩


end GoLogger
